import Mathlib

/-!
# NPSMLE: path simulator and simulated-likelihood evaluator

A shallow embedding of `src/include/Replication.h`
(`simulate_replication`, `simulated_ll_replication`) and theorems about it.

## Modelling conventions

* `double` arithmetic is kept abstract.  The program is written once, over any
  carrier `α` that has `+ - * /`, unary minus and the functions of class
  `DoubleFns` (`exp`, `log`, `sqrt`, `pow`, the conversion `int → double`,
  decimal literals, `M_PI`, `std::isnormal`, the test `== -INFINITY`).
  A theorem stated for every such `α` holds for IEEE-754 binary64 and for
  exact real arithmetic alike.
* Theorems that compare the program with a closed formula of the
  specification are stated for `α = ℝ` (instance `instDoubleFnsReal`), that
  is in exact arithmetic: rounding is not modelled, and division by zero and
  the logarithm of a non-positive number have the conventional real values
  of the library.  A statement proved for `ℝ` only is a statement about the
  exact-arithmetic reading of the program; it says so, and it need not hold
  of the binary64 run when the order of the additions matters.
* `XRat` is a small executable carrier with the IEEE-754 special values
  (`+inf`, `-inf`, `NaN`), on which the program is run at concrete inputs.
* `B64` is `XRat` with the rounding of binary64 (53-bit significand, ties to
  even) after every operation; on it the program is run at concrete inputs
  where rounding decides, which exact arithmetic cannot show.
* `int` is `Int`; an operation whose mathematical result leaves
  `[INT_MIN, INT_MAX]` is undefined behaviour and makes the program return
  `none`.
* A C array is a `List`; a read or write outside the list is undefined
  behaviour and makes the program return `none`.  Distinct pointers of the
  source are distinct lists (no aliasing).
* A `for (int i = a; i != b; ++i)` loop is `forLoop`, recursive on `i`, with
  the source's inequality test.
* The generator of `simulate_replication` is a stream `z : Nat → α` of the
  successive values of `distribution_wiener(generator)`, together with the
  number of values drawn so far.
* `Header.h` and `Other.h` are not part of the sources at hand.  What the
  program uses from them (`st_dev`, `max_double`, whether `INFINITY_CHECK`
  is defined) is a parameter, structure `Other`; the fields of
  `WrapperSimulatedReplication` and `JointReplicationParameters` are the ones
  the program reads.
-/

namespace NPSMLE

/-! ## Machine integers and arrays -/

/-- Largest value of a 32-bit `int`. -/
def INT_MAX : Int := 2147483647

/-- Smallest value of a 32-bit `int`. -/
def INT_MIN : Int := -2147483648

/-- Signed multiplication `a * b` of two `int`s; overflow is undefined. -/
def imul (a b : Int) : Option Int :=
  if INT_MIN ≤ a * b ∧ a * b ≤ INT_MAX then some (a * b) else none

/-- Signed addition `a + b` of two `int`s; overflow is undefined. -/
def iadd (a b : Int) : Option Int :=
  if INT_MIN ≤ a + b ∧ a + b ≤ INT_MAX then some (a + b) else none

/-- Signed subtraction `a - b` of two `int`s; overflow is undefined. -/
def isub (a b : Int) : Option Int :=
  if INT_MIN ≤ a - b ∧ a - b ≤ INT_MAX then some (a - b) else none

/-- Array read `a[i]`. -/
def load {α : Type} (a : List α) (i : Int) : Option α :=
  if 0 ≤ i then a[i.toNat]? else none

/-- Array write `a[i] = v`. -/
def store {α : Type} (a : List α) (i : Int) (v : α) : Option (List α) :=
  if 0 ≤ i ∧ i.toNat < a.length then some (a.set i.toNat v) else none

/-- The loop `for (int i = i0; i != hi; ++i) body`, entered with counter `i`
and state `s`: the test, the body, the increment.  Incrementing `INT_MAX` is
undefined. -/
def forLoop {σ : Type} (hi : Int) (body : Int → σ → Option σ) (i : Int) (s : σ) : Option σ :=
  if i = hi then some s
  else
    match body i s with
    | none => none
    | some s1 =>
      if INT_MAX ≤ i then none
      else forLoop hi body (i + 1) s1
termination_by (INT_MAX - i).toNat
decreasing_by omega

/-! ## Floating-point signature -/

/-- The operations on `double` that the program uses besides `+ - * /` and
unary minus. -/
class DoubleFns (α : Type) where
  /-- A decimal literal of the source, such as `0.5`. -/
  lit : ℚ → α
  /-- The conversion `int → double`. -/
  ofInt : Int → α
  /-- Function `exp` of `<cmath>`. -/
  exp : α → α
  /-- Function `log` of `<cmath>`. -/
  log : α → α
  /-- Function `sqrt` of `<cmath>`. -/
  sqrt : α → α
  /-- Function `pow` of `<cmath>`. -/
  pow : α → α → α
  /-- Constant `M_PI` of `<cmath>`. -/
  M_PI : α
  /-- The test `x == -INFINITY`. -/
  isNegInfinity : α → Bool
  /-- Function `std::isnormal`. -/
  isnormal : α → Bool

open DoubleFns

/-- What the program uses from `Header.h` and `Other.h`. -/
structure Other (α : Type) where
  /-- Call `st_dev(buf, n)`, given the `n` values `buf[0..n-1]` and `n`. -/
  st_dev : List α → Int → α
  /-- The sentinel `max_double`. -/
  max_double : α
  /-- Whether the macro `INFINITY_CHECK` is defined. -/
  INFINITY_CHECK : Bool

/-- The model parameters. -/
structure JointReplicationParameters (α : Type) where
  mu : α
  alpha_0 : α
  alpha_1 : α
  alpha_2 : α
  rho : α

section Programs

variable {α : Type} [Add α] [Sub α] [Mul α] [Div α] [Neg α] [DoubleFns α]

/-- The correlated price increment built from an independent draw `z_p` and
the volatility draw `W_v` (source lines 41 and 91). -/
def correlate (rho z_p W_v : α) : α :=
  sqrt (lit 1 - rho * rho) * z_p + rho * W_v

/-- The right-hand side added to the price in one Euler sub-step
(source lines 43 and 104). -/
def price_increment (mu v W_p delta sqrt_delta : α) : α :=
  (mu - exp v * lit (1/2)) * delta + exp (v * lit (1/2)) * W_p * sqrt_delta

/-- The right-hand side added to the volatility in one Euler sub-step
(source lines 44 and 105). -/
def volatility_increment (alpha_0 alpha_1 alpha_2 v W_v delta sqrt_delta : α) : α :=
  (alpha_0 - alpha_1 * v) * delta + alpha_2 * W_v * sqrt_delta

/-! ## `simulate_replication` -/

/-- Memory touched by `simulate_replication`: the two output arrays and the
generator, a stream of standard-normal draws of which `drawn` are consumed. -/
structure SimState (α : Type) where
  price : List α
  volatility : List α
  drawn : Nat

/-- Body of the inner loop of `simulate_replication` (lines 40 to 44). -/
def simulate_replication.substep (parameters : JointReplicationParameters α)
    (z : Nat → α) (delta : α) (i : Int) (_j : Int) (s : SimState α) : Option (SimState α) :=
  let W_v := z s.drawn
  let W_p := correlate parameters.rho (z (s.drawn + 1)) W_v
  match load s.price i, load s.volatility i with
  | some p, some v =>
    match store s.price i (p + price_increment parameters.mu v W_p delta (sqrt delta)) with
    | none => none
    | some price1 =>
      match store s.volatility i
          (v + volatility_increment parameters.alpha_0 parameters.alpha_1 parameters.alpha_2
            v W_v delta (sqrt delta)) with
      | none => none
      | some volatility1 =>
        some { price := price1, volatility := volatility1, drawn := s.drawn + 2 }
  | _, _ => none

/-- Body of the outer loop of `simulate_replication` (lines 35 to 46). -/
def simulate_replication.step (parameters : JointReplicationParameters α)
    (z : Nat → α) (delta : α) (M_obs : Int) (i : Int) (s : SimState α) : Option (SimState α) :=
  match isub i 1 with
  | none => none
  | some im1 =>
    match load s.volatility im1 with
    | none => none
    | some v =>
      match store s.volatility i v with
      | none => none
      | some volatility1 =>
        match load s.price im1 with
        | none => none
        | some p =>
          match store s.price i p with
          | none => none
          | some price1 =>
            forLoop M_obs (simulate_replication.substep parameters z delta i) 0
              { price := price1, volatility := volatility1, drawn := s.drawn }

/-- Function `simulate_replication`.  The generator is the stream `z` of the
successive values of `distribution_wiener(generator)`. -/
def simulate_replication (z : Nat → α) (price volatility : List α)
    (parameters : JointReplicationParameters α) (dt : α) (N_obs M_obs : Int) (p0 v0 : α) :
    Option (SimState α) :=
  let delta := dt / ofInt M_obs
  match store volatility 0 v0 with
  | none => none
  | some volatility1 =>
    match store price 0 p0 with
    | none => none
    | some price1 =>
      forLoop N_obs (simulate_replication.step parameters z delta M_obs) 1
        { price := price1, volatility := volatility1, drawn := 0 }

/-! ## `simulated_ll_replication` -/

/-- The object behind the `data` pointer: the observed series, the workspace
buffers, the random context and the sizing fields. -/
structure WrapperSimulatedReplication (α : Type) where
  price : List α
  volatility : List α
  simulated_price : List α
  simulated_volatility : List α
  random_buffer_price : List α
  random_buffer_volatility : List α
  wiener_buffer_price : List α
  N_obs : Int
  N_sim : Int
  M_sim : Int
  dt : α

/-- Memory reachable from a call of `simulated_ll_replication` that the call
could write: the gradient vector and the wrapper. -/
structure EvalState (α : Type) where
  grad : List α
  data : WrapperSimulatedReplication α

/-- The constant `h_frac` (line 79), with `dimy = 1` and `undersmooth = 0.5`. -/
def h_frac (N_obs : Int) : α :=
  let dimy : Int := 1
  let undersmooth : α := lit (1/2)
  pow (lit 4 / ofInt dimy + lit 2) (lit 1 / (ofInt dimy + lit 4))
    * pow (ofInt N_obs) ((-(lit 1 + undersmooth)) / (ofInt dimy + lit 4))

/-- Body of the loop filling the correlated buffer (line 91). -/
def simulated_ll_replication.fill (rho : α) (i : Int) (s : EvalState α) :
    Option (EvalState α) :=
  match load s.data.random_buffer_price i, load s.data.random_buffer_volatility i with
  | some z_p, some W_v =>
    match store s.data.wiener_buffer_price i (correlate rho z_p W_v) with
    | none => none
    | some W_p => some { s with data := { s.data with wiener_buffer_price := W_p } }
  | _, _ => none

/-- Body of the innermost loop, one Euler sub-step of sub-path `j`
(lines 104 and 105). -/
def simulated_ll_replication.substep (mu alpha_0 alpha_1 alpha_2 delta sqrt_delta : α)
    (M_sim : Int) (j : Int) (k : Int) (s : EvalState α) : Option (EvalState α) :=
  match imul j M_sim with
  | none => none
  | some jM =>
    match iadd jM k with
    | none => none
    | some t =>
      match load s.data.simulated_price j, load s.data.simulated_volatility j,
          load s.data.wiener_buffer_price t with
      | some p, some v, some W_p =>
        match store s.data.simulated_price j (p + price_increment mu v W_p delta sqrt_delta) with
        | none => none
        | some sp1 =>
          match load s.data.random_buffer_volatility t with
          | none => none
          | some W_v =>
            match store s.data.simulated_volatility j
                (v + volatility_increment alpha_0 alpha_1 alpha_2 v W_v delta sqrt_delta) with
            | none => none
            | some sv1 =>
              some { s with data :=
                { s.data with simulated_price := sp1, simulated_volatility := sv1 } }
      | _, _, _ => none

/-- Body of the loop over the sub-paths (lines 99 to 106) at observation `i`. -/
def simulated_ll_replication.subpath (mu alpha_0 alpha_1 alpha_2 delta sqrt_delta : α)
    (M_sim : Int) (i : Int) (j : Int) (s : EvalState α) : Option (EvalState α) :=
  match isub i 1 with
  | none => none
  | some im1 =>
    match load s.data.price im1 with
    | none => none
    | some p =>
      match store s.data.simulated_price j p with
      | none => none
      | some sp1 =>
        match load s.data.volatility im1 with
        | none => none
        | some v =>
          match store s.data.simulated_volatility j v with
          | none => none
          | some sv1 =>
            forLoop M_sim
              (simulated_ll_replication.substep mu alpha_0 alpha_1 alpha_2 delta sqrt_delta M_sim j)
              0
              { s with data := { s.data with simulated_price := sp1, simulated_volatility := sv1 } }

/-- One univariate Gaussian kernel as the source writes it (lines 115, 116):
`exp((-(x - y) * (x - y)) / (2.0 * h * h)) / (h * sqrt_pi)`. -/
def kernel (x y h sqrt_pi : α) : α :=
  exp (((-(x - y)) * (x - y)) / (lit 2 * h * h)) / (h * sqrt_pi)

/-- Body of the kernel loop (lines 115 to 117); the loop state is the state of
the memory together with the local `kernel_sum`. -/
def simulated_ll_replication.accumulate (h_price h_volatility sqrt_pi : α) (i : Int) (j : Int)
    (c : EvalState α × α) : Option (EvalState α × α) :=
  match load c.1.data.simulated_price j, load c.1.data.price i,
      load c.1.data.simulated_volatility j, load c.1.data.volatility i with
  | some sp, some p, some sv, some v =>
    let kernel_sum_price := kernel sp p h_price sqrt_pi
    let kernel_sum_volatility := kernel sv v h_volatility sqrt_pi
    some (c.1, c.2 + kernel_sum_volatility * kernel_sum_price)
  | _, _, _, _ => none

/-- The main loop (lines 95 to 131), entered with counter `i`, the locals `ll`
and `kernel_sum`, and memory `s`.  The result is the returned `double` and
the memory at the return. -/
def simulated_ll_replication.loop (E : Other α)
    (mu alpha_0 alpha_1 alpha_2 delta sqrt_delta sqrt_pi h_frac : α) (N_obs N_sim M_sim : Int)
    (i : Int) (ll kernel_sum : α) (s : EvalState α) : Option (α × EvalState α) :=
  if i = N_obs then some (-ll, s)
  else
    match forLoop N_sim
        (simulated_ll_replication.subpath mu alpha_0 alpha_1 alpha_2 delta sqrt_delta M_sim i)
        0 s with
    | none => none
    | some s1 =>
      let h_price := h_frac * E.st_dev (s1.data.simulated_price.take N_sim.toNat) N_sim
      let h_volatility := h_frac * E.st_dev (s1.data.simulated_volatility.take N_sim.toNat) N_sim
      match forLoop N_sim
          (simulated_ll_replication.accumulate h_price h_volatility sqrt_pi i) 0
          (s1, kernel_sum) with
      | none => none
      | some (s2, kernel_sum1) =>
        let ll1 := ll + log (kernel_sum1 / ofInt N_sim)
        let kernel_sum2 : α := lit 0
        if E.INFINITY_CHECK && (isNegInfinity ll1 || !isnormal ll1) then
          some (E.max_double, s2)
        else if INT_MAX ≤ i then none
        else
          simulated_ll_replication.loop E mu alpha_0 alpha_1 alpha_2 delta sqrt_delta sqrt_pi
            h_frac N_obs N_sim M_sim (i + 1) ll1 kernel_sum2 s2
termination_by (INT_MAX - i).toNat
decreasing_by omega

/-- Function `simulated_ll_replication`: the returned `double` and the memory
after the call, or `none` when the call runs into undefined behaviour. -/
def simulated_ll_replication (E : Other α) (x : List α) (grad : List α)
    (data : WrapperSimulatedReplication α) : Option (α × EvalState α) :=
  match load x 0, load x 1, load x 2, load x 3, load x 4 with
  | some mu, some alpha_0, some alpha_1, some alpha_2, some rho =>
    let N_obs := data.N_obs
    let N_sim := data.N_sim
    let M_sim := data.M_sim
    let dt := data.dt
    let ll : α := lit 0
    let kernel_sum : α := lit 0
    let sqrt_pi : α := sqrt (lit 2 * M_PI)
    let h_frac : α := h_frac N_obs
    let delta := dt / ofInt M_sim
    let sqrt_delta := sqrt delta
    match imul N_sim M_sim with
    | none => none
    | some random_buffer_length =>
      match forLoop random_buffer_length (simulated_ll_replication.fill rho) 0
          { grad := grad, data := data } with
      | none => none
      | some s =>
        simulated_ll_replication.loop E mu alpha_0 alpha_1 alpha_2 delta sqrt_delta sqrt_pi
          h_frac N_obs N_sim M_sim 1 ll kernel_sum s
  | _, _, _, _, _ => none

/-! ## Closed forms

Pure descriptions of what the loops compute, used to state the theorems. -/

/-- The list `l` after the writes `l[0] = f 0`, ..., `l[n-1] = f (n-1)`. -/
def overwrite (l : List α) (f : Nat → α) : Nat → List α
  | 0 => l
  | n + 1 => (overwrite l f n).set n (f n)

/-- The value `l[i]` of an array cell (`0.0` outside the array). -/
def cell (l : List α) (i : Nat) : α := l.getD i (lit 0)

/-- One Euler sub-step from the point `pv = (price, volatility)` with
increments `W_p`, `W_v`: both components are advanced from the volatility at
the start of the sub-step. -/
def euler_substep (mu alpha_0 alpha_1 alpha_2 delta sqrt_delta : α) (pv : α × α)
    (W_p W_v : α) : α × α :=
  (pv.1 + price_increment mu pv.2 W_p delta sqrt_delta,
   pv.2 + volatility_increment alpha_0 alpha_1 alpha_2 pv.2 W_v delta sqrt_delta)

/-- The point reached from `pv` after `k` Euler sub-steps, sub-step `m` using
the increments `W_p m`, `W_v m`. -/
def euler_path (mu alpha_0 alpha_1 alpha_2 delta sqrt_delta : α) (W_p W_v : Nat → α)
    (pv : α × α) : Nat → α × α
  | 0 => pv
  | k + 1 =>
    euler_substep mu alpha_0 alpha_1 alpha_2 delta sqrt_delta
      (euler_path mu alpha_0 alpha_1 alpha_2 delta sqrt_delta W_p W_v pv k) (W_p k) (W_v k)

/-- The increments of sub-step `k` of observation interval `n` (from path point
`n` to path point `n + 1`) in `simulate_replication`: the volatility draw is
draw number `2 * (n * M + k)` of the generator, the independent price draw is
the next one. -/
def sim_W_v (z : Nat → α) (M n k : Nat) : α := z (2 * (n * M + k))

/-- The correlated price increment of sub-step `k` of observation interval `n`
in `simulate_replication`. -/
def sim_W_p (rho : α) (z : Nat → α) (M n k : Nat) : α :=
  correlate rho (z (2 * (n * M + k) + 1)) (z (2 * (n * M + k)))

/-- Path point `n` of `simulate_replication`: `(p0, v0)` for `n = 0`, and `M`
Euler sub-steps of size `delta` from the previous point otherwise. -/
def sim_point (parameters : JointReplicationParameters α) (z : Nat → α) (delta : α) (M : Nat)
    (p0 v0 : α) : Nat → α × α
  | 0 => (p0, v0)
  | n + 1 =>
    euler_path parameters.mu parameters.alpha_0 parameters.alpha_1 parameters.alpha_2
      delta (sqrt delta) (sim_W_p parameters.rho z M n) (sim_W_v z M n)
      (sim_point parameters z delta M p0 v0 n) M

/-- The values that `simulate_replication` adds to the price, in the order of
the additions, up to path point `n`: one `price_increment` per sub-step,
computed from the volatility at the start of the sub-step.  The volatility
path does not involve the price, so the start price is taken as `0.0` here. -/
def sim_increments (parameters : JointReplicationParameters α) (z : Nat → α) (delta : α)
    (M : Nat) (v0 : α) : Nat → List α
  | 0 => []
  | n + 1 =>
    sim_increments parameters z delta M v0 n ++
      (List.range M).map (fun k =>
        price_increment parameters.mu
          (euler_path parameters.mu parameters.alpha_0 parameters.alpha_1 parameters.alpha_2
            delta (sqrt delta) (sim_W_p parameters.rho z M n) (sim_W_v z M n)
            (sim_point parameters z delta M (lit 0) v0 n) k).2
          (sim_W_p parameters.rho z M n k) delta (sqrt delta))

/-- The correlated increment `W_p[t]` that a call with parameter vector `x`
writes (line 91). -/
def ll_W_p (x : List α) (data : WrapperSimulatedReplication α) (t : Nat) : α :=
  correlate (cell x 4) (cell data.random_buffer_price t) (cell data.random_buffer_volatility t)

/-- The volatility increment `W_v[t]`. -/
def ll_W_v (data : WrapperSimulatedReplication α) (t : Nat) : α :=
  cell data.random_buffer_volatility t

/-- The sub-step size `delta = dt / M_sim` (line 82). -/
def ll_delta (data : WrapperSimulatedReplication α) : α :=
  data.dt / ofInt data.M_sim

/-- The terminal point `(sp_j, sv_j)` of sub-path `j` at observation `i`: `M_sim`
Euler sub-steps from `(price[i-1], volatility[i-1])` with the increments of
slots `j * M_sim + k`, `k < M_sim`. -/
def ll_terminal (x : List α) (data : WrapperSimulatedReplication α) (i j : Nat) : α × α :=
  euler_path (cell x 0) (cell x 1) (cell x 2) (cell x 3) (ll_delta data) (sqrt (ll_delta data))
    (fun k => ll_W_p x data (j * data.M_sim.toNat + k))
    (fun k => ll_W_v data (j * data.M_sim.toNat + k))
    (cell data.price (i - 1), cell data.volatility (i - 1)) data.M_sim.toNat

/-- The simulated terminal prices `sp_0, ..., sp_(N_sim-1)` at observation `i`. -/
def ll_cloud_price (x : List α) (data : WrapperSimulatedReplication α) (i : Nat) : List α :=
  (List.range data.N_sim.toNat).map (fun j => (ll_terminal x data i j).1)

/-- The simulated terminal volatilities `sv_0, ..., sv_(N_sim-1)` at observation `i`. -/
def ll_cloud_volatility (x : List α) (data : WrapperSimulatedReplication α) (i : Nat) : List α :=
  (List.range data.N_sim.toNat).map (fun j => (ll_terminal x data i j).2)

/-- The bandwidth `h_price` at observation `i` (line 110). -/
def ll_h_price (E : Other α) (x : List α) (data : WrapperSimulatedReplication α) (i : Nat) : α :=
  h_frac data.N_obs * E.st_dev (ll_cloud_price x data i) data.N_sim

/-- The bandwidth `h_volatility` at observation `i` (line 111). -/
def ll_h_volatility (E : Other α) (x : List α) (data : WrapperSimulatedReplication α)
    (i : Nat) : α :=
  h_frac data.N_obs * E.st_dev (ll_cloud_volatility x data i) data.N_sim

/-- The local `kernel_sum` at observation `i` after the first `j` sub-paths
have been added to `0.0` (lines 113 to 118). -/
def ll_kernel_sum (E : Other α) (x : List α) (data : WrapperSimulatedReplication α) (i : Nat) :
    Nat → α
  | 0 => lit 0
  | j + 1 =>
    ll_kernel_sum E x data i j
      + kernel (ll_terminal x data i j).2 (cell data.volatility i) (ll_h_volatility E x data i)
          (sqrt (lit 2 * M_PI))
        * kernel (ll_terminal x data i j).1 (cell data.price i) (ll_h_price E x data i)
          (sqrt (lit 2 * M_PI))

/-- The density estimate `kernel_sum / N_sim` at observation `i` (line 120). -/
def ll_density (E : Other α) (x : List α) (data : WrapperSimulatedReplication α) (i : Nat) : α :=
  ll_kernel_sum E x data i data.N_sim.toNat / ofInt data.N_sim

/-- The running log-likelihood `ll` after `n` observation steps. -/
def ll_sum (E : Other α) (x : List α) (data : WrapperSimulatedReplication α) : Nat → α
  | 0 => lit 0
  | n + 1 => ll_sum E x data n + log (ll_density E x data (n + 1))

/-- Whether the degeneracy guard (line 126) fires after observation step `n`. -/
def ll_fires (E : Other α) (x : List α) (data : WrapperSimulatedReplication α) (n : Nat) : Bool :=
  E.INFINITY_CHECK &&
    (isNegInfinity (ll_sum E x data n) || !isnormal (ll_sum E x data n))

/-- The memory after the correlated buffer is filled and `n` observation steps
are done: the correlated buffer holds the increments, the two simulated
buffers hold the cloud of step `n` (their initial contents when `n = 0`). -/
def ll_memory (x grad : List α) (data : WrapperSimulatedReplication α) (n : Nat) : EvalState α :=
  { grad := grad,
    data :=
      { data with
        wiener_buffer_price :=
          overwrite data.wiener_buffer_price (ll_W_p x data)
            (data.N_sim.toNat * data.M_sim.toNat),
        simulated_price :=
          if n = 0 then data.simulated_price
          else overwrite data.simulated_price (fun j => (ll_terminal x data n j).1)
            data.N_sim.toNat,
        simulated_volatility :=
          if n = 0 then data.simulated_volatility
          else overwrite data.simulated_volatility (fun j => (ll_terminal x data n j).2)
            data.N_sim.toNat } }

/-- The memory once the correlated buffer is filled, the two simulated
buffers holding `sp` and `sv`. -/
def ll_workspace (x grad : List α) (data : WrapperSimulatedReplication α) (sp sv : List α) :
    EvalState α :=
  { grad := grad,
    data :=
      { data with
        wiener_buffer_price :=
          overwrite data.wiener_buffer_price (ll_W_p x data)
            (data.N_sim.toNat * data.M_sim.toNat),
        simulated_price := sp,
        simulated_volatility := sv } }

/-- The result of the main loop when it is entered after `n` observation steps
with `todo` steps to go: the sentinel at the first step whose guard fires,
`-ll` when none does. -/
def ll_outcome (E : Other α) (x grad : List α) (data : WrapperSimulatedReplication α) :
    (todo : Nat) → (n : Nat) → α × EvalState α
  | 0, n => (-(ll_sum E x data n), ll_memory x grad data n)
  | todo + 1, n =>
    if ll_fires E x data (n + 1) then (E.max_double, ll_memory x grad data (n + 1))
    else ll_outcome E x grad data todo (n + 1)

/-- The sizes under which a call of `simulated_ll_replication` stays inside its
arrays and inside the range of `int`. -/
structure Sized (x : List α) (data : WrapperSimulatedReplication α) : Prop where
  x_length : 5 ≤ x.length
  N_obs_pos : 1 ≤ data.N_obs
  N_obs_max : data.N_obs ≤ INT_MAX
  N_sim_nonneg : 0 ≤ data.N_sim
  N_sim_max : data.N_sim ≤ INT_MAX
  M_sim_nonneg : 0 ≤ data.M_sim
  M_sim_max : data.M_sim ≤ INT_MAX
  slots_max : data.N_sim * data.M_sim ≤ INT_MAX
  price_length : data.N_obs ≤ data.price.length
  volatility_length : data.N_obs ≤ data.volatility.length
  simulated_price_length : data.N_sim ≤ data.simulated_price.length
  simulated_volatility_length : data.N_sim ≤ data.simulated_volatility.length
  random_buffer_price_length : data.N_sim * data.M_sim ≤ data.random_buffer_price.length
  random_buffer_volatility_length : data.N_sim * data.M_sim ≤ data.random_buffer_volatility.length
  wiener_buffer_price_length : data.N_sim * data.M_sim ≤ data.wiener_buffer_price.length

end Programs

/-! ## Exact real arithmetic -/

/-- The interpretation of the `double` operations in exact real arithmetic.
There is no infinity, and a real number is normal when it is not zero. -/
noncomputable instance instDoubleFnsReal : DoubleFns ℝ where
  lit q := (q : ℝ)
  ofInt n := (n : ℝ)
  exp := Real.exp
  log := Real.log
  sqrt := Real.sqrt
  pow x y := x ^ y
  M_PI := Real.pi
  isNegInfinity _ := false
  isnormal x := decide (x ≠ 0)

/-- The Gaussian kernel as the specification writes it:
`K(u; h) = exp(-u^2 / (2 h^2)) / (h * sqrt(2 pi))`. -/
noncomputable def gaussian_kernel (u h : ℝ) : ℝ :=
  Real.exp (-u ^ 2 / (2 * h ^ 2)) / (h * Real.sqrt (2 * Real.pi))

/-- The density estimate as the specification writes it:
`D_i = (1 / N_sim) * sum over j < N_sim of
K(sp_j - price[i]; h_price) * K(sv_j - volatility[i]; h_volatility)`, with
`h_price = h_frac * st_dev(sp)` and `h_volatility = h_frac * st_dev(sv)`. -/
noncomputable def kernel_density (E : Other ℝ) (x : List ℝ)
    (data : WrapperSimulatedReplication ℝ) (i : Nat) : ℝ :=
  (1 / (data.N_sim : ℝ)) *
    ∑ j ∈ Finset.range data.N_sim.toNat,
      gaussian_kernel ((ll_terminal x data i j).1 - cell data.price i)
          (h_frac data.N_obs * E.st_dev (ll_cloud_price x data i) data.N_sim)
        * gaussian_kernel ((ll_terminal x data i j).2 - cell data.volatility i)
          (h_frac data.N_obs * E.st_dev (ll_cloud_volatility x data i) data.N_sim)

/-! ## A small executable arithmetic with the IEEE-754 special values -/

/-- Extended rationals: a finite value, `+inf`, `-inf` or `NaN`.  The four
operations are exact on finite values and follow the IEEE-754 rules on the
special values (there is one zero, of positive sign). -/
inductive XRat where
  | fin (q : ℚ)
  | pinf
  | ninf
  | nan
  deriving DecidableEq

namespace XRat

/-- Addition. -/
def add : XRat → XRat → XRat
  | nan, _ => nan
  | _, nan => nan
  | pinf, ninf => nan
  | ninf, pinf => nan
  | pinf, _ => pinf
  | _, pinf => pinf
  | ninf, _ => ninf
  | _, ninf => ninf
  | fin a, fin b => fin (a + b)

/-- Unary minus. -/
def neg : XRat → XRat
  | nan => nan
  | pinf => ninf
  | ninf => pinf
  | fin a => fin (-a)

/-- Subtraction. -/
def sub (x y : XRat) : XRat := add x (neg y)

/-- An infinity of the sign of `pos`. -/
def inf (pos : Bool) : XRat := if pos then pinf else ninf

/-- Multiplication. -/
def mul : XRat → XRat → XRat
  | nan, _ => nan
  | _, nan => nan
  | pinf, pinf => pinf
  | pinf, ninf => ninf
  | ninf, pinf => ninf
  | ninf, ninf => pinf
  | pinf, fin b => if b = 0 then nan else inf (decide (0 < b))
  | ninf, fin b => if b = 0 then nan else inf (decide (b < 0))
  | fin a, pinf => if a = 0 then nan else inf (decide (0 < a))
  | fin a, ninf => if a = 0 then nan else inf (decide (a < 0))
  | fin a, fin b => fin (a * b)

/-- Division. -/
def div : XRat → XRat → XRat
  | nan, _ => nan
  | _, nan => nan
  | pinf, fin b => inf (decide (0 ≤ b))
  | ninf, fin b => inf (decide (b < 0))
  | fin _, pinf => fin 0
  | fin _, ninf => fin 0
  | fin a, fin b =>
    if b = 0 then (if a = 0 then nan else inf (decide (0 < a))) else fin (a / b)
  | _, _ => nan

/-- A stand-in for `exp`: exact at `0` and on the special values, the
second-order Taylor polynomial elsewhere. -/
def exp : XRat → XRat
  | nan => nan
  | pinf => pinf
  | ninf => fin 0
  | fin a => fin (1 + a + a * a / 2)

/-- A stand-in for `log`: exact at `0`, at `1` and on the special values, a
Pade approximant elsewhere. -/
def log : XRat → XRat
  | nan => nan
  | pinf => pinf
  | ninf => nan
  | fin a => if a < 0 then nan else if a = 0 then ninf else fin (2 * (a - 1) / (a + 1))

/-- A stand-in for `sqrt`: exact at `0`, at `1` and on the special values, one
Newton step from `1` elsewhere. -/
def sqrt : XRat → XRat
  | nan => nan
  | pinf => pinf
  | ninf => nan
  | fin a => if a < 0 then nan else if a = 0 then fin 0 else fin ((1 + a) / 2)

/-- A stand-in for `pow`: `exp (y * log x)`. -/
def pow (x y : XRat) : XRat := exp (mul y (log x))

/-- Function `std::isfinite`. -/
def isfinite : XRat → Bool
  | fin _ => true
  | _ => false

end XRat

instance : Add XRat := ⟨XRat.add⟩
instance : Sub XRat := ⟨XRat.sub⟩
instance : Mul XRat := ⟨XRat.mul⟩
instance : Div XRat := ⟨XRat.div⟩
instance : Neg XRat := ⟨XRat.neg⟩

/-- The `double` operations on the extended rationals.  Every nonzero finite
value counts as normal. -/
instance instDoubleFnsXRat : DoubleFns XRat where
  lit q := XRat.fin q
  ofInt n := XRat.fin n
  exp := XRat.exp
  log := XRat.log
  sqrt := XRat.sqrt
  pow := XRat.pow
  M_PI := XRat.fin (355 / 113)
  isNegInfinity x := decide (x = XRat.ninf)
  isnormal x :=
    match x with
    | XRat.fin q => decide (q ≠ 0)
    | _ => false

/-- Modelled from the spec: `st_dev` of `Other.h`, which is not among the
sources; the specification calls it the sample standard deviation of the
`n` values: the square root of the sum of squared deviations from the mean,
divided by `n - 1`. -/
def sample_st_dev {α : Type} [Add α] [Sub α] [Mul α] [Div α] [DoubleFns α]
    (values : List α) (n : Int) : α :=
  let mean := values.foldl (fun acc v => acc + v) (DoubleFns.lit 0) / DoubleFns.ofInt n
  DoubleFns.sqrt
    (values.foldl (fun acc v => acc + (v - mean) * (v - mean)) (DoubleFns.lit 0)
      / DoubleFns.ofInt (n - 1))

/-- What `Header.h` and `Other.h` provide in a build without `INFINITY_CHECK`,
on the extended rationals; the sentinel is the largest binary64 value. -/
def unguarded : Other XRat :=
  { st_dev := sample_st_dev, max_double := XRat.fin (2 ^ 1024 - 2 ^ 971), INFINITY_CHECK := false }

/-- The same with `INFINITY_CHECK` defined. -/
def guarded : Other XRat :=
  { st_dev := sample_st_dev, max_double := XRat.fin (2 ^ 1024 - 2 ^ 971), INFINITY_CHECK := true }

/-- A well-formed call whose two sub-paths coincide, so that both bandwidths
are zero: two observations, two sub-paths of one sub-step, all draws zero. -/
def collapsed : WrapperSimulatedReplication XRat :=
  { price := [XRat.fin 0, XRat.fin 1],
    volatility := [XRat.fin 0, XRat.fin 0],
    simulated_price := [XRat.fin 0, XRat.fin 0],
    simulated_volatility := [XRat.fin 0, XRat.fin 0],
    random_buffer_price := [XRat.fin 0, XRat.fin 0],
    random_buffer_volatility := [XRat.fin 0, XRat.fin 0],
    wiener_buffer_price := [XRat.fin 0, XRat.fin 0],
    N_obs := 2, N_sim := 2, M_sim := 1, dt := XRat.fin 1 }

/-- The parameter vector `(0, 0, 0, 0, 0)`. -/
def zero_parameters : List XRat := [XRat.fin 0, XRat.fin 0, XRat.fin 0, XRat.fin 0, XRat.fin 0]

/-! ## Concrete inputs -/

/-- A build without `INFINITY_CHECK`, in exact arithmetic. -/
noncomputable def real_unguarded : Other ℝ :=
  { st_dev := sample_st_dev, max_double := 2 ^ 1024 - 2 ^ 971, INFINITY_CHECK := false }

/-- A call in exact arithmetic: three observations, two sub-paths of two
sub-steps. -/
noncomputable def real_call : WrapperSimulatedReplication ℝ :=
  { price := [0, 1, 2],
    volatility := [0, 0, 1],
    simulated_price := [0, 0],
    simulated_volatility := [0, 0],
    random_buffer_price := [1, -1, 0, 2],
    random_buffer_volatility := [0, 1, -1, 1],
    wiener_buffer_price := [0, 0, 0, 0],
    N_obs := 3, N_sim := 2, M_sim := 2, dt := 1 }

/-- A parameter vector in exact arithmetic. -/
noncomputable def real_parameters : List ℝ := [0, 0, 1, 1, 1 / 2]

/-- The mean of a sample of four values. -/
noncomputable def mean4 (f : Fin 4 → ℝ) : ℝ := (f 0 + f 1 + f 2 + f 3) / 4

/-- Four independent price draws. -/
noncomputable def draws_p : Fin 4 → ℝ := ![1, 1, -1, -1]

/-- Four volatility draws, orthogonal to `draws_p`. -/
noncomputable def draws_v : Fin 4 → ℝ := ![1, -1, 1, -1]

/-- A well-formed call on the extended rationals with a spread-out cloud: three
observations, two sub-paths of two sub-steps. -/
def spread : WrapperSimulatedReplication XRat :=
  { price := [XRat.fin 0, XRat.fin 1, XRat.fin 2],
    volatility := [XRat.fin 0, XRat.fin 0, XRat.fin 1],
    simulated_price := [XRat.fin 0, XRat.fin 0],
    simulated_volatility := [XRat.fin 0, XRat.fin 0],
    random_buffer_price := [XRat.fin 1, XRat.fin (-1), XRat.fin 0, XRat.fin 2],
    random_buffer_volatility := [XRat.fin 0, XRat.fin 1, XRat.fin (-1), XRat.fin 1],
    wiener_buffer_price := [XRat.fin 0, XRat.fin 0, XRat.fin 0, XRat.fin 0],
    N_obs := 3, N_sim := 2, M_sim := 2, dt := XRat.fin 1 }

/-- A parameter vector with `rho = 1`, outside the open interval `(-1, 1)`. -/
def boundary_parameters : List XRat :=
  [XRat.fin 0, XRat.fin 0, XRat.fin 1, XRat.fin 1, XRat.fin 1]

/-- Model parameters with `rho = 2`. -/
def invalid_parameters : JointReplicationParameters XRat :=
  { mu := XRat.fin 0, alpha_0 := XRat.fin 0, alpha_1 := XRat.fin 1, alpha_2 := XRat.fin 1,
    rho := XRat.fin 2 }

/-- The draws `0, 1, 1, -1, ...` of a simulator step that sub-path `0` of the
call `spread` is fed. -/
def spread_stream (n : Nat) : XRat :=
  if n = 0 then XRat.fin 0 else if n = 1 then XRat.fin 1 else if n = 2 then XRat.fin 1
  else XRat.fin (-1)

/-- A build with `INFINITY_CHECK` defined, in exact arithmetic. -/
noncomputable def real_guarded : Other ℝ :=
  { st_dev := sample_st_dev, max_double := 2 ^ 1024 - 2 ^ 971, INFINITY_CHECK := true }

/-- The spread of the price draws for which the density estimate of the call
`unit_call` is exactly `1`: `(2 e^2 + 1) / (3 h^2 2 pi)` with `h = h_frac 2`
and `e = exp (-1 / (2 h^2))`. -/
noncomputable def unit_scale : ℝ :=
  (2 * Real.exp (-1 / (2 * (h_frac 2 : ℝ) ^ 2)) ^ 2 + 1) /
    (3 * (h_frac 2 : ℝ) ^ 2 * (2 * Real.pi))

/-- A call in exact arithmetic: two observations at the origin, three
sub-paths of one sub-step that end at `(c, 1)`, `(0, 0)`, `(-c, -1)` with
`c = unit_scale`. -/
noncomputable def unit_call : WrapperSimulatedReplication ℝ :=
  { price := [0, 0],
    volatility := [0, 0],
    simulated_price := [0, 0, 0],
    simulated_volatility := [0, 0, 0],
    random_buffer_price := [unit_scale, 0, -unit_scale],
    random_buffer_volatility := [1, 0, -1],
    wiener_buffer_price := [0, 0, 0],
    N_obs := 2, N_sim := 3, M_sim := 1, dt := 1 }

/-- The parameter vector `(mu, alpha_0, alpha_1, alpha_2, rho) = (1/2, 0, 0, 1, 0)`. -/
noncomputable def unit_parameters : List ℝ := [1 / 2, 0, 0, 1, 0]

/-! ## An executable arithmetic with the rounding of binary64 -/

/-- The position of the leading bit of `n` (`0` for `n < 2`), by at most `fuel`
halvings. -/
def leading_bit : (fuel : Nat) → (n : Nat) → Nat
  | 0, _ => 0
  | fuel + 1, n => if n < 2 then 0 else leading_bit fuel (n / 2) + 1

/-- The rational `q` rounded to the nearest value with a 53-bit significand,
ties going to the even significand: the rounding of IEEE-754 binary64 in its
range of normal numbers (the exponent is not bounded here, so overflow and
subnormal numbers are not modelled). -/
def round53 (q : ℚ) : ℚ :=
  if q.num = 0 then 0
  else
    let n : Nat := q.num.natAbs
    let d : Nat := q.den
    -- `n / d` lies in `[2 ^ (l - 1), 2 ^ (l + 1))`
    let l : Int := (leading_bit n n : Int) - (leading_bit d d : Int)
    -- the leading bit: `2 ^ b <= n / d < 2 ^ (b + 1)`
    let b : Int := if n * 2 ^ (-l).toNat < d * 2 ^ l.toNat then l - 1 else l
    -- `n / d = (n1 / d1) * 2 ^ e` with `2 ^ 52 <= n1 / d1 < 2 ^ 53`
    let e : Int := b - 52
    let n1 : Nat := n * 2 ^ (-e).toNat
    let d1 : Nat := d * 2 ^ e.toNat
    let m : Nat := n1 / d1
    let r : Nat := n1 % d1
    let m1 : Nat :=
      if 2 * r < d1 then m else if d1 < 2 * r then m + 1 else if m % 2 = 0 then m else m + 1
    let v : ℚ := mkRat ((m1 : Int) * 2 ^ e.toNat) (2 ^ (-e).toNat)
    if q.num < 0 then -v else v

/-- A value of the rounded arithmetic: an extended rational whose finite
values have a 53-bit significand. -/
structure B64 where
  val : XRat
  deriving DecidableEq

/-- Rounding of an exact result to the rounded arithmetic. -/
def B64.round : XRat → B64
  | XRat.fin q => ⟨XRat.fin (round53 q)⟩
  | x => ⟨x⟩

instance : Add B64 := ⟨fun a b => B64.round (a.val + b.val)⟩
instance : Sub B64 := ⟨fun a b => B64.round (a.val - b.val)⟩
instance : Mul B64 := ⟨fun a b => B64.round (a.val * b.val)⟩
instance : Div B64 := ⟨fun a b => B64.round (a.val / b.val)⟩
instance : Neg B64 := ⟨fun a => ⟨-a.val⟩⟩

/-- The `double` operations on the rounded arithmetic.  The four operations
are the exact ones followed by the rounding of binary64, as IEEE-754
prescribes; `exp`, `log`, `sqrt` and `pow` are the stand-ins of `XRat`
followed by that rounding (they are exact at `exp 0 = 1`, `log 1 = 0`,
`sqrt 0 = 0` and `sqrt 1 = 1`); `M_PI` is the binary64 value of the constant.
Every nonzero finite value counts as normal. -/
instance instDoubleFnsB64 : DoubleFns B64 where
  lit q := B64.round (XRat.fin q)
  ofInt n := B64.round (XRat.fin n)
  exp a := B64.round (XRat.exp a.val)
  log a := B64.round (XRat.log a.val)
  sqrt a := B64.round (XRat.sqrt a.val)
  pow a b := B64.round (XRat.pow a.val b.val)
  M_PI := B64.round (XRat.fin (884279719003555 / 281474976710656))
  isNegInfinity x := decide (x.val = XRat.ninf)
  isnormal x :=
    match x.val with
    | XRat.fin q => decide (q ≠ 0)
    | _ => false

/-- A build with `INFINITY_CHECK` defined, on the rounded arithmetic. -/
def rounded_guarded : Other B64 :=
  { st_dev := sample_st_dev, max_double := B64.round (XRat.fin (2 ^ 1024 - 2 ^ 971)),
    INFINITY_CHECK := true }

/-- The sum of the terms `t i`, `i` running through `order`, accumulated from
`0.0` from left to right as the source accumulates `ll` (line 120). -/
def sum_in_order {α : Type} [Add α] [DoubleFns α] (t : Nat → α) (order : List Nat) : α :=
  order.foldl (fun acc i => acc + t i) (DoubleFns.lit 0)

/-- A call on the rounded arithmetic: four observations, two sub-paths of one
sub-step. -/
def shuffle_call : WrapperSimulatedReplication B64 :=
  { price := [DoubleFns.lit 2, DoubleFns.lit 1, DoubleFns.lit 2, DoubleFns.lit (-1)],
    volatility := [DoubleFns.lit (-1), DoubleFns.lit (-1), DoubleFns.lit (-1), DoubleFns.lit 0],
    simulated_price := [DoubleFns.lit 0, DoubleFns.lit 0],
    simulated_volatility := [DoubleFns.lit 0, DoubleFns.lit 0],
    random_buffer_price := [DoubleFns.lit (-2), DoubleFns.lit 1],
    random_buffer_volatility := [DoubleFns.lit 2, DoubleFns.lit (-2)],
    wiener_buffer_price := [DoubleFns.lit 0, DoubleFns.lit 0],
    N_obs := 4, N_sim := 2, M_sim := 1, dt := DoubleFns.lit 1 }

/-- The parameter vector `(mu, alpha_0, alpha_1, alpha_2, rho) = (1/2, 0, 1, 1, 0)`
on the rounded arithmetic. -/
def shuffle_parameters : List B64 :=
  [DoubleFns.lit (1 / 2), DoubleFns.lit 0, DoubleFns.lit 1, DoubleFns.lit 1, DoubleFns.lit 0]

/-- Model parameters on the rounded arithmetic: `mu = 0.5`, no volatility
dynamics, `rho = 0`. -/
def drift_parameters : JointReplicationParameters B64 :=
  { mu := DoubleFns.lit (1 / 2), alpha_0 := DoubleFns.lit 0, alpha_1 := DoubleFns.lit 0,
    alpha_2 := DoubleFns.lit 0, rho := DoubleFns.lit 0 }

/-- A generator whose first volatility draw is `0.0` and whose first price
draw is `0.7`. -/
def drift_stream (n : Nat) : B64 := if n = 1 then DoubleFns.lit (7 / 10) else DoubleFns.lit 0

/-- A parameter vector of four entries only. -/
def short_parameters : List XRat := [XRat.fin 0, XRat.fin 0, XRat.fin 0, XRat.fin 0]

/-- A call with `N_sim = M_sim = 65536`, whose product `2 ^ 32` is not an
`int`; every buffer has the length that the sizes ask for. -/
def oversized : WrapperSimulatedReplication XRat :=
  { price := [XRat.fin 0, XRat.fin 1],
    volatility := [XRat.fin 0, XRat.fin 0],
    simulated_price := List.replicate 65536 (XRat.fin 0),
    simulated_volatility := List.replicate 65536 (XRat.fin 0),
    random_buffer_price := List.replicate 4294967296 (XRat.fin 0),
    random_buffer_volatility := List.replicate 4294967296 (XRat.fin 0),
    wiener_buffer_price := List.replicate 4294967296 (XRat.fin 0),
    N_obs := 2, N_sim := 65536, M_sim := 65536, dt := XRat.fin 1 }

/-! ## Loops and arrays -/

theorem forLoop_done {σ : Type} (hi : Int) (body : Int → σ → Option σ) (s : σ) :
    forLoop hi body hi s = some s := by
  rw [forLoop]; simp

theorem forLoop_next {σ : Type} (hi : Int) (body : Int → σ → Option σ) (i : Int) (s : σ)
    (hne : i ≠ hi) (hlt : i < INT_MAX) :
    forLoop hi body i s = (body i s).bind (forLoop hi body (i + 1)) := by
  rw [forLoop]
  simp only [hne, if_false, not_le.mpr hlt]
  cases body i s <;> rfl

/-- A loop whose successive states are `S 0, S 1, ...` ends in `S n`. -/
theorem forLoop_run {σ : Type} (hi : Int) (body : Int → σ → Option σ) (n : Nat) :
    ∀ (S : Nat → σ) (lo : Int), lo + n = hi → hi ≤ INT_MAX →
      (∀ k, k < n → body (lo + k) (S k) = some (S (k + 1))) →
      forLoop hi body lo (S 0) = some (S n) := by
  induction n with
  | zero =>
    intro S lo h _ _
    have : lo = hi := by simpa using h
    subst this
    exact forLoop_done _ _ _
  | succ n ih =>
    intro S lo h hmax hS
    have hne : lo ≠ hi := by omega
    have hlt : lo < INT_MAX := by omega
    rw [forLoop_next hi body lo (S 0) hne hlt]
    have h0 := hS 0 (Nat.succ_pos n)
    simp only [Nat.cast_zero, add_zero, zero_add] at h0
    rw [h0, Option.some_bind]
    refine ih (fun k => S (k + 1)) (lo + 1) (by push_cast at h; omega) hmax ?_
    intro k hk
    have := hS (k + 1) (Nat.succ_lt_succ hk)
    push_cast at this
    rw [← this]; congr 1; ring

/-- An invariant indexed by the loop counter, kept by the body, holds at the
exit of a loop that returns. -/
theorem forLoop_invariant {σ : Type} (Inv : Int → σ → Prop) (hi : Int)
    (body : Int → σ → Option σ)
    (hbody : ∀ i s s1, Inv i s → body i s = some s1 → Inv (i + 1) s1) :
    ∀ (i : Int) (s s1 : σ), Inv i s → forLoop hi body i s = some s1 → Inv hi s1 := by
  intro i s
  induction i, s using forLoop.induct hi body with
  | case1 s => intro s1 h0 h; rw [forLoop_done] at h; cases h; exact h0
  | case2 i s hne hb => intro s1 h0 h; rw [forLoop] at h; simp [hne, hb] at h
  | case3 i s hne s2 hb hmax =>
    intro s1 h0 h; rw [forLoop] at h; simp [hne, hmax, hb] at h
  | case4 i s hne s2 hb hmax ih =>
    intro s1 h0 h; rw [forLoop] at h; simp [hne, hmax, hb] at h
    exact ih s1 (hbody i s s2 h0 hb) h

/-- A property kept by the body is kept by the loop. -/
theorem forLoop_preserves {σ : Type} (P : σ → Prop) (hi : Int) (body : Int → σ → Option σ)
    (hbody : ∀ i s s1, P s → body i s = some s1 → P s1) :
    ∀ (i : Int) (s s1 : σ), P s → forLoop hi body i s = some s1 → P s1 :=
  forLoop_invariant (fun _ s => P s) hi body hbody

set_option linter.unusedSectionVars false

section Lists
variable {α : Type}

theorem length_overwrite (l : List α) (f : Nat → α) (n : Nat) :
    (overwrite l f n).length = l.length := by
  induction n with
  | zero => rfl
  | succ n ih => simp [overwrite, ih]

theorem getElem?_overwrite (l : List α) (f : Nat → α) (n j : Nat) :
    (overwrite l f n)[j]? =
      if j < n then (if j < l.length then some (f j) else none) else l[j]? := by
  induction n with
  | zero => simp [overwrite]
  | succ n ih =>
    simp only [overwrite, List.getElem?_set, length_overwrite, ih]
    by_cases h1 : n = j
    · subst h1; simp
    · by_cases h2 : j < n
      · have : j < n + 1 := by omega
        simp [h1, h2, this]
      · have : ¬ j < n + 1 := by omega
        simp [h1, h2, this]

theorem overwrite_overwrite (l : List α) (f g : Nat → α) (n : Nat) :
    overwrite (overwrite l f n) g n = overwrite l g n := by
  apply List.ext_getElem?
  intro j
  simp only [getElem?_overwrite, length_overwrite]
  split <;> rfl

theorem take_overwrite (l : List α) (f : Nat → α) (n : Nat) (h : n ≤ l.length) :
    (overwrite l f n).take n = (List.range n).map f := by
  apply List.ext_getElem?
  intro j
  simp only [List.getElem?_take, getElem?_overwrite, List.getElem?_map, List.getElem?_range]
  by_cases hj : j < n
  · have : j < l.length := by omega
    simp [hj, this, List.getElem?_range]
  · have : (List.range n)[j]? = none := by
      apply List.getElem?_eq_none; simp; omega
    simp [hj, this]

theorem load_natCast (l : List α) (n : Nat) : load l (n : Int) = l[n]? := by
  simp [load]

theorem store_natCast (l : List α) (n : Nat) (v : α) (h : n < l.length) :
    store l (n : Int) v = some (l.set n v) := by
  simp [store, h]

theorem getElem?_set_self_of_lt (l : List α) (m : Nat) (v : α) (h : m < l.length) :
    (l.set m v)[m]? = some v := by
  simp [List.getElem?_set, h]

theorem isub_one_natCast (n : Nat) (h : ((n : Int) + 1) ≤ INT_MAX) :
    isub (1 + (n : Int)) 1 = some (n : Int) := by
  have h1 : INT_MIN ≤ (n : Int) := by unfold INT_MIN; omega
  have h2 : (n : Int) ≤ INT_MAX := by omega
  simp [isub, h1, h2]

end Lists

section Sim
variable {α : Type} [Add α] [Sub α] [Mul α] [Div α] [Neg α] [DoubleFns α]

/-- The inner loop of `simulate_replication` advances cell `m` of both arrays
by `M` Euler sub-steps and consumes `2 * M` draws. -/
theorem simulate_replication.inner_run (parameters : JointReplicationParameters α)
    (z : Nat → α) (delta : α) (M m : Nat) (hM : (M : Int) ≤ INT_MAX)
    (P V : List α) (hP : m < P.length) (hV : m < V.length) (pv : α × α) (d : Nat) :
    forLoop (M : Int) (simulate_replication.substep parameters z delta (m : Int)) 0
        { price := P.set m pv.1, volatility := V.set m pv.2, drawn := d } =
      some
        { price := P.set m (euler_path parameters.mu parameters.alpha_0 parameters.alpha_1
            parameters.alpha_2 delta (sqrt delta)
            (fun k => correlate parameters.rho (z (d + 2 * k + 1)) (z (d + 2 * k)))
            (fun k => z (d + 2 * k)) pv M).1,
          volatility := V.set m (euler_path parameters.mu parameters.alpha_0 parameters.alpha_1
            parameters.alpha_2 delta (sqrt delta)
            (fun k => correlate parameters.rho (z (d + 2 * k + 1)) (z (d + 2 * k)))
            (fun k => z (d + 2 * k)) pv M).2,
          drawn := d + 2 * M } := by
  have key := forLoop_run (M : Int) (simulate_replication.substep parameters z delta (m : Int)) M
    (fun k =>
      { price := P.set m (euler_path parameters.mu parameters.alpha_0 parameters.alpha_1
            parameters.alpha_2 delta (sqrt delta)
            (fun k => correlate parameters.rho (z (d + 2 * k + 1)) (z (d + 2 * k)))
            (fun k => z (d + 2 * k)) pv k).1,
        volatility := V.set m (euler_path parameters.mu parameters.alpha_0 parameters.alpha_1
            parameters.alpha_2 delta (sqrt delta)
            (fun k => correlate parameters.rho (z (d + 2 * k + 1)) (z (d + 2 * k)))
            (fun k => z (d + 2 * k)) pv k).2,
        drawn := d + 2 * k })
    0 (by simp) hM ?_
  · simpa [euler_path] using key
  · intro k _
    simp only [simulate_replication.substep, load_natCast, getElem?_set_self_of_lt _ _ _ hP,
      getElem?_set_self_of_lt _ _ _ hV]
    rw [store_natCast _ _ _ (by simpa using hP), store_natCast _ _ _ (by simpa using hV)]
    simp only [List.set_set, euler_path, euler_substep]
    congr 1


/-- Closed form of `simulate_replication`: the first `N_obs` cells of both
arrays become the path points, `2 * (N_obs - 1) * M_obs` draws are consumed. -/
theorem simulate_replication_eq (z : Nat → α) (price volatility : List α)
    (parameters : JointReplicationParameters α) (dt : α) (N M : Nat) (p0 v0 : α)
    (hN : 1 ≤ N) (hNmax : (N : Int) ≤ INT_MAX) (hMmax : (M : Int) ≤ INT_MAX)
    (hP : N ≤ price.length) (hV : N ≤ volatility.length) :
    simulate_replication z price volatility parameters dt (N : Int) (M : Int) p0 v0 =
      some
        { price := overwrite price
            (fun i => (sim_point parameters z (dt / ofInt (M : Int)) M p0 v0 i).1) N,
          volatility := overwrite volatility
            (fun i => (sim_point parameters z (dt / ofInt (M : Int)) M p0 v0 i).2) N,
          drawn := 2 * ((N - 1) * M) } := by
  obtain ⟨n, rfl⟩ : ∃ n, N = n + 1 := ⟨N - 1, by omega⟩
  have h0P : 0 < price.length := by omega
  have h0V : 0 < volatility.length := by omega
  have hs1 : store volatility 0 v0 = some (volatility.set 0 v0) := by
    simpa using store_natCast volatility 0 v0 h0V
  have hs2 : store price 0 p0 = some (price.set 0 p0) := by
    simpa using store_natCast price 0 p0 h0P
  simp only [simulate_replication, hs1, hs2]
  have key := forLoop_run ((n + 1 : Nat) : Int)
    (simulate_replication.step parameters z (dt / ofInt (M : Int)) (M : Int)) n
    (fun k =>
      { price := overwrite price
          (fun i => (sim_point parameters z (dt / ofInt (M : Int)) M p0 v0 i).1) (k + 1),
        volatility := overwrite volatility
          (fun i => (sim_point parameters z (dt / ofInt (M : Int)) M p0 v0 i).2) (k + 1),
        drawn := 2 * (k * M) })
    1 (by push_cast; ring) hNmax ?_
  · simpa [overwrite, sim_point] using key
  · intro k hk
    have hk1 : ((k : Int) + 1) ≤ INT_MAX := by push_cast at hNmax; omega
    have hc : (1 : Int) + (k : Int) = ((k + 1 : Nat) : Int) := by push_cast; ring
    simp only [simulate_replication.step, isub_one_natCast k hk1, load_natCast,
      getElem?_overwrite]
    have hkP : k < price.length := by omega
    have hkV : k < volatility.length := by omega
    simp only [Nat.lt_succ_self, if_true, hkP, hkV]
    rw [hc, store_natCast _ _ _ (by rw [length_overwrite]; omega),
      store_natCast _ _ _ (by rw [length_overwrite]; omega)]
    simp only []
    have inner := simulate_replication.inner_run parameters z (dt / ofInt (M : Int)) M (k + 1)
      hMmax
      (overwrite price
        (fun i => (sim_point parameters z (dt / ofInt (M : Int)) M p0 v0 i).1) (k + 1))
      (overwrite volatility
        (fun i => (sim_point parameters z (dt / ofInt (M : Int)) M p0 v0 i).2) (k + 1))
      (by rw [length_overwrite]; omega) (by rw [length_overwrite]; omega)
      (sim_point parameters z (dt / ofInt (M : Int)) M p0 v0 k) (2 * (k * M))
    rw [inner]
    have e1 : (fun j => correlate parameters.rho (z (2 * (k * M) + 2 * j + 1))
        (z (2 * (k * M) + 2 * j))) = sim_W_p parameters.rho z M k := by
      funext j; simp only [sim_W_p]; rw [Nat.mul_add]
    have e2 : (fun j => z (2 * (k * M) + 2 * j)) = sim_W_v z M k := by
      funext j; simp only [sim_W_v]; rw [Nat.mul_add]
    rw [e1, e2]
    simp only [overwrite, sim_point]
    congr 2
    ring

/-- Claim C4: for `N_obs >= 1` and `M_obs >= 0`, `simulate_replication` returns,
writes exactly the cells `0..N_obs-1` of both arrays (the lengths and the cells
from `N_obs` on are unchanged), sets cell `0` to `(p0, v0)`, and for each `i`
in `1..N_obs-1` cell `i` is the point reached from cell `i-1` after `M_obs`
Euler sub-steps of size `dt / M_obs` (`euler_path`, each sub-step an
`euler_substep`, which advances both components from the volatility at the
start of the sub-step).  It holds in every arithmetic and for every `dt`. -/
theorem simulate_replication_path (z : Nat → α) (price volatility : List α)
    (parameters : JointReplicationParameters α) (dt : α) (N_obs M_obs : Int) (p0 v0 : α)
    (hN : 1 ≤ N_obs) (hNmax : N_obs ≤ INT_MAX) (hM : 0 ≤ M_obs) (hMmax : M_obs ≤ INT_MAX)
    (hP : N_obs ≤ price.length) (hV : N_obs ≤ volatility.length) :
    ∃ s, simulate_replication z price volatility parameters dt N_obs M_obs p0 v0 = some s ∧
      s.price.length = price.length ∧ s.volatility.length = volatility.length ∧
      (∀ j : Nat, N_obs ≤ j → s.price[j]? = price[j]? ∧ s.volatility[j]? = volatility[j]?) ∧
      s.price[0]? = some p0 ∧ s.volatility[0]? = some v0 ∧
      ∀ i : Nat, 1 ≤ i → (i : Int) < N_obs →
        ∃ p v, s.price[i - 1]? = some p ∧ s.volatility[i - 1]? = some v ∧
          (s.price[i]?, s.volatility[i]?) =
            (some (euler_path parameters.mu parameters.alpha_0 parameters.alpha_1
              parameters.alpha_2 (dt / ofInt M_obs) (sqrt (dt / ofInt M_obs))
              (sim_W_p parameters.rho z M_obs.toNat (i - 1)) (sim_W_v z M_obs.toNat (i - 1))
              (p, v) M_obs.toNat).1,
             some (euler_path parameters.mu parameters.alpha_0 parameters.alpha_1
              parameters.alpha_2 (dt / ofInt M_obs) (sqrt (dt / ofInt M_obs))
              (sim_W_p parameters.rho z M_obs.toNat (i - 1)) (sim_W_v z M_obs.toNat (i - 1))
              (p, v) M_obs.toNat).2) := by
  obtain ⟨N, rfl⟩ : ∃ N : Nat, N_obs = N := ⟨N_obs.toNat, by omega⟩
  obtain ⟨M, rfl⟩ : ∃ M : Nat, M_obs = M := ⟨M_obs.toNat, by omega⟩
  have hN1 : 1 ≤ N := by omega
  have hP1 : N ≤ price.length := by omega
  have hV1 : N ≤ volatility.length := by omega
  refine ⟨_, simulate_replication_eq z price volatility parameters dt N M p0 v0 hN1 hNmax hMmax
    hP1 hV1, ?_⟩
  simp only [length_overwrite, getElem?_overwrite, Int.toNat_ofNat, true_and]
  refine ⟨?_, ?_, ?_, ?_⟩
  · intro j hj
    have : ¬ j < N := by omega
    simp [this]
  · have h1 : 0 < N := by omega
    have h2 : 0 < price.length := by omega
    simp [h1, h2, sim_point]
  · have h1 : 0 < N := by omega
    have h2 : 0 < volatility.length := by omega
    simp [h1, h2, sim_point]
  · intro i hi hiN
    obtain ⟨k, rfl⟩ : ∃ k, i = k + 1 := ⟨i - 1, by omega⟩
    have a1 : k < N := by omega
    have a2 : k + 1 < N := by omega
    have a3 : k < price.length := by omega
    have a4 : k + 1 < price.length := by omega
    have a5 : k < volatility.length := by omega
    have a6 : k + 1 < volatility.length := by omega
    refine ⟨(sim_point parameters z (dt / ofInt (M : Int)) M p0 v0 k).1,
      (sim_point parameters z (dt / ofInt (M : Int)) M p0 v0 k).2, ?_, ?_, ?_⟩
    · simp only [Nat.add_sub_cancel, a1, a3, if_true]
    · simp only [Nat.add_sub_cancel, a1, a5, if_true]
    · simp only [Nat.add_sub_cancel, a2, a4, a6, if_true, sim_point]


end Sim

section RealLemmas

theorem real_lit (q : ℚ) : (lit q : ℝ) = (q : ℝ) := rfl
theorem real_ofInt (n : Int) : (ofInt n : ℝ) = (n : ℝ) := rfl
theorem real_exp (x : ℝ) : (exp x : ℝ) = Real.exp x := rfl
theorem real_log (x : ℝ) : (log x : ℝ) = Real.log x := rfl
theorem real_sqrt (x : ℝ) : (sqrt x : ℝ) = Real.sqrt x := rfl
theorem real_pow (x y : ℝ) : (pow x y : ℝ) = x ^ y := rfl
theorem real_M_PI : (M_PI : ℝ) = Real.pi := rfl
theorem real_isNegInfinity (x : ℝ) : isNegInfinity x = false := rfl
theorem real_isnormal (x : ℝ) : isnormal x = decide (x ≠ 0) := rfl

end RealLemmas

/-- Claim C3: in exact arithmetic, `simulate_replication` with `M_obs = 1` takes
one Euler-Maruyama step per observation.  For each `i` in `1..N_obs-1`, with
`z_v` the first and `z_p` the second draw of that step (draws `2 (i-1)` and
`2 (i-1) + 1` of the generator), `price[i]` and `volatility[i]` are the stated
functions of `price[i-1]`, `volatility[i-1]`, `z_v`, `z_p`.  It holds for every
parameter set, every `dt` and every noise stream. -/
theorem simulate_replication_one_step (z : Nat → ℝ) (price volatility : List ℝ)
    (parameters : JointReplicationParameters ℝ) (dt : ℝ) (N_obs : Int) (p0 v0 : ℝ)
    (hN : 1 ≤ N_obs) (hNmax : N_obs ≤ INT_MAX)
    (hP : N_obs ≤ price.length) (hV : N_obs ≤ volatility.length) :
    ∃ s, simulate_replication z price volatility parameters dt N_obs 1 p0 v0 = some s ∧
      ∀ i : Nat, 1 ≤ i → (i : Int) < N_obs →
        ∃ p v z_v z_p, s.price[i - 1]? = some p ∧ s.volatility[i - 1]? = some v ∧
          z_v = z (2 * (i - 1)) ∧ z_p = z (2 * (i - 1) + 1) ∧
          s.price[i]? = some (p + (parameters.mu - 0.5 * Real.exp v) * dt
            + Real.exp (v / 2)
              * (Real.sqrt (1 - parameters.rho ^ 2) * z_p + parameters.rho * z_v)
              * Real.sqrt dt) ∧
          s.volatility[i]? = some (v + (parameters.alpha_0 - parameters.alpha_1 * v) * dt
            + parameters.alpha_2 * z_v * Real.sqrt dt) := by
  obtain ⟨N, rfl⟩ : ∃ N : Nat, N_obs = N := ⟨N_obs.toNat, by omega⟩
  have hN1 : 1 ≤ N := by omega
  have hP1 : N ≤ price.length := by omega
  have hV1 : N ≤ volatility.length := by omega
  have h1max : ((1 : Nat) : Int) ≤ INT_MAX := by decide
  refine ⟨_, simulate_replication_eq z price volatility parameters dt N 1 p0 v0 hN1 hNmax h1max
    hP1 hV1, ?_⟩
  intro i hi hiN
  obtain ⟨k, rfl⟩ : ∃ k, i = k + 1 := ⟨i - 1, by omega⟩
  have a1 : k < N := by omega
  have a2 : k + 1 < N := by omega
  have a3 : k < price.length := by omega
  have a4 : k + 1 < price.length := by omega
  have a5 : k < volatility.length := by omega
  have a6 : k + 1 < volatility.length := by omega
  refine ⟨(sim_point parameters z (dt / ofInt ((1 : Nat) : Int)) 1 p0 v0 k).1,
    (sim_point parameters z (dt / ofInt ((1 : Nat) : Int)) 1 p0 v0 k).2, z (2 * k), z (2 * k + 1),
    ?_, ?_, ?_, ?_, ?_, ?_⟩
  · simp only [getElem?_overwrite, Nat.add_sub_cancel, a1, a3, if_true]
  · simp only [getElem?_overwrite, Nat.add_sub_cancel, a1, a5, if_true]
  · simp
  · simp
  · simp only [getElem?_overwrite, a2, a4, if_true, sim_point, euler_path, euler_substep,
      price_increment, sim_W_p, sim_W_v, correlate, real_lit, real_ofInt, real_exp, real_sqrt]
    congr 1
    push_cast
    simp only [div_one, mul_one, add_zero]
    ring_nf
  · simp only [getElem?_overwrite, a2, a6, if_true, sim_point, euler_path, euler_substep,
      volatility_increment, sim_W_p, sim_W_v, correlate, real_lit, real_ofInt, real_exp,
      real_sqrt]
    congr 1
    push_cast
    simp only [div_one, mul_one, add_zero]
    ring_nf



/-! ## The evaluator: closed form -/

section Eval
variable {α : Type} [Add α] [Sub α] [Mul α] [Div α] [Neg α] [DoubleFns α]

theorem getElem?_eq_some_cell (l : List α) (n : Nat) (h : n < l.length) :
    l[n]? = some (cell l n) := by
  simp [cell, List.getD, List.getElem?_eq_getElem h]

theorem cell_of_getElem? (l : List α) (n : Nat) (v : α) (h : l[n]? = some v) :
    cell l n = v := by
  simp [cell, List.getD, h]

/-- The loop of line 89 writes the correlated increments into the first
`n` cells of the correlated buffer. -/
theorem simulated_ll_replication.fill_run (rho : α) (grad : List α)
    (data : WrapperSimulatedReplication α) (n : Nat) (hmax : (n : Int) ≤ INT_MAX)
    (h1 : n ≤ data.random_buffer_price.length) (h2 : n ≤ data.random_buffer_volatility.length)
    (h3 : n ≤ data.wiener_buffer_price.length) :
    forLoop (n : Int) (simulated_ll_replication.fill rho) 0 { grad := grad, data := data } =
      some
        { grad := grad,
          data :=
            { data with
              wiener_buffer_price :=
                overwrite data.wiener_buffer_price
                  (fun t => correlate rho (cell data.random_buffer_price t)
                    (cell data.random_buffer_volatility t)) n } } := by
  have key := forLoop_run (n : Int) (simulated_ll_replication.fill rho) n
    (fun k =>
      { grad := grad,
        data :=
          { data with
            wiener_buffer_price :=
              overwrite data.wiener_buffer_price
                (fun t => correlate rho (cell data.random_buffer_price t)
                  (cell data.random_buffer_volatility t)) k } })
    0 (by simp) hmax ?_
  · simpa [overwrite] using key
  · intro k hk
    simp only [simulated_ll_replication.fill, zero_add, load_natCast]
    rw [getElem?_eq_some_cell _ k (by omega), getElem?_eq_some_cell _ k (by omega)]
    simp only []
    rw [store_natCast _ _ _ (by rw [length_overwrite]; omega)]
    simp only [overwrite]


theorem imul_natCast (a b : Nat) (h : ((a * b : Nat) : Int) ≤ INT_MAX) :
    imul (a : Int) (b : Int) = some ((a * b : Nat) : Int) := by
  have h1 : INT_MIN ≤ ((a * b : Nat) : Int) := by unfold INT_MIN; omega
  push_cast at h h1 ⊢
  simp [imul, h, h1]

theorem iadd_natCast (a b : Nat) (h : ((a + b : Nat) : Int) ≤ INT_MAX) :
    iadd (a : Int) (b : Int) = some ((a + b : Nat) : Int) := by
  have h1 : INT_MIN ≤ ((a + b : Nat) : Int) := by unfold INT_MIN; omega
  push_cast at h h1 ⊢
  simp [iadd, h, h1]

/-- The innermost loop (line 102) advances cell `j` of both simulated buffers
by `M` Euler sub-steps, reading the increments of slots `j * M + k`. -/
theorem simulated_ll_replication.substep_run (mu alpha_0 alpha_1 alpha_2 delta sqrt_delta : α)
    (grad : List α) (data : WrapperSimulatedReplication α) (M j : Nat)
    (W_p W_v : Nat → α) (pv : α × α)
    (hmax : ((j * M + M : Nat) : Int) ≤ INT_MAX)
    (hj1 : j < data.simulated_price.length) (hj2 : j < data.simulated_volatility.length)
    (hWp : ∀ k, k < M → data.wiener_buffer_price[j * M + k]? = some (W_p k))
    (hWv : ∀ k, k < M → data.random_buffer_volatility[j * M + k]? = some (W_v k)) :
    forLoop (M : Int)
        (simulated_ll_replication.substep mu alpha_0 alpha_1 alpha_2 delta sqrt_delta (M : Int)
          (j : Int)) 0
        { grad := grad,
          data :=
            { data with
              simulated_price := data.simulated_price.set j pv.1,
              simulated_volatility := data.simulated_volatility.set j pv.2 } } =
      some
        { grad := grad,
          data :=
            { data with
              simulated_price := data.simulated_price.set j
                (euler_path mu alpha_0 alpha_1 alpha_2 delta sqrt_delta W_p W_v pv M).1,
              simulated_volatility := data.simulated_volatility.set j
                (euler_path mu alpha_0 alpha_1 alpha_2 delta sqrt_delta W_p W_v pv M).2 } } := by
  have hM : (M : Int) ≤ INT_MAX := by push_cast at hmax; nlinarith [Int.natCast_nonneg (j * M)]
  have key := forLoop_run (M : Int)
    (simulated_ll_replication.substep mu alpha_0 alpha_1 alpha_2 delta sqrt_delta (M : Int)
      (j : Int)) M
    (fun k =>
      { grad := grad,
        data :=
          { data with
            simulated_price := data.simulated_price.set j
              (euler_path mu alpha_0 alpha_1 alpha_2 delta sqrt_delta W_p W_v pv k).1,
            simulated_volatility := data.simulated_volatility.set j
              (euler_path mu alpha_0 alpha_1 alpha_2 delta sqrt_delta W_p W_v pv k).2 } })
    0 (by simp) hM ?_
  · simpa [euler_path] using key
  · intro k hk
    have e1 : imul (j : Int) (M : Int) = some ((j * M : Nat) : Int) :=
      imul_natCast j M (by push_cast at hmax ⊢; omega)
    have e2 : iadd ((j * M : Nat) : Int) (0 + (k : Int)) = some ((j * M + k : Nat) : Int) := by
      rw [zero_add]
      exact iadd_natCast (j * M) k (by push_cast at hmax ⊢; omega)
    simp only [simulated_ll_replication.substep, e1, e2, load_natCast,
      getElem?_set_self_of_lt _ _ _ hj1, getElem?_set_self_of_lt _ _ _ hj2, hWp k hk, hWv k hk]
    rw [store_natCast _ _ _ (by simpa using hj1)]
    simp only []
    rw [store_natCast _ _ _ (by simpa using hj2)]
    simp only [List.set_set, euler_path, euler_substep]


theorem isub_succ_natCast (n : Nat) (h : ((n + 1 : Nat) : Int) ≤ INT_MAX) :
    isub ((n + 1 : Nat) : Int) 1 = some (n : Int) := by
  have h1 : INT_MIN ≤ (n : Int) := by unfold INT_MIN; omega
  have h2 : (n : Int) ≤ INT_MAX := by push_cast at h; omega
  simp [isub, h1, h2]

/-- The loop over the sub-paths (line 97) at observation `n + 1` writes the
terminal points into the first `N_sim` cells of the two simulated buffers. -/
theorem simulated_ll_replication.subpath_run (x grad : List α)
    (data : WrapperSimulatedReplication α) (hS : Sized x data) (N M n : Nat)
    (hN : data.N_sim = (N : Int)) (hM : data.M_sim = (M : Int))
    (hn : ((n + 1 : Nat) : Int) < data.N_obs)
    (SP SV : List α) (hSP : N ≤ SP.length) (hSV : N ≤ SV.length) :
    forLoop (N : Int)
        (simulated_ll_replication.subpath (cell x 0) (cell x 1) (cell x 2) (cell x 3)
          (ll_delta data) (sqrt (ll_delta data)) (M : Int) ((n + 1 : Nat) : Int)) 0
        { grad := grad,
          data :=
            { data with
              wiener_buffer_price := overwrite data.wiener_buffer_price (ll_W_p x data) (N * M),
              simulated_price := SP,
              simulated_volatility := SV } } =
      some
        { grad := grad,
          data :=
            { data with
              wiener_buffer_price := overwrite data.wiener_buffer_price (ll_W_p x data) (N * M),
              simulated_price := overwrite SP (fun j => (ll_terminal x data (n + 1) j).1) N,
              simulated_volatility :=
                overwrite SV (fun j => (ll_terminal x data (n + 1) j).2) N } } := by
  have hNmax : (N : Int) ≤ INT_MAX := by rw [← hN]; exact hS.N_sim_max
  have hslots : ((N * M : Nat) : Int) ≤ INT_MAX := by
    have := hS.slots_max; rw [hN, hM] at this; push_cast; exact this
  have hrbv : N * M ≤ data.random_buffer_volatility.length := by
    have := hS.random_buffer_volatility_length; rw [hN, hM] at this; exact_mod_cast this
  have hrbp : N * M ≤ data.random_buffer_price.length := by
    have := hS.random_buffer_price_length; rw [hN, hM] at this; exact_mod_cast this
  have hwbp : N * M ≤ data.wiener_buffer_price.length := by
    have := hS.wiener_buffer_price_length; rw [hN, hM] at this; exact_mod_cast this
  have hnmax : ((n + 1 : Nat) : Int) ≤ INT_MAX := le_trans (le_of_lt hn) hS.N_obs_max
  have hpl : n < data.price.length := by have := hS.price_length; omega
  have hvl : n < data.volatility.length := by have := hS.volatility_length; omega
  have key := forLoop_run (N : Int)
    (simulated_ll_replication.subpath (cell x 0) (cell x 1) (cell x 2) (cell x 3)
      (ll_delta data) (sqrt (ll_delta data)) (M : Int) ((n + 1 : Nat) : Int)) N
    (fun j =>
      { grad := grad,
        data :=
          { data with
            wiener_buffer_price := overwrite data.wiener_buffer_price (ll_W_p x data) (N * M),
            simulated_price := overwrite SP (fun j => (ll_terminal x data (n + 1) j).1) j,
            simulated_volatility :=
              overwrite SV (fun j => (ll_terminal x data (n + 1) j).2) j } })
    0 (by simp) hNmax ?_
  · simpa [overwrite] using key
  · intro j hj
    have hjM : j * M + M ≤ N * M := by
      have : (j + 1) * M ≤ N * M := Nat.mul_le_mul_right M hj
      rw [Nat.add_mul, Nat.one_mul] at this; exact this
    simp only [simulated_ll_replication.subpath, isub_succ_natCast n hnmax, zero_add,
      load_natCast, getElem?_eq_some_cell _ n hpl, getElem?_eq_some_cell _ n hvl]
    rw [store_natCast _ _ _ (by rw [length_overwrite]; omega)]
    simp only []
    rw [store_natCast _ _ _ (by rw [length_overwrite]; omega)]
    simp only []
    have inner := simulated_ll_replication.substep_run (cell x 0) (cell x 1) (cell x 2)
      (cell x 3) (ll_delta data) (sqrt (ll_delta data)) grad
      { data with
        wiener_buffer_price := overwrite data.wiener_buffer_price (ll_W_p x data) (N * M),
        simulated_price := overwrite SP (fun j => (ll_terminal x data (n + 1) j).1) j,
        simulated_volatility := overwrite SV (fun j => (ll_terminal x data (n + 1) j).2) j }
      M j (fun k => ll_W_p x data (j * M + k)) (fun k => ll_W_v data (j * M + k))
      (cell data.price n, cell data.volatility n)
      (le_trans (Int.ofNat_le.mpr hjM) hslots)
      (by simp only [length_overwrite]; omega) (by simp only [length_overwrite]; omega)
      (by
        intro k hk
        simp only [getElem?_overwrite]
        have a1 : j * M + k < N * M := by omega
        have a2 : j * M + k < data.wiener_buffer_price.length := by omega
        simp [a1, a2])
      (by
        intro k hk
        have a2 : j * M + k < data.random_buffer_volatility.length := by omega
        simp only [ll_W_v]
        exact getElem?_eq_some_cell _ _ a2)
    simp only [] at inner
    rw [inner]
    simp only [overwrite, ll_terminal, hM, Int.toNat_ofNat, Nat.add_sub_cancel]


/-- The kernel loop (line 113) at observation `n + 1` adds the `N_sim` kernel
products to `0.0` and leaves the memory as it is. -/
theorem simulated_ll_replication.accumulate_run (E : Other α) (x : List α)
    (data : WrapperSimulatedReplication α) (hS : Sized x data) (N n : Nat)
    (hN : data.N_sim = (N : Int)) (hn : ((n + 1 : Nat) : Int) < data.N_obs)
    (s : EvalState α) (hprice : s.data.price = data.price)
    (hvolatility : s.data.volatility = data.volatility)
    (hsp : ∀ j, j < N → s.data.simulated_price[j]? = some (ll_terminal x data (n + 1) j).1)
    (hsv : ∀ j, j < N →
      s.data.simulated_volatility[j]? = some (ll_terminal x data (n + 1) j).2) :
    forLoop (N : Int)
        (simulated_ll_replication.accumulate (ll_h_price E x data (n + 1))
          (ll_h_volatility E x data (n + 1)) (sqrt (lit 2 * M_PI)) ((n + 1 : Nat) : Int)) 0
        (s, lit 0) =
      some (s, ll_kernel_sum E x data (n + 1) N) := by
  have hNmax : (N : Int) ≤ INT_MAX := by rw [← hN]; exact hS.N_sim_max
  have hpl : n + 1 < data.price.length := by have := hS.price_length; omega
  have hvl : n + 1 < data.volatility.length := by have := hS.volatility_length; omega
  have key := forLoop_run (N : Int)
    (simulated_ll_replication.accumulate (ll_h_price E x data (n + 1))
      (ll_h_volatility E x data (n + 1)) (sqrt (lit 2 * M_PI)) ((n + 1 : Nat) : Int)) N
    (fun j => (s, ll_kernel_sum E x data (n + 1) j))
    0 (by simp) hNmax ?_
  · simpa [ll_kernel_sum] using key
  · intro j hj
    simp only [simulated_ll_replication.accumulate, zero_add, load_natCast, hsp j hj, hsv j hj,
      hprice, hvolatility, getElem?_eq_some_cell _ _ hpl, getElem?_eq_some_cell _ _ hvl,
      ll_kernel_sum]

theorem ll_memory_succ (x grad : List α) (data : WrapperSimulatedReplication α) (n : Nat) :
    ll_memory x grad data (n + 1) =
      { grad := grad,
        data :=
          { data with
            wiener_buffer_price :=
              overwrite data.wiener_buffer_price (ll_W_p x data)
                (data.N_sim.toNat * data.M_sim.toNat),
            simulated_price :=
              overwrite (ll_memory x grad data n).data.simulated_price
                (fun j => (ll_terminal x data (n + 1) j).1) data.N_sim.toNat,
            simulated_volatility :=
              overwrite (ll_memory x grad data n).data.simulated_volatility
                (fun j => (ll_terminal x data (n + 1) j).2) data.N_sim.toNat } } := by
  cases n with
  | zero => simp [ll_memory]
  | succ n => simp [ll_memory, overwrite_overwrite]

theorem ll_memory_lengths (x grad : List α) (data : WrapperSimulatedReplication α) (n : Nat) :
    (ll_memory x grad data n).data.simulated_price.length = data.simulated_price.length ∧
    (ll_memory x grad data n).data.simulated_volatility.length =
      data.simulated_volatility.length := by
  cases n with
  | zero => simp [ll_memory]
  | succ n => simp [ll_memory, length_overwrite]

/-- One turn of the main loop, from the state after `n` observation steps. -/
theorem simulated_ll_replication.loop_next (E : Other α) (x grad : List α)
    (data : WrapperSimulatedReplication α) (hS : Sized x data) (n : Nat)
    (hn : ((n + 1 : Nat) : Int) < data.N_obs) :
    simulated_ll_replication.loop E (cell x 0) (cell x 1) (cell x 2) (cell x 3) (ll_delta data)
        (sqrt (ll_delta data)) (sqrt (lit 2 * M_PI)) (h_frac data.N_obs) data.N_obs data.N_sim
        data.M_sim ((n + 1 : Nat) : Int) (ll_sum E x data n) (lit 0) (ll_memory x grad data n) =
      if ll_fires E x data (n + 1) then some (E.max_double, ll_memory x grad data (n + 1))
      else
        simulated_ll_replication.loop E (cell x 0) (cell x 1) (cell x 2) (cell x 3)
          (ll_delta data) (sqrt (ll_delta data)) (sqrt (lit 2 * M_PI)) (h_frac data.N_obs)
          data.N_obs data.N_sim data.M_sim ((n + 1 + 1 : Nat) : Int) (ll_sum E x data (n + 1))
          (lit 0) (ll_memory x grad data (n + 1)) := by
  obtain ⟨N, hN⟩ : ∃ N : Nat, data.N_sim = (N : Int) :=
    ⟨data.N_sim.toNat, (Int.toNat_of_nonneg hS.N_sim_nonneg).symm⟩
  obtain ⟨M, hM⟩ : ∃ M : Nat, data.M_sim = (M : Int) :=
    ⟨data.M_sim.toNat, (Int.toNat_of_nonneg hS.M_sim_nonneg).symm⟩
  have hne : ((n + 1 : Nat) : Int) ≠ data.N_obs := ne_of_lt hn
  have hlt : ¬ INT_MAX ≤ ((n + 1 : Nat) : Int) := by
    have := hS.N_obs_max; omega
  have hNsp : N ≤ data.simulated_price.length := by
    have := hS.simulated_price_length; omega
  have hNsv : N ≤ data.simulated_volatility.length := by
    have := hS.simulated_volatility_length; omega
  have hlen := ll_memory_lengths x grad data n
  rw [simulated_ll_replication.loop]
  simp only [hne, hlt, if_false]
  have hmem : ll_memory x grad data n =
      { grad := grad,
        data :=
          { data with
            wiener_buffer_price := overwrite data.wiener_buffer_price (ll_W_p x data) (N * M),
            simulated_price := (ll_memory x grad data n).data.simulated_price,
            simulated_volatility := (ll_memory x grad data n).data.simulated_volatility } } := by
    simp [ll_memory, hN, hM]
  have run1 := simulated_ll_replication.subpath_run x grad data hS N M n hN hM hn
    (ll_memory x grad data n).data.simulated_price
    (ll_memory x grad data n).data.simulated_volatility
    (by rw [hlen.1]; exact hNsp) (by rw [hlen.2]; exact hNsv)
  rw [← hmem] at run1
  have hsucc := ll_memory_succ x grad data n
  have hNt : data.N_sim.toNat = N := by rw [hN]; rfl
  have hMt : data.M_sim.toNat = M := by rw [hM]; rfl
  rw [hNt, hMt] at hsucc
  rw [← hsucc] at run1
  rw [hN, hM, run1]
  simp only []
  have htp : (ll_memory x grad data (n + 1)).data.simulated_price.take (N : Int).toNat =
      ll_cloud_price x data (n + 1) := by
    simp only [ll_memory, ll_cloud_price, hN, Int.toNat_ofNat, Nat.succ_ne_zero, if_false]
    exact take_overwrite _ _ _ hNsp
  have htv : (ll_memory x grad data (n + 1)).data.simulated_volatility.take (N : Int).toNat =
      ll_cloud_volatility x data (n + 1) := by
    simp only [ll_memory, ll_cloud_volatility, hN, Int.toNat_ofNat, Nat.succ_ne_zero, if_false]
    exact take_overwrite _ _ _ hNsv
  rw [htp, htv]
  have run2 := simulated_ll_replication.accumulate_run E x data hS N n hN hn
    (ll_memory x grad data (n + 1)) (by simp [ll_memory]) (by simp [ll_memory])
    (by
      intro j hj
      have : j < data.simulated_price.length := by omega
      simp [ll_memory, getElem?_overwrite, hN, hj, this])
    (by
      intro j hj
      have : j < data.simulated_volatility.length := by omega
      simp [ll_memory, getElem?_overwrite, hN, hj, this])
  simp only [ll_h_price, ll_h_volatility, hN] at run2
  rw [run2]
  simp only [ll_fires, ll_sum, ll_density, hN, Int.toNat_ofNat]
  have hc : (((n + 1 : Nat) : Int) + 1) = ((n + 1 + 1 : Nat) : Int) := by push_cast; ring
  rw [hc]


/-- The main loop, entered after `n` observation steps with `todo` to go. -/
theorem simulated_ll_replication.loop_eq (E : Other α) (x grad : List α)
    (data : WrapperSimulatedReplication α) (hS : Sized x data) (todo : Nat) :
    ∀ n : Nat, ((n + 1 + todo : Nat) : Int) = data.N_obs →
      simulated_ll_replication.loop E (cell x 0) (cell x 1) (cell x 2) (cell x 3)
          (ll_delta data) (sqrt (ll_delta data)) (sqrt (lit 2 * M_PI)) (h_frac data.N_obs)
          data.N_obs data.N_sim data.M_sim ((n + 1 : Nat) : Int) (ll_sum E x data n) (lit 0)
          (ll_memory x grad data n) =
        some (ll_outcome E x grad data todo n) := by
  induction todo with
  | zero =>
    intro n hn
    rw [simulated_ll_replication.loop]
    simp only [Nat.add_zero] at hn
    simp only [hn, if_true, ll_outcome]
  | succ todo ih =>
    intro n hn
    have hlt : ((n + 1 : Nat) : Int) < data.N_obs := by rw [← hn]; push_cast; omega
    rw [simulated_ll_replication.loop_next E x grad data hS n hlt]
    simp only [ll_outcome]
    by_cases hf : ll_fires E x data (n + 1) = true
    · simp only [hf, if_true]
    · simp only [hf, if_false, Bool.false_eq_true]
      exact ih (n + 1) (by rw [← hn]; push_cast; ring)

/-- Closed form of `simulated_ll_replication`: under the size conditions the
call returns, and its value and final memory are `ll_outcome`. -/
theorem simulated_ll_replication_eq (E : Other α) (x grad : List α)
    (data : WrapperSimulatedReplication α) (hS : Sized x data) :
    simulated_ll_replication E x grad data =
      some (ll_outcome E x grad data (data.N_obs.toNat - 1) 0) := by
  obtain ⟨N, hN⟩ : ∃ N : Nat, data.N_sim = (N : Int) :=
    ⟨data.N_sim.toNat, (Int.toNat_of_nonneg hS.N_sim_nonneg).symm⟩
  obtain ⟨M, hM⟩ : ∃ M : Nat, data.M_sim = (M : Int) :=
    ⟨data.M_sim.toNat, (Int.toNat_of_nonneg hS.M_sim_nonneg).symm⟩
  have hx := hS.x_length
  have l0 : load x 0 = some (cell x 0) := by
    simpa using (load_natCast x 0).trans (getElem?_eq_some_cell x 0 (by omega))
  have l1 : load x 1 = some (cell x 1) := by
    simpa using (load_natCast x 1).trans (getElem?_eq_some_cell x 1 (by omega))
  have l2 : load x 2 = some (cell x 2) := by
    simpa using (load_natCast x 2).trans (getElem?_eq_some_cell x 2 (by omega))
  have l3 : load x 3 = some (cell x 3) := by
    simpa using (load_natCast x 3).trans (getElem?_eq_some_cell x 3 (by omega))
  have l4 : load x 4 = some (cell x 4) := by
    simpa using (load_natCast x 4).trans (getElem?_eq_some_cell x 4 (by omega))
  have hslots : ((N * M : Nat) : Int) ≤ INT_MAX := by
    have := hS.slots_max; rw [hN, hM] at this; push_cast; exact this
  have hrbv : N * M ≤ data.random_buffer_volatility.length := by
    have := hS.random_buffer_volatility_length; rw [hN, hM] at this; exact_mod_cast this
  have hrbp : N * M ≤ data.random_buffer_price.length := by
    have := hS.random_buffer_price_length; rw [hN, hM] at this; exact_mod_cast this
  have hwbp : N * M ≤ data.wiener_buffer_price.length := by
    have := hS.wiener_buffer_price_length; rw [hN, hM] at this; exact_mod_cast this
  have hNt : data.N_sim.toNat = N := by rw [hN]; rfl
  have hMt : data.M_sim.toNat = M := by rw [hM]; rfl
  have hmul : imul data.N_sim data.M_sim = some ((N * M : Nat) : Int) := by
    rw [hN, hM]; exact imul_natCast N M hslots
  have hfill := simulated_ll_replication.fill_run (cell x 4) grad data (N * M) hslots hrbp hrbv
    hwbp
  have hmem0 : ll_memory x grad data 0 =
      { grad := grad,
        data :=
          { data with
            wiener_buffer_price :=
              overwrite data.wiener_buffer_price
                (fun t => correlate (cell x 4) (cell data.random_buffer_price t)
                  (cell data.random_buffer_volatility t)) (N * M) } } := by
    simp only [ll_memory, hNt, hMt, if_true]
    rfl
  rw [← hmem0] at hfill
  simp only [simulated_ll_replication, l0, l1, l2, l3, l4, hmul, hfill]
  obtain ⟨K, hK⟩ : ∃ K : Nat, data.N_obs = ((K + 1 : Nat) : Int) :=
    ⟨data.N_obs.toNat - 1, by have := hS.N_obs_pos; omega⟩
  have hKt : data.N_obs.toNat - 1 = K := by rw [hK]; simp
  rw [hKt]
  have := simulated_ll_replication.loop_eq E x grad data hS K 0 (by rw [hK]; push_cast; ring)
  simpa [ll_sum, ll_delta] using this

end Eval


/-! ## What a call writes -/

section Frame
variable {α : Type} [Add α] [Sub α] [Mul α] [Div α] [Neg α] [DoubleFns α]

theorem simulated_ll_replication.fill_frame (P : List α → WrapperSimulatedReplication α → Prop)
    (hP : ∀ g d w, P g d → P g { d with wiener_buffer_price := w })
    (rho : α) (i : Int) (s s1 : EvalState α) (h0 : P s.grad s.data)
    (h : simulated_ll_replication.fill rho i s = some s1) : P s1.grad s1.data := by
  simp only [simulated_ll_replication.fill] at h
  split at h
  · split at h
    · cases h
    · cases h
      exact hP _ _ _ h0
  · cases h


theorem simulated_ll_replication.substep_frame
    (P : List α → WrapperSimulatedReplication α → Prop)
    (hP : ∀ g d sp sv, P g d →
      P g { d with simulated_price := sp, simulated_volatility := sv })
    (mu alpha_0 alpha_1 alpha_2 delta sqrt_delta : α) (M_sim j k : Int) (s s1 : EvalState α)
    (h0 : P s.grad s.data)
    (h : simulated_ll_replication.substep mu alpha_0 alpha_1 alpha_2 delta sqrt_delta M_sim j k s
      = some s1) : P s1.grad s1.data := by
  simp only [simulated_ll_replication.substep] at h
  repeat' split at h
  all_goals cases h
  all_goals exact hP _ _ _ _ h0

theorem simulated_ll_replication.subpath_frame
    (P : List α → WrapperSimulatedReplication α → Prop)
    (hP : ∀ g d sp sv, P g d →
      P g { d with simulated_price := sp, simulated_volatility := sv })
    (mu alpha_0 alpha_1 alpha_2 delta sqrt_delta : α) (M_sim i j : Int) (s s1 : EvalState α)
    (h0 : P s.grad s.data)
    (h : simulated_ll_replication.subpath mu alpha_0 alpha_1 alpha_2 delta sqrt_delta M_sim i j s
      = some s1) : P s1.grad s1.data := by
  simp only [simulated_ll_replication.subpath] at h
  repeat' split at h
  all_goals first | cases h | skip
  refine forLoop_preserves (fun s => P s.grad s.data) _ _ ?_ _ _ _ ?_ h
  · intro k t t1 ht hk
    exact simulated_ll_replication.substep_frame P hP _ _ _ _ _ _ _ _ _ _ _ ht hk
  · exact hP _ _ _ _ h0

theorem simulated_ll_replication.accumulate_frame
    (h_price h_volatility sqrt_pi : α) (i j : Int) (c c1 : EvalState α × α)
    (h : simulated_ll_replication.accumulate h_price h_volatility sqrt_pi i j c = some c1) :
    c1.1 = c.1 := by
  simp only [simulated_ll_replication.accumulate] at h
  repeat' split at h
  all_goals cases h
  all_goals rfl

theorem simulated_ll_replication.loop_frame
    (P : List α → WrapperSimulatedReplication α → Prop)
    (hP : ∀ g d sp sv, P g d →
      P g { d with simulated_price := sp, simulated_volatility := sv })
    (E : Other α) (mu alpha_0 alpha_1 alpha_2 delta sqrt_delta sqrt_pi h_frac : α)
    (N_obs N_sim M_sim : Int) :
    ∀ (i : Int) (ll kernel_sum : α) (s : EvalState α) (r : α) (s1 : EvalState α),
      P s.grad s.data →
      simulated_ll_replication.loop E mu alpha_0 alpha_1 alpha_2 delta sqrt_delta sqrt_pi h_frac
        N_obs N_sim M_sim i ll kernel_sum s = some (r, s1) →
      P s1.grad s1.data := by
  intro i ll kernel_sum s
  induction i, ll, kernel_sum, s using simulated_ll_replication.loop.induct E mu alpha_0 alpha_1
    alpha_2 delta sqrt_delta sqrt_pi h_frac N_obs N_sim M_sim with
  | case1 ll kernel_sum s =>
    intro r s1 h0 h
    rw [simulated_ll_replication.loop] at h
    simp only [if_true] at h
    cases h; exact h0
  | case2 i ll kernel_sum s hne hnone =>
    intro r s1 h0 h
    rw [simulated_ll_replication.loop] at h
    simp [hne, hnone] at h
  | case3 i ll kernel_sum s hne s2 hsome h_price h_volatility hnone =>
    intro r s1 h0 h
    rw [simulated_ll_replication.loop] at h
    simp only [hne, hsome, if_false] at h
    simp only [h_price, h_volatility] at hnone
    rw [hnone] at h
    cases h
  | case4 i ll kernel_sum s hne s2 hsome h_price h_volatility s3 ks1 hacc ll1 hfire =>
    intro r s1 h0 h
    rw [simulated_ll_replication.loop] at h
    simp only [hne, hsome, if_false] at h
    simp only [h_price, h_volatility] at hacc
    rw [hacc] at h
    simp only [ll1] at hfire
    simp only [hfire, if_true] at h
    cases h
    have h2 : P s2.grad s2.data :=
      forLoop_preserves (fun s => P s.grad s.data) _ _
        (fun j t t1 ht hj =>
          simulated_ll_replication.subpath_frame P hP _ _ _ _ _ _ _ _ _ _ _ ht hj) _ _ _ h0 hsome
    have h3 : (s3, ks1).1 = s2 :=
      forLoop_preserves (fun c => c.1 = s2) _ _
        (fun j c c1 hc hj =>
          (simulated_ll_replication.accumulate_frame _ _ _ _ _ _ _ hj).trans hc)
        _ _ _ rfl hacc
    simp only at h3
    rw [h3]; exact h2
  | case5 i ll kernel_sum s hne s2 hsome h_price h_volatility s3 ks1 hacc ll1 hfire hmax =>
    intro r s1 h0 h
    rw [simulated_ll_replication.loop] at h
    simp only [hne, hsome, if_false] at h
    simp only [h_price, h_volatility] at hacc
    rw [hacc] at h
    simp only [ll1] at hfire
    simp only [hfire, hmax, if_false, if_true] at h
    cases h
  | case6 i ll kernel_sum s hne s2 hsome h_price h_volatility s3 ks1 hacc ll1 ks2 hfire hmax ih =>
    intro r s1 h0 h
    rw [simulated_ll_replication.loop] at h
    simp only [hne, hsome, if_false] at h
    simp only [h_price, h_volatility] at hacc
    rw [hacc] at h
    simp only [ll1] at hfire
    simp only [hfire, hmax, if_false] at h
    have h2 : P s2.grad s2.data :=
      forLoop_preserves (fun s => P s.grad s.data) _ _
        (fun j t t1 ht hj =>
          simulated_ll_replication.subpath_frame P hP _ _ _ _ _ _ _ _ _ _ _ ht hj) _ _ _ h0 hsome
    have h3 : (s3, ks1).1 = s2 :=
      forLoop_preserves (fun c => c.1 = s2) _ _
        (fun j c c1 hc hj =>
          (simulated_ll_replication.accumulate_frame _ _ _ _ _ _ _ hj).trans hc)
        _ _ _ rfl hacc
    simp only at h3
    exact ih r s1 (by rw [h3]; exact h2) h

/-- A property of the gradient vector and the wrapper that does not depend on
the three workspace buffers holds after every call that returns. -/
theorem simulated_ll_replication_frame (P : List α → WrapperSimulatedReplication α → Prop)
    (hP : ∀ g d sp sv w, P g d →
      P g { d with simulated_price := sp, simulated_volatility := sv, wiener_buffer_price := w })
    (E : Other α) (x grad : List α) (data : WrapperSimulatedReplication α) (r : α)
    (s : EvalState α) (h0 : P grad data)
    (h : simulated_ll_replication E x grad data = some (r, s)) : P s.grad s.data := by
  simp only [simulated_ll_replication] at h
  repeat' split at h
  all_goals first | cases h | skip
  rename_i s0 hfill
  have h1 : P s0.grad s0.data :=
    forLoop_preserves (fun s => P s.grad s.data) _ _
      (fun j t t1 ht hj =>
        simulated_ll_replication.fill_frame P
          (fun g d w hgd => hP g d d.simulated_price d.simulated_volatility w hgd) _ _ _ _ ht hj)
      _ _ _ h0 hfill
  exact simulated_ll_replication.loop_frame P
    (fun g d sp sv hgd => hP g d sp sv d.wiener_buffer_price hgd)
    _ _ _ _ _ _ _ _ _ _ _ _ _ _ _ _ _ _ h1 h

end Frame




section Buffer
variable {α : Type} [Add α] [Sub α] [Mul α] [Div α] [Neg α] [DoubleFns α]

theorem load_some {β : Type} (l : List β) (i : Int) (v : β) (h : load l i = some v) :
    0 ≤ i ∧ l[i.toNat]? = some v := by
  unfold load at h
  split at h
  · exact ⟨by assumption, h⟩
  · cases h

theorem store_some {β : Type} (l l1 : List β) (i : Int) (v : β) (h : store l i v = some l1) :
    0 ≤ i ∧ i.toNat < l.length ∧ l1 = l.set i.toNat v := by
  unfold store at h
  split at h
  · rename_i hc
    cases h
    exact ⟨hc.1, hc.2, rfl⟩
  · cases h

/-- Whenever the loop of line 89 returns, the cells below its bound hold the
correlated increments, and the two draw buffers are as before. -/
theorem simulated_ll_replication.fill_cells (rho : α) (grad : List α)
    (data : WrapperSimulatedReplication α) (hi : Int) (s : EvalState α)
    (h : forLoop hi (simulated_ll_replication.fill rho) 0 { grad := grad, data := data } =
      some s) :
    ∀ t : Nat, (t : Int) < hi →
      s.data.wiener_buffer_price[t]? =
        some (correlate rho (cell data.random_buffer_price t)
          (cell data.random_buffer_volatility t)) := by
  have key := forLoop_invariant
    (fun i (s : EvalState α) =>
      s.data.random_buffer_price = data.random_buffer_price ∧
      s.data.random_buffer_volatility = data.random_buffer_volatility ∧
      ∀ t : Nat, (t : Int) < i →
        s.data.wiener_buffer_price[t]? =
          some (correlate rho (cell data.random_buffer_price t)
            (cell data.random_buffer_volatility t)))
    hi (simulated_ll_replication.fill rho) ?_ 0 _ s
    ⟨rfl, rfl, fun t ht => absurd ht (by omega)⟩ h
  · exact key.2.2
  · intro i s s1 hinv hb
    simp only [simulated_ll_replication.fill] at hb
    split at hb
    · rename_i z_p W_v hzp hWv
      split at hb
      · cases hb
      · rename_i W_p hst
        cases hb
        obtain ⟨h0, hget1⟩ := load_some _ _ _ hzp
        obtain ⟨_, hget2⟩ := load_some _ _ _ hWv
        obtain ⟨_, hlen, hset⟩ := store_some _ _ _ _ hst
        rw [hinv.1] at hget1
        rw [hinv.2.1] at hget2
        refine ⟨hinv.1, hinv.2.1, ?_⟩
        intro t ht
        simp only [hset, List.getElem?_set]
        by_cases e : i.toNat = t
        · subst e
          simp only [if_true, hlen]
          rw [cell_of_getElem? _ _ _ hget1, cell_of_getElem? _ _ _ hget2]
        · simp only [e, if_false]
          exact hinv.2.2 t (by omega)
    · cases hb

theorem imul_some (a b c : Int) (h : imul a b = some c) : c = a * b := by
  unfold imul at h
  split at h
  · cases h; rfl
  · cases h

/-- Whenever a call returns, the cells below `N_sim * M_sim` of the correlated
buffer hold the correlated increments. -/
theorem simulated_ll_replication_cells (E : Other α) (x grad : List α)
    (data : WrapperSimulatedReplication α) (r : α) (s : EvalState α)
    (h : simulated_ll_replication E x grad data = some (r, s)) :
    ∀ t : Nat, (t : Int) < data.N_sim * data.M_sim →
      s.data.wiener_buffer_price[t]? =
        some (correlate (cell x 4) (cell data.random_buffer_price t)
          (cell data.random_buffer_volatility t)) := by
  simp only [simulated_ll_replication] at h
  repeat' split at h
  all_goals first | cases h | skip
  rename_i _ _ _ _ _ mu alpha_0 alpha_1 alpha_2 rho _ _ _ _ hrho _ L hL _ s0 hfill
  have hx : cell x 4 = rho := cell_of_getElem? _ _ _ (by simpa using (load_some _ _ _ hrho).2)
  have hcells := simulated_ll_replication.fill_cells rho grad data L s0 hfill
  have hkeep : s.data.wiener_buffer_price = s0.data.wiener_buffer_price :=
    simulated_ll_replication.loop_frame
      (fun _ d => d.wiener_buffer_price = s0.data.wiener_buffer_price)
      (fun g d sp sv hgd => hgd)
      _ _ _ _ _ _ _ _ _ _ _ _ _ _ _ _ _ _ rfl h
  intro t ht
  rw [hkeep, hx]
  exact hcells t (by rw [imul_some _ _ _ hL]; exact ht)

end Buffer

section Finite
variable {α : Type} [Add α] [Sub α] [Mul α] [Div α] [Neg α] [DoubleFns α]

/-- With the guard compiled in, the main loop returns a finite value when it is
entered with a finite `-ll`. -/
theorem simulated_ll_replication.loop_finite (isfinite : α → Bool) (E : Other α)
    (hcheck : E.INFINITY_CHECK = true)
    (h_normal : ∀ v : α, isnormal v = true → isfinite v = true)
    (h_neg : ∀ v : α, isfinite v = true → isfinite (-v) = true)
    (h_max : isfinite E.max_double = true)
    (mu alpha_0 alpha_1 alpha_2 delta sqrt_delta sqrt_pi h_frac : α)
    (N_obs N_sim M_sim : Int) :
    ∀ (i : Int) (ll kernel_sum : α) (s : EvalState α) (r : α) (s1 : EvalState α),
      isfinite (-ll) = true →
      simulated_ll_replication.loop E mu alpha_0 alpha_1 alpha_2 delta sqrt_delta sqrt_pi h_frac
        N_obs N_sim M_sim i ll kernel_sum s = some (r, s1) →
      isfinite r = true := by
  intro i ll kernel_sum s
  induction i, ll, kernel_sum, s using simulated_ll_replication.loop.induct E mu alpha_0 alpha_1
    alpha_2 delta sqrt_delta sqrt_pi h_frac N_obs N_sim M_sim with
  | case1 ll kernel_sum s =>
    intro r s1 h0 h
    rw [simulated_ll_replication.loop] at h
    simp only [if_true] at h
    cases h; exact h0
  | case2 i ll kernel_sum s hne hnone =>
    intro r s1 h0 h
    rw [simulated_ll_replication.loop] at h
    simp [hne, hnone] at h
  | case3 i ll kernel_sum s hne s2 hsome h_price h_volatility hnone =>
    intro r s1 h0 h
    rw [simulated_ll_replication.loop] at h
    simp only [hne, hsome, if_false] at h
    simp only [h_price, h_volatility] at hnone
    rw [hnone] at h
    cases h
  | case4 i ll kernel_sum s hne s2 hsome h_price h_volatility s3 ks1 hacc ll1 hfire =>
    intro r s1 h0 h
    rw [simulated_ll_replication.loop] at h
    simp only [hne, hsome, if_false] at h
    simp only [h_price, h_volatility] at hacc
    rw [hacc] at h
    simp only [ll1] at hfire
    simp only [hfire, if_true] at h
    cases h
    exact h_max
  | case5 i ll kernel_sum s hne s2 hsome h_price h_volatility s3 ks1 hacc ll1 hfire hmax =>
    intro r s1 h0 h
    rw [simulated_ll_replication.loop] at h
    simp only [hne, hsome, if_false] at h
    simp only [h_price, h_volatility] at hacc
    rw [hacc] at h
    simp only [ll1] at hfire
    simp only [hfire, hmax, if_false, if_true] at h
    cases h
  | case6 i ll kernel_sum s hne s2 hsome h_price h_volatility s3 ks1 hacc ll1 ks2 hfire hmax ih =>
    intro r s1 h0 h
    rw [simulated_ll_replication.loop] at h
    simp only [hne, hsome, if_false] at h
    simp only [h_price, h_volatility] at hacc
    rw [hacc] at h
    simp only [ll1] at hfire
    simp only [hfire, hmax, if_false] at h
    refine ih r s1 (h_neg _ (h_normal _ ?_)) h
    simp only [hcheck, Bool.true_and, Bool.or_eq_true, Bool.not_eq_true', not_or,
      Bool.not_eq_true, Bool.not_eq_false] at hfire
    exact hfire.2

/-- With the guard compiled in, every call that returns returns a finite
value. -/
theorem simulated_ll_replication_finite (isfinite : α → Bool) (E : Other α)
    (hcheck : E.INFINITY_CHECK = true)
    (h_normal : ∀ v : α, isnormal v = true → isfinite v = true)
    (h_neg : ∀ v : α, isfinite v = true → isfinite (-v) = true)
    (h_zero : isfinite (lit 0 : α) = true)
    (h_max : isfinite E.max_double = true)
    (x grad : List α) (data : WrapperSimulatedReplication α) (r : α) (s : EvalState α)
    (h : simulated_ll_replication E x grad data = some (r, s)) : isfinite r = true := by
  simp only [simulated_ll_replication] at h
  repeat' split at h
  all_goals first | cases h | skip
  exact simulated_ll_replication.loop_finite isfinite E hcheck h_normal h_neg h_max
    _ _ _ _ _ _ _ _ _ _ _ _ _ _ _ _ _ (h_neg _ h_zero) h

end Finite
/-! ## The degeneracy guard -/

section Outcome
variable {α : Type} [Add α] [Sub α] [Mul α] [Div α] [Neg α] [DoubleFns α]

/-- The two ways the main loop ends: at the first step whose guard fires, with
the sentinel, or after the last step, with `-ll`. -/
theorem ll_outcome_spec (E : Other α) (x grad : List α) (data : WrapperSimulatedReplication α)
    (todo : Nat) :
    ∀ n : Nat,
      (∃ m, n < m ∧ m ≤ n + todo ∧ ll_fires E x data m = true ∧
          (∀ k, n < k → k < m → ll_fires E x data k = false) ∧
          ll_outcome E x grad data todo n = (E.max_double, ll_memory x grad data m)) ∨
        ((∀ k, n < k → k ≤ n + todo → ll_fires E x data k = false) ∧
          ll_outcome E x grad data todo n =
            (-(ll_sum E x data (n + todo)), ll_memory x grad data (n + todo))) := by
  induction todo with
  | zero =>
    intro n
    right
    refine ⟨fun k h1 h2 => absurd h2 (by omega), ?_⟩
    simp [ll_outcome]
  | succ todo ih =>
    intro n
    by_cases hf : ll_fires E x data (n + 1) = true
    · left
      refine ⟨n + 1, by omega, by omega, hf, fun k h1 h2 => absurd h2 (by omega), ?_⟩
      simp [ll_outcome, hf]
    · have hf1 : ll_fires E x data (n + 1) = false := by simpa using hf
      have hout : ll_outcome E x grad data (todo + 1) n = ll_outcome E x grad data todo (n + 1) := by
        simp [ll_outcome, hf1]
      rcases ih (n + 1) with ⟨m, h1, h2, h3, h4, h5⟩ | ⟨h1, h2⟩
      · left
        refine ⟨m, by omega, by omega, h3, ?_, by rw [hout, h5]⟩
        intro k hk1 hk2
        by_cases hk : k = n + 1
        · rw [hk]; exact hf1
        · exact h4 k (by omega) hk2
      · right
        refine ⟨?_, by rw [hout, h2]; congr 2 <;> ring_nf⟩
        intro k hk1 hk2
        by_cases hk : k = n + 1
        · rw [hk]; exact hf1
        · exact h1 k (by omega) (by omega)


/-- Claim C5, as amended: in a build with `INFINITY_CHECK` defined, and in every
arithmetic in which a normal value is finite, the negation of a finite value is
finite, and `0.0` and `max_double` are finite: every call that returns returns a
finite value; and under the size conditions the call returns and, if the
running log-likelihood `ll_sum m` is non-finite after some observation step
`m`, it returns the sentinel `max_double`, and if moreover no guard fired
before step `m`, the memory at the return is the memory right after step `m`
(`ll_memory m`: the simulated buffers hold the cloud of step `m`), so no later
observation is processed. -/
theorem simulated_ll_replication_guarded (E : Other α) (x grad : List α)
    (data : WrapperSimulatedReplication α) (isfinite : α → Bool)
    (hcheck : E.INFINITY_CHECK = true)
    (h_normal : ∀ v : α, isnormal v = true → isfinite v = true)
    (h_neg : ∀ v : α, isfinite v = true → isfinite (-v) = true)
    (h_zero : isfinite (lit 0 : α) = true)
    (h_max : isfinite E.max_double = true) :
    (∀ r s, simulated_ll_replication E x grad data = some (r, s) → isfinite r = true) ∧
    (Sized x data →
      ∃ r s, simulated_ll_replication E x grad data = some (r, s) ∧
        ∀ m : Nat, 1 ≤ m → (m : Int) < data.N_obs → isfinite (ll_sum E x data m) = false →
          r = E.max_double ∧
            ((∀ k, 1 ≤ k → k < m → ll_fires E x data k = false) →
              s = ll_memory x grad data m)) := by
  refine ⟨fun r s h => simulated_ll_replication_finite isfinite E hcheck h_normal h_neg h_zero
    h_max x grad data r s h, ?_⟩
  intro hS
  refine ⟨(ll_outcome E x grad data (data.N_obs.toNat - 1) 0).1,
    (ll_outcome E x grad data (data.N_obs.toNat - 1) 0).2,
    simulated_ll_replication_eq E x grad data hS, ?_⟩
  have hfire : ∀ m, isfinite (ll_sum E x data m) = false → ll_fires E x data m = true := by
    intro m hm
    have : isnormal (ll_sum E x data m) = false := by
      by_contra hc
      have := h_normal _ (by simpa using hc)
      rw [this] at hm; cases hm
    simp [ll_fires, hcheck, this]
  have hN := hS.N_obs_pos
  rcases ll_outcome_spec E x grad data (data.N_obs.toNat - 1) 0 with
    ⟨m, h1, h2, h3, h4, h5⟩ | ⟨h1, h2⟩
  · rw [h5]
    intro m1 hm1 hm1N hnf
    refine ⟨rfl, ?_⟩
    intro hfirst
    have e : m1 = m := by
      rcases Nat.lt_trichotomy m1 m with h | h | h
      · have := h4 m1 (by omega) h
        rw [hfire m1 hnf] at this; cases this
      · exact h
      · have := hfirst m (by omega) h
        rw [h3] at this; cases this
    rw [e]
  · intro m1 hm1 hm1N hnf
    have := h1 m1 (by omega) (by omega)
    rw [hfire m1 hnf] at this; cases this

end Outcome

/-- Claim C5 fails as stated: in a build without `INFINITY_CHECK` the call
`collapsed` (two observations, two coinciding sub-paths, so that `st_dev` and
both bandwidths are `0`, and the kernel is `exp(-inf) / 0 = 0 / 0`) is well
sized and returns `NaN`, a non-finite value, not the sentinel. -/
theorem unguarded_returns_nan :
    Sized zero_parameters collapsed ∧
      (simulated_ll_replication unguarded zero_parameters [] collapsed).map Prod.fst =
        some XRat.nan ∧
      XRat.isfinite XRat.nan = false := by
  have hS : Sized zero_parameters collapsed := by constructor <;> decide
  refine ⟨hS, ?_, rfl⟩
  rw [simulated_ll_replication_eq _ _ _ _ hS]
  decide!



/-! ## Frame, correlated buffer, determinism -/

section Claims
variable {α : Type} [Add α] [Sub α] [Mul α] [Div α] [Neg α] [DoubleFns α]

/-- The memory at the return is the memory after some number of steps. -/
theorem ll_outcome_memory (E : Other α) (x grad : List α) (data : WrapperSimulatedReplication α)
    (todo n : Nat) :
    ∃ m, n ≤ m ∧ m ≤ n + todo ∧ (ll_outcome E x grad data todo n).2 = ll_memory x grad data m := by
  rcases ll_outcome_spec E x grad data todo n with ⟨m, h1, h2, _, _, h5⟩ | ⟨_, h2⟩
  · exact ⟨m, by omega, h2, by rw [h5]⟩
  · exact ⟨n + todo, by omega, le_refl _, by rw [h2]⟩

/-- Claim C8: a call of `simulated_ll_replication` that returns leaves the
gradient vector, the observed price and volatility series, the two draw
buffers `random_buffer_price` and `random_buffer_volatility` and the sizing
fields `N_obs`, `N_sim`, `M_sim`, `dt` unchanged (the parameter vector `x` is
read-only); what it writes is inside `simulated_price`, `simulated_volatility`
and `wiener_buffer_price`, whose lengths it keeps.  Under the size conditions
the call does return. -/
theorem simulated_ll_replication_writes_workspace_only (E : Other α) (x grad : List α)
    (data : WrapperSimulatedReplication α) :
    (Sized x data → ∃ r s, simulated_ll_replication E x grad data = some (r, s) ∧
      s.data.simulated_price.length = data.simulated_price.length ∧
      s.data.simulated_volatility.length = data.simulated_volatility.length ∧
      s.data.wiener_buffer_price.length = data.wiener_buffer_price.length) ∧
    ∀ r s, simulated_ll_replication E x grad data = some (r, s) →
      s.grad = grad ∧ s.data.price = data.price ∧ s.data.volatility = data.volatility ∧
      s.data.random_buffer_price = data.random_buffer_price ∧
      s.data.random_buffer_volatility = data.random_buffer_volatility ∧
      s.data.N_obs = data.N_obs ∧ s.data.N_sim = data.N_sim ∧ s.data.M_sim = data.M_sim ∧
      s.data.dt = data.dt := by
  constructor
  · intro hS
    obtain ⟨m, _, _, hm⟩ := ll_outcome_memory E x grad data (data.N_obs.toNat - 1) 0
    refine ⟨_, _, simulated_ll_replication_eq E x grad data hS, ?_, ?_, ?_⟩
    · rw [hm]; exact (ll_memory_lengths x grad data m).1
    · rw [hm]; exact (ll_memory_lengths x grad data m).2
    · rw [hm]; simp [ll_memory, length_overwrite]
  · intro r s h
    exact simulated_ll_replication_frame
      (fun g d => g = grad ∧ d.price = data.price ∧ d.volatility = data.volatility ∧
        d.random_buffer_price = data.random_buffer_price ∧
        d.random_buffer_volatility = data.random_buffer_volatility ∧
        d.N_obs = data.N_obs ∧ d.N_sim = data.N_sim ∧ d.M_sim = data.M_sim ∧ d.dt = data.dt)
      (fun g d sp sv w h => h) E x grad data r s
      ⟨rfl, rfl, rfl, rfl, rfl, rfl, rfl, rfl, rfl⟩ h

theorem euler_path_congr (mu alpha_0 alpha_1 alpha_2 delta sqrt_delta : α)
    (W_p W_v W_p1 W_v1 : Nat → α) (pv : α × α) (n : Nat)
    (hp : ∀ k, k < n → W_p k = W_p1 k) (hv : ∀ k, k < n → W_v k = W_v1 k) :
    euler_path mu alpha_0 alpha_1 alpha_2 delta sqrt_delta W_p W_v pv n =
      euler_path mu alpha_0 alpha_1 alpha_2 delta sqrt_delta W_p1 W_v1 pv n := by
  induction n with
  | zero => rfl
  | succ n ih =>
    simp only [euler_path]
    rw [ih (fun k hk => hp k (by omega)) (fun k hk => hv k (by omega)),
      hp n (by omega), hv n (by omega)]

theorem cell_overwrite (l : List α) (f : Nat → α) (n t : Nat) (ht : t < n) (hn : n ≤ l.length) :
    cell (overwrite l f n) t = f t := by
  apply cell_of_getElem?
  have : t < l.length := by omega
  simp [getElem?_overwrite, ht, this]

/-- Claim C9: after any call that returns (the likelihood or the sentinel), for
every slot `t < N_sim * M_sim`,
`W_p[t] = sqrt(1 - rho^2) * random_buffer_price[t] + rho * random_buffer_volatility[t]`
with `rho = x[4]`; and under the size conditions the call returns, its value
and memory are those of `ll_outcome`, in which the terminal point of every
sub-path `j < N_sim` at every observation `i` is the Euler path driven by
these cells `W_p[j * M_sim + k]` of the buffer. -/
theorem simulated_ll_replication_correlated_buffer (E : Other α) (x grad : List α)
    (data : WrapperSimulatedReplication α) :
    (∀ r s, simulated_ll_replication E x grad data = some (r, s) →
      ∀ t : Nat, (t : Int) < data.N_sim * data.M_sim →
        s.data.wiener_buffer_price[t]? =
          some (sqrt (lit 1 - cell x 4 * cell x 4) * cell data.random_buffer_price t
            + cell x 4 * cell data.random_buffer_volatility t)) ∧
    (Sized x data →
      ∃ r s, simulated_ll_replication E x grad data = some (r, s) ∧
        (r, s) = ll_outcome E x grad data (data.N_obs.toNat - 1) 0 ∧
        ∀ i j : Nat, (j : Int) < data.N_sim →
          ll_terminal x data i j =
            euler_path (cell x 0) (cell x 1) (cell x 2) (cell x 3) (data.dt / ofInt data.M_sim)
              (sqrt (data.dt / ofInt data.M_sim))
              (fun k => cell s.data.wiener_buffer_price (j * data.M_sim.toNat + k))
              (fun k => cell data.random_buffer_volatility (j * data.M_sim.toNat + k))
              (cell data.price (i - 1), cell data.volatility (i - 1)) data.M_sim.toNat) := by
  refine ⟨fun r s h t ht => simulated_ll_replication_cells E x grad data r s h t ht, ?_⟩
  intro hS
  obtain ⟨N, hN⟩ : ∃ N : Nat, data.N_sim = (N : Int) :=
    ⟨data.N_sim.toNat, (Int.toNat_of_nonneg hS.N_sim_nonneg).symm⟩
  obtain ⟨M, hM⟩ : ∃ M : Nat, data.M_sim = (M : Int) :=
    ⟨data.M_sim.toNat, (Int.toNat_of_nonneg hS.M_sim_nonneg).symm⟩
  have hNt : data.N_sim.toNat = N := by rw [hN]; rfl
  have hMt : data.M_sim.toNat = M := by rw [hM]; rfl
  have hwbp : N * M ≤ data.wiener_buffer_price.length := by
    have := hS.wiener_buffer_price_length; rw [hN, hM] at this; exact_mod_cast this
  obtain ⟨m, _, _, hm⟩ := ll_outcome_memory E x grad data (data.N_obs.toNat - 1) 0
  have hbuf : (ll_outcome E x grad data (data.N_obs.toNat - 1) 0).2.data.wiener_buffer_price =
      overwrite data.wiener_buffer_price (ll_W_p x data) (N * M) := by
    rw [hm]; simp [ll_memory, hNt, hMt]
  refine ⟨_, _, simulated_ll_replication_eq E x grad data hS, rfl, ?_⟩
  intro i j hj
  rw [hN] at hj
  have hj1 : j < N := by exact_mod_cast hj
  rw [hbuf, hMt]
  simp only [ll_terminal, ll_delta, ll_W_v, hMt]
  apply euler_path_congr
  · intro k hk
    have : j * M + k < N * M := by
      have : (j + 1) * M ≤ N * M := Nat.mul_le_mul_right M hj1
      rw [Nat.add_mul, Nat.one_mul] at this; omega
    rw [cell_overwrite _ _ _ _ this hwbp]
  · intro k hk; rfl

theorem ll_kernel_sum_workspace (E : Other α) (x : List α)
    (data : WrapperSimulatedReplication α) (sp sv w : List α) (i j : Nat) :
    ll_kernel_sum E x
        { data with simulated_price := sp, simulated_volatility := sv, wiener_buffer_price := w }
        i j =
      ll_kernel_sum E x data i j := by
  induction j with
  | zero => rfl
  | succ j ih => simp only [ll_kernel_sum, ih]; rfl

theorem ll_sum_workspace (E : Other α) (x : List α)
    (data : WrapperSimulatedReplication α) (sp sv w : List α) (n : Nat) :
    ll_sum E x
        { data with simulated_price := sp, simulated_volatility := sv, wiener_buffer_price := w }
        n =
      ll_sum E x data n := by
  induction n with
  | zero => rfl
  | succ n ih => simp only [ll_sum, ll_density, ih, ll_kernel_sum_workspace]

theorem ll_outcome_workspace (E : Other α) (x grad grad2 : List α)
    (data : WrapperSimulatedReplication α) (sp sv w : List α) (todo : Nat) :
    ∀ n : Nat,
      (ll_outcome E x grad2
          { data with
            simulated_price := sp, simulated_volatility := sv, wiener_buffer_price := w }
          todo n).1 =
        (ll_outcome E x grad data todo n).1 := by
  induction todo with
  | zero => intro n; simp only [ll_outcome, ll_sum_workspace]
  | succ todo ih =>
    intro n
    simp only [ll_outcome, ll_fires, ll_sum_workspace]
    split
    · rfl
    · exact ih (n + 1)

theorem Sized.workspace {x : List α} {data : WrapperSimulatedReplication α} (hS : Sized x data)
    (sp sv w : List α) (h1 : data.N_sim ≤ sp.length) (h2 : data.N_sim ≤ sv.length)
    (h3 : data.N_sim * data.M_sim ≤ w.length) :
    Sized x
      { data with simulated_price := sp, simulated_volatility := sv, wiener_buffer_price := w } :=
  { x_length := hS.x_length
    N_obs_pos := hS.N_obs_pos
    N_obs_max := hS.N_obs_max
    N_sim_nonneg := hS.N_sim_nonneg
    N_sim_max := hS.N_sim_max
    M_sim_nonneg := hS.M_sim_nonneg
    M_sim_max := hS.M_sim_max
    slots_max := hS.slots_max
    price_length := hS.price_length
    volatility_length := hS.volatility_length
    simulated_price_length := h1
    simulated_volatility_length := h2
    random_buffer_price_length := hS.random_buffer_price_length
    random_buffer_volatility_length := hS.random_buffer_volatility_length
    wiener_buffer_price_length := h3 }

/-- Claim C6: under the size conditions a call returns a value `r` such that a
second call with the same parameter vector, run on the gradient vector and
wrapper as the first call left them, returns `r` again; and any call that
differs only in the initial contents of `simulated_price`,
`simulated_volatility`, `wiener_buffer_price` (of sufficient length) and in the
gradient vector returns `r` too. -/
theorem simulated_ll_replication_deterministic (E : Other α) (x grad : List α)
    (data : WrapperSimulatedReplication α) (hS : Sized x data) :
    ∃ r s, simulated_ll_replication E x grad data = some (r, s) ∧
      (∃ s2, simulated_ll_replication E x s.grad s.data = some (r, s2)) ∧
      ∀ (grad2 sp sv w : List α), data.N_sim ≤ sp.length → data.N_sim ≤ sv.length →
        data.N_sim * data.M_sim ≤ w.length →
        ∃ s3, simulated_ll_replication E x grad2
            { data with
              simulated_price := sp, simulated_volatility := sv, wiener_buffer_price := w } =
          some (r, s3) := by
  have general : ∀ (grad2 sp sv w : List α), data.N_sim ≤ sp.length → data.N_sim ≤ sv.length →
      data.N_sim * data.M_sim ≤ w.length →
      ∃ s3, simulated_ll_replication E x grad2
          { data with
            simulated_price := sp, simulated_volatility := sv, wiener_buffer_price := w } =
        some ((ll_outcome E x grad data (data.N_obs.toNat - 1) 0).1, s3) := by
    intro grad2 sp sv w h1 h2 h3
    refine ⟨(ll_outcome E x grad2
      { data with simulated_price := sp, simulated_volatility := sv, wiener_buffer_price := w }
      (data.N_obs.toNat - 1) 0).2, ?_⟩
    rw [simulated_ll_replication_eq E x grad2 _ (hS.workspace sp sv w h1 h2 h3)]
    rw [← ll_outcome_workspace E x grad grad2 data sp sv w]
  refine ⟨_, _, simulated_ll_replication_eq E x grad data hS, ?_, general⟩
  obtain ⟨m, _, _, hm⟩ := ll_outcome_memory E x grad data (data.N_obs.toNat - 1) 0
  rw [hm]
  have hl := ll_memory_lengths x grad data m
  have hw : (ll_memory x grad data m).data.wiener_buffer_price.length =
      data.wiener_buffer_price.length := by simp [ll_memory, length_overwrite]
  exact general (ll_memory x grad data m).grad (ll_memory x grad data m).data.simulated_price
    (ll_memory x grad data m).data.simulated_volatility
    (ll_memory x grad data m).data.wiener_buffer_price
    (by rw [hl.1]; exact hS.simulated_price_length)
    (by rw [hl.2]; exact hS.simulated_volatility_length)
    (by rw [hw]; exact hS.wiener_buffer_price_length)

end Claims


/-! ## The returned value in exact arithmetic -/


theorem kernel_real (a b h : ℝ) :
    kernel a b h (sqrt (lit 2 * M_PI)) = gaussian_kernel (a - b) h := by
  simp only [kernel, gaussian_kernel, real_lit, real_exp, real_sqrt, real_M_PI]
  push_cast
  congr 2
  ring

theorem ll_kernel_sum_real (E : Other ℝ) (x : List ℝ) (data : WrapperSimulatedReplication ℝ)
    (i n : Nat) :
    ll_kernel_sum E x data i n =
      ∑ j ∈ Finset.range n,
        gaussian_kernel ((ll_terminal x data i j).1 - cell data.price i)
            (h_frac data.N_obs * E.st_dev (ll_cloud_price x data i) data.N_sim)
          * gaussian_kernel ((ll_terminal x data i j).2 - cell data.volatility i)
            (h_frac data.N_obs * E.st_dev (ll_cloud_volatility x data i) data.N_sim) := by
  induction n with
  | zero => simp [ll_kernel_sum, real_lit]
  | succ n ih =>
    rw [Finset.sum_range_succ, ← ih]
    simp only [ll_kernel_sum, kernel_real, ll_h_price, ll_h_volatility]
    ring

theorem ll_density_real (E : Other ℝ) (x : List ℝ) (data : WrapperSimulatedReplication ℝ)
    (i : Nat) : ll_density E x data i = kernel_density E x data i := by
  simp only [ll_density, kernel_density, ll_kernel_sum_real, real_ofInt]
  ring

theorem ll_sum_real (E : Other ℝ) (x : List ℝ) (data : WrapperSimulatedReplication ℝ)
    (n : Nat) :
    ll_sum E x data n = ∑ i ∈ Finset.Ico 1 (n + 1), Real.log (kernel_density E x data i) := by
  induction n with
  | zero => simp [ll_sum, real_lit]
  | succ n ih =>
    rw [Finset.sum_Ico_succ_top (by omega), ← ih]
    simp only [ll_sum, ll_density_real, real_log]

/-- Claim C1: in exact arithmetic, under the size conditions, when no degeneracy
guard fires (`ll_fires` is false after every step `1..N_obs-1`),
`simulated_ll_replication` returns `-(sum over i = 1..N_obs-1 of log(D_i))`
with `D_i = kernel_density i`, the mean over the `N_sim` terminal points of the
product of the two Gaussian kernels with bandwidths `h_frac * st_dev`; for
`N_obs = 1` the result is `0`. -/
theorem simulated_ll_replication_value (E : Other ℝ) (x grad : List ℝ)
    (data : WrapperSimulatedReplication ℝ) (hS : Sized x data)
    (hquiet : ∀ m : Nat, 1 ≤ m → (m : Int) < data.N_obs → ll_fires E x data m = false) :
    (∃ s, simulated_ll_replication E x grad data =
      some (-(∑ i ∈ Finset.Ico 1 data.N_obs.toNat, Real.log (kernel_density E x data i)), s)) ∧
    (data.N_obs = 1 → ∃ s, simulated_ll_replication E x grad data = some (0, s)) := by
  have hN := hS.N_obs_pos
  have main : ∃ s, simulated_ll_replication E x grad data =
      some (-(∑ i ∈ Finset.Ico 1 data.N_obs.toNat, Real.log (kernel_density E x data i)), s) := by
    refine ⟨ll_memory x grad data (data.N_obs.toNat - 1), ?_⟩
    rw [simulated_ll_replication_eq E x grad data hS]
    rcases ll_outcome_spec E x grad data (data.N_obs.toNat - 1) 0 with
      ⟨m, h1, h2, h3, _, _⟩ | ⟨_, h2⟩
    · have := hquiet m (by omega) (by omega)
      rw [h3] at this; cases this
    · rw [h2, Nat.zero_add, ll_sum_real]
      have : data.N_obs.toNat - 1 + 1 = data.N_obs.toNat := by omega
      rw [this]
  refine ⟨main, ?_⟩
  intro h1
  obtain ⟨s, hs⟩ := main
  refine ⟨s, ?_⟩
  rw [hs, h1]
  simp



/-! ## The bandwidth fraction -/


/-- The value of `h_frac` in exact arithmetic. -/
theorem h_frac_real (N_obs : Int) :
    (h_frac N_obs : ℝ) = (6 : ℝ) ^ ((1 : ℝ) / 5) * (N_obs : ℝ) ^ (-(3 : ℝ) / 10) := by
  simp only [h_frac, real_lit, real_ofInt, real_pow]
  push_cast
  norm_num

/-- Claim C2 does not hold of the code: in exact arithmetic, for every
`N_obs >= 1` the constant `h_frac` of line 79 is `6^(1/5) * N_obs^(-3/10)`,
because `4.0 / dimy + 2.0` is `(4 / dimy) + 2 = 6`, and this differs from the
claimed `(4/(dim+2))^(1/(dim+4)) * N_obs^(-(1+underSmooth)/(dim+4))
= (4/3)^(1/5) * N_obs^(-3/10)`. -/
theorem h_frac_base_is_six (N_obs : Int) (hN : 1 ≤ N_obs) :
    (h_frac N_obs : ℝ) = (6 : ℝ) ^ ((1 : ℝ) / 5) * (N_obs : ℝ) ^ (-(3 : ℝ) / 10) ∧
      (h_frac N_obs : ℝ) ≠
        ((4 : ℝ) / (1 + 2)) ^ ((1 : ℝ) / (1 + 4)) * (N_obs : ℝ) ^ (-((1 : ℝ) + 0.5) / (1 + 4)) := by
  refine ⟨h_frac_real N_obs, ?_⟩
  rw [h_frac_real]
  have hpos : (0 : ℝ) < (N_obs : ℝ) := by exact_mod_cast (by omega : (0 : Int) < N_obs)
  have hp : (0 : ℝ) < (N_obs : ℝ) ^ (-(3 : ℝ) / 10) := Real.rpow_pos_of_pos hpos _
  have he : (-((1 : ℝ) + 0.5) / (1 + 4)) = -(3 : ℝ) / 10 := by norm_num
  have hb : ((1 : ℝ) / (1 + 4)) = (1 : ℝ) / 5 := by norm_num
  rw [he, hb]
  have hlt : ((4 : ℝ) / (1 + 2)) ^ ((1 : ℝ) / 5) < (6 : ℝ) ^ ((1 : ℝ) / 5) :=
    Real.rpow_lt_rpow (by norm_num) (by norm_num) (by norm_num)
  intro h
  have := mul_right_cancel₀ (ne_of_gt hp) h
  linarith

/-- Claim C7: in exact arithmetic, for integers `1 <= N_obs < N_obs1` the
bandwidth fraction `h_frac N_obs1` is strictly smaller than `h_frac N_obs`;
and `h_frac` is a function of `N_obs` alone: two wrappers with the same `N_obs`
(whatever their `N_sim`) have the same bandwidth fraction. -/
theorem h_frac_strictly_decreasing (N_obs N_obs1 : Int) (h1 : 1 ≤ N_obs) (h2 : N_obs < N_obs1) :
    (h_frac N_obs1 : ℝ) < h_frac N_obs ∧
      ∀ data data1 : WrapperSimulatedReplication ℝ, data.N_obs = data1.N_obs →
        (h_frac data.N_obs : ℝ) = h_frac data1.N_obs := by
  constructor
  · rw [h_frac_real, h_frac_real]
    have hpos : (0 : ℝ) < (N_obs : ℝ) := by exact_mod_cast (by omega : (0 : Int) < N_obs)
    have hlt : (N_obs : ℝ) < (N_obs1 : ℝ) := by exact_mod_cast h2
    have h6 : (0 : ℝ) < (6 : ℝ) ^ ((1 : ℝ) / 5) := Real.rpow_pos_of_pos (by norm_num) _
    have := Real.rpow_lt_rpow_of_neg hpos hlt (by norm_num : (-(3 : ℝ) / 10) < 0)
    exact mul_lt_mul_of_pos_left this h6
  · intro data data1 h
    rw [h]



/-! ## The correlated increments -/


theorem correlate_real (rho z_p z_v : ℝ) :
    correlate rho z_p z_v = Real.sqrt (1 - rho ^ 2) * z_p + rho * z_v := by
  simp only [correlate, real_lit, real_sqrt]
  push_cast
  ring_nf

/-- Claim C10: let `Ex` be an expectation (a sample mean, or the integral
against a probability measure), linear on the combinations of `z_p`, `z_v` and
of their products, and let the draws `z_p`, `z_v` have zero mean, unit second
moment and zero cross moment.  Then for `rho` in `(-1, 1)` the pair `W_v = z_v`,
`W_p = correlate rho z_p z_v = sqrt(1 - rho^2) * z_p + rho * z_v` built by both
programs satisfies `E[W_p] = 0`, `E[W_p^2] = 1`, `E[W_p * W_v] = rho`, and the
correlation of `W_p` and `W_v` is `rho`. -/
theorem correlate_moments {Ω : Type} (Ex : (Ω → ℝ) → ℝ) (rho : ℝ) (z_p z_v : Ω → ℝ)
    (hrho : -1 < rho ∧ rho < 1)
    (hlin1 : ∀ a b : ℝ,
      Ex (fun ω => a * z_p ω + b * z_v ω) = a * Ex z_p + b * Ex z_v)
    (hlin2 : ∀ a b c : ℝ,
      Ex (fun ω => a * (z_p ω * z_p ω) + b * (z_p ω * z_v ω) + c * (z_v ω * z_v ω)) =
        a * Ex (fun ω => z_p ω * z_p ω) + b * Ex (fun ω => z_p ω * z_v ω)
          + c * Ex (fun ω => z_v ω * z_v ω))
    (hp : Ex z_p = 0) (hv : Ex z_v = 0)
    (hpp : Ex (fun ω => z_p ω * z_p ω) = 1) (hvv : Ex (fun ω => z_v ω * z_v ω) = 1)
    (hpv : Ex (fun ω => z_p ω * z_v ω) = 0) :
    Ex (fun ω => correlate rho (z_p ω) (z_v ω)) = 0 ∧
      Ex (fun ω => correlate rho (z_p ω) (z_v ω) * correlate rho (z_p ω) (z_v ω)) = 1 ∧
      Ex (fun ω => correlate rho (z_p ω) (z_v ω) * z_v ω) = rho ∧
      (Ex (fun ω => correlate rho (z_p ω) (z_v ω) * z_v ω)
          - Ex (fun ω => correlate rho (z_p ω) (z_v ω)) * Ex z_v)
        / (Real.sqrt (Ex (fun ω => correlate rho (z_p ω) (z_v ω) * correlate rho (z_p ω) (z_v ω))
              - Ex (fun ω => correlate rho (z_p ω) (z_v ω)) ^ 2)
            * Real.sqrt (Ex (fun ω => z_v ω * z_v ω) - Ex z_v ^ 2)) = rho := by
  have hs : 0 ≤ 1 - rho ^ 2 := by nlinarith [hrho.1, hrho.2]
  have hsq : Real.sqrt (1 - rho ^ 2) * Real.sqrt (1 - rho ^ 2) = 1 - rho ^ 2 :=
    Real.mul_self_sqrt hs
  have e1 : Ex (fun ω => correlate rho (z_p ω) (z_v ω)) = 0 := by
    have := hlin1 (Real.sqrt (1 - rho ^ 2)) rho
    simp only [correlate_real]
    rw [this, hp, hv]; ring
  have e2 : Ex (fun ω => correlate rho (z_p ω) (z_v ω) * correlate rho (z_p ω) (z_v ω)) = 1 := by
    have := hlin2 (1 - rho ^ 2) (2 * rho * Real.sqrt (1 - rho ^ 2)) (rho ^ 2)
    have hf : (fun ω => correlate rho (z_p ω) (z_v ω) * correlate rho (z_p ω) (z_v ω)) =
        fun ω => (1 - rho ^ 2) * (z_p ω * z_p ω)
          + (2 * rho * Real.sqrt (1 - rho ^ 2)) * (z_p ω * z_v ω) + rho ^ 2 * (z_v ω * z_v ω) := by
      funext ω
      simp only [correlate_real]
      linear_combination (z_p ω * z_p ω) * hsq
    rw [hf, this, hpp, hvv, hpv]; ring
  have e3 : Ex (fun ω => correlate rho (z_p ω) (z_v ω) * z_v ω) = rho := by
    have := hlin2 0 (Real.sqrt (1 - rho ^ 2)) rho
    have hf : (fun ω => correlate rho (z_p ω) (z_v ω) * z_v ω) =
        fun ω => 0 * (z_p ω * z_p ω)
          + Real.sqrt (1 - rho ^ 2) * (z_p ω * z_v ω) + rho * (z_v ω * z_v ω) := by
      funext ω
      simp only [correlate_real]
      ring
    rw [hf, this, hpp, hvv, hpv]; ring
  refine ⟨e1, e2, e3, ?_⟩
  rw [e1, e2, e3, hv, hvv]
  norm_num



/-! ## The claims at concrete inputs -/


/-- Claim C3 at a concrete input: three observations, the draws `0, 1, 2, ...`. -/
theorem simulate_replication_one_step_witness :
    (1 : Int) ≤ 3 ∧ (3 : Int) ≤ INT_MAX ∧
      ∃ s, simulate_replication (fun n => (n : ℝ)) [0, 0, 0] [0, 0, 0]
          { mu := 1, alpha_0 := 0, alpha_1 := 1, alpha_2 := 1, rho := 1 / 2 } 1 3 1 0 0 = some s ∧
        ∀ i : Nat, 1 ≤ i → (i : Int) < 3 →
          ∃ p v z_v z_p, s.price[i - 1]? = some p ∧ s.volatility[i - 1]? = some v ∧
            z_v = ((2 * (i - 1) : Nat) : ℝ) ∧ z_p = ((2 * (i - 1) + 1 : Nat) : ℝ) ∧
            s.price[i]? = some (p + (1 - 0.5 * Real.exp v) * 1
              + Real.exp (v / 2) * (Real.sqrt (1 - (1 / 2 : ℝ) ^ 2) * z_p + 1 / 2 * z_v)
                * Real.sqrt 1) ∧
            s.volatility[i]? = some (v + (0 - 1 * v) * 1 + 1 * z_v * Real.sqrt 1) :=
  ⟨by decide, by decide,
    simulate_replication_one_step (fun n => (n : ℝ)) [0, 0, 0] [0, 0, 0]
      { mu := 1, alpha_0 := 0, alpha_1 := 1, alpha_2 := 1, rho := 1 / 2 } 1 3 0 0
      (by decide) (by decide) (by simp) (by simp)⟩

/-- Claim C4 at a concrete input: three observations of two sub-steps written
into arrays of four cells; cell `3` keeps its content. -/
theorem simulate_replication_path_witness :
    (1 : Int) ≤ 3 ∧ (0 : Int) ≤ 2 ∧
      ∃ s, simulate_replication (fun _ => XRat.fin 1) [XRat.nan, XRat.nan, XRat.nan, XRat.nan]
          [XRat.nan, XRat.nan, XRat.nan, XRat.nan]
          { mu := XRat.fin 0, alpha_0 := XRat.fin 0, alpha_1 := XRat.fin 1,
            alpha_2 := XRat.fin 1, rho := XRat.fin 0 }
          (XRat.fin 1) 3 2 (XRat.fin 0) (XRat.fin 0) = some s ∧
        s.price.length = 4 ∧ s.volatility.length = 4 ∧
        s.price[3]? = some XRat.nan ∧ s.price[0]? = some (XRat.fin 0) :=
  ⟨by decide, by decide,
    let ⟨s, h, h1, h2, h3, h4, _⟩ :=
      simulate_replication_path (fun _ => XRat.fin 1) [XRat.nan, XRat.nan, XRat.nan, XRat.nan]
        [XRat.nan, XRat.nan, XRat.nan, XRat.nan]
        { mu := XRat.fin 0, alpha_0 := XRat.fin 0, alpha_1 := XRat.fin 1,
          alpha_2 := XRat.fin 1, rho := XRat.fin 0 }
        (XRat.fin 1) 3 2 (XRat.fin 0) (XRat.fin 0)
        (by decide) (by decide) (by decide) (by decide) (by decide) (by decide)
    ⟨s, h, h1, h2, (h3 3 (by decide)).1, h4⟩⟩

/-- The call `real_call` meets the size conditions. -/
theorem real_call_sized : Sized real_parameters real_call := by
  constructor <;> simp [real_parameters, real_call, INT_MAX]

/-- The call `collapsed` meets the size conditions. -/
theorem collapsed_sized : Sized zero_parameters collapsed := by
  constructor <;> decide

/-- Claim C1 at a concrete input: the call `real_call` in a build without the
guard. -/
theorem simulated_ll_replication_value_witness :
    Sized real_parameters real_call ∧
      (∀ m : Nat, 1 ≤ m → (m : Int) < real_call.N_obs →
        ll_fires real_unguarded real_parameters real_call m = false) ∧
      ∃ s, simulated_ll_replication real_unguarded real_parameters [] real_call =
        some (-(∑ i ∈ Finset.Ico 1 real_call.N_obs.toNat,
          Real.log (kernel_density real_unguarded real_parameters real_call i)), s) :=
  ⟨real_call_sized, fun _ _ _ => rfl,
    (simulated_ll_replication_value real_unguarded real_parameters [] real_call real_call_sized
      (fun _ _ _ => rfl)).1⟩

/-- Claim C2 at `N_obs = 50`. -/
theorem h_frac_base_is_six_witness :
    (1 : Int) ≤ 50 ∧
      (h_frac 50 : ℝ) = (6 : ℝ) ^ ((1 : ℝ) / 5) * ((50 : Int) : ℝ) ^ (-(3 : ℝ) / 10) ∧
      (h_frac 50 : ℝ) ≠
        ((4 : ℝ) / (1 + 2)) ^ ((1 : ℝ) / (1 + 4))
          * ((50 : Int) : ℝ) ^ (-((1 : ℝ) + 0.5) / (1 + 4)) :=
  ⟨by decide, h_frac_base_is_six 50 (by decide)⟩

/-- Claim C7 at `N_obs = 50`, `N_obs1 = 51`. -/
theorem h_frac_strictly_decreasing_witness :
    (1 : Int) ≤ 50 ∧ (50 : Int) < 51 ∧ (h_frac 51 : ℝ) < h_frac 50 :=
  ⟨by decide, by decide, (h_frac_strictly_decreasing 50 51 (by decide) (by decide)).1⟩

/-- Claim C5, as amended, at a concrete input: with the guard compiled in, the
call `collapsed`, whose running log-likelihood is `NaN` after step `1`, returns
the sentinel, a finite value. -/
theorem simulated_ll_replication_guarded_witness :
    guarded.INFINITY_CHECK = true ∧ Sized zero_parameters collapsed ∧
      XRat.isfinite (ll_sum guarded zero_parameters collapsed 1) = false ∧
      ∃ r s, simulated_ll_replication guarded zero_parameters [] collapsed = some (r, s) ∧
        XRat.isfinite r = true ∧ r = guarded.max_double :=
  ⟨rfl, collapsed_sized, by decide!,
    let h := simulated_ll_replication_guarded guarded zero_parameters [] collapsed XRat.isfinite
      rfl
      (fun v hv => by cases v <;> first | rfl | cases hv)
      (fun v hv => by cases v <;> first | rfl | cases hv)
      (by rfl) (by rfl)
    let ⟨r, s, hr, hm⟩ := h.2 collapsed_sized
    ⟨r, s, hr, h.1 r s hr, (hm 1 (by decide) (by decide) (by decide!)).1⟩⟩

/-- Claim C6 at a concrete input: the call `collapsed`, run twice. -/
theorem simulated_ll_replication_deterministic_witness :
    Sized zero_parameters collapsed ∧
      ∃ r s, simulated_ll_replication unguarded zero_parameters [] collapsed = some (r, s) ∧
        ∃ s2, simulated_ll_replication unguarded zero_parameters s.grad s.data = some (r, s2) :=
  ⟨collapsed_sized,
    let ⟨r, s, h, h2, _⟩ :=
      simulated_ll_replication_deterministic unguarded zero_parameters [] collapsed
        collapsed_sized
    ⟨r, s, h, h2⟩⟩

/-- Claim C9 at a concrete input: the call `collapsed`. -/
theorem simulated_ll_replication_correlated_buffer_witness :
    Sized zero_parameters collapsed ∧
      ∃ r s, simulated_ll_replication guarded zero_parameters [] collapsed = some (r, s) ∧
        ∀ t : Nat, (t : Int) < collapsed.N_sim * collapsed.M_sim →
          s.data.wiener_buffer_price[t]? =
            some (sqrt (lit 1 - cell zero_parameters 4 * cell zero_parameters 4)
                * cell collapsed.random_buffer_price t
              + cell zero_parameters 4 * cell collapsed.random_buffer_volatility t) :=
  ⟨collapsed_sized,
    let h := simulated_ll_replication_correlated_buffer guarded zero_parameters [] collapsed
    let ⟨r, s, hr, _⟩ := h.2 collapsed_sized
    ⟨r, s, hr, h.1 r s hr⟩⟩

/-- Claim C10 at a concrete input: the sample mean of four draws, `rho = 1/2`. -/
theorem correlate_moments_witness :
    mean4 (fun ω => correlate (1 / 2) (draws_p ω) (draws_v ω)) = 0 ∧
      mean4 (fun ω => correlate (1 / 2) (draws_p ω) (draws_v ω)
        * correlate (1 / 2) (draws_p ω) (draws_v ω)) = 1 ∧
      mean4 (fun ω => correlate (1 / 2) (draws_p ω) (draws_v ω) * draws_v ω) = 1 / 2 :=
  let h := correlate_moments mean4 (1 / 2) draws_p draws_v (by norm_num)
    (fun a b => by simp [mean4, draws_p, draws_v]; ring)
    (fun a b c => by simp [mean4, draws_p, draws_v]; ring)
    (by simp [mean4, draws_p, draws_v])
    (by simp [mean4, draws_p, draws_v])
    (by simp [mean4, draws_p, draws_v]; norm_num)
    (by simp [mean4, draws_p, draws_v]; norm_num)
    (by simp [mean4, draws_p, draws_v])
  ⟨h.1, h.2.1, h.2.2.1⟩


/-! ## Configuration is not validated -/

section Config
variable {α : Type} [Add α] [Sub α] [Mul α] [Div α] [Neg α] [DoubleFns α]

/-- Claim C11, as amended: neither function checks its configuration.  Whatever
`dt` and `rho` are, a call of `simulate_replication` with `N_obs >= 1`,
`M_obs >= 0` and arrays of at least `N_obs` cells returns a series, and a call
of `simulated_ll_replication` within the size conditions (which allow
`N_sim = 0` and `M_sim = 0`) returns a value: no call fails on account of
`dt`, `rho`, `M_obs = 0`, `N_sim = 0` or `M_sim = 0`. -/
theorem configuration_not_validated :
    (∀ (z : Nat → α) (price volatility : List α) (parameters : JointReplicationParameters α)
        (dt : α) (N_obs M_obs : Int) (p0 v0 : α),
        1 ≤ N_obs → N_obs ≤ INT_MAX → 0 ≤ M_obs → M_obs ≤ INT_MAX →
        N_obs ≤ price.length → N_obs ≤ volatility.length →
        ∃ s, simulate_replication z price volatility parameters dt N_obs M_obs p0 v0 = some s) ∧
    (∀ (E : Other α) (x grad : List α) (data : WrapperSimulatedReplication α),
        Sized x data → ∃ r s, simulated_ll_replication E x grad data = some (r, s)) := by
  constructor
  · intro z price volatility parameters dt N_obs M_obs p0 v0 hN hNmax hM hMmax hP hV
    obtain ⟨N, rfl⟩ : ∃ N : Nat, N_obs = N := ⟨N_obs.toNat, by omega⟩
    obtain ⟨M, rfl⟩ : ∃ M : Nat, M_obs = M := ⟨M_obs.toNat, by omega⟩
    exact ⟨_, simulate_replication_eq z price volatility parameters dt N M p0 v0 (by omega)
      hNmax hMmax (by omega) (by omega)⟩
  · intro E x grad data hS
    exact ⟨_, _, simulated_ll_replication_eq E x grad data hS⟩

end Config

/-- Claim C11 fails as stated: `simulate_replication` called with `dt = -1`,
`M_obs = 0` and `rho = 2` returns the series `[0, 0]`, `[0, 0]`, and
`simulated_ll_replication` called with `rho = 1` on the call `spread` returns
a finite value that is not the sentinel; neither call fails. -/
theorem invalid_configuration_computed :
    (∃ s, simulate_replication (fun _ => XRat.fin 1) [XRat.nan, XRat.nan] [XRat.nan, XRat.nan]
        invalid_parameters (XRat.fin (-1)) 2 0 (XRat.fin 0) (XRat.fin 0) = some s ∧
      s.price = [XRat.fin 0, XRat.fin 0] ∧ s.volatility = [XRat.fin 0, XRat.fin 0]) ∧
    (∃ r s, simulated_ll_replication guarded boundary_parameters [] spread = some (r, s) ∧
      XRat.isfinite r = true ∧ r ≠ guarded.max_double) := by
  constructor
  · refine ⟨_, simulate_replication_eq (fun _ => XRat.fin 1) [XRat.nan, XRat.nan]
      [XRat.nan, XRat.nan] invalid_parameters (XRat.fin (-1)) 2 0 (XRat.fin 0) (XRat.fin 0)
      (by decide) (by decide) (by decide) (by decide) (by decide), ?_, ?_⟩
    · decide!
    · decide!
  · have hS : Sized boundary_parameters spread := by constructor <;> decide
    refine ⟨_, _, simulated_ll_replication_eq guarded boundary_parameters [] spread hS, ?_, ?_⟩
    · decide!
    · decide!

/-! ## Termination and draws of the path simulator -/

/-- A loop entered with its counter above the bound never reaches the bound:
it ends in undefined behaviour. -/
theorem forLoop_none_of_gt {σ : Type} (hi : Int) (body : Int → σ → Option σ) :
    ∀ (i : Int) (s : σ), hi < i → forLoop hi body i s = none := by
  intro i s
  induction i, s using forLoop.induct hi body with
  | case1 s => intro h; exact absurd h (lt_irrefl _)
  | case2 i s hne hb => intro _; rw [forLoop]; simp [hne, hb]
  | case3 i s hne s2 hb hmax => intro _; rw [forLoop]; simp [hne, hmax, hb]
  | case4 i s hne s2 hb hmax ih =>
    intro h
    rw [forLoop]
    simp only [hne, hb, hmax, if_false]
    exact ih (by omega)

/-- A loop whose first turn fails, fails. -/
theorem forLoop_none_of_body {σ : Type} (hi : Int) (body : Int → σ → Option σ) (i : Int)
    (s : σ) (hne : i ≠ hi) (hb : body i s = none) : forLoop hi body i s = none := by
  rw [forLoop]; simp [hne, hb]

section Draws
variable {α : Type} [Add α] [Sub α] [Mul α] [Div α] [Neg α] [DoubleFns α]

/-- Claim C16: for `N_obs >= 1` and `M_obs >= 0` (and arrays of at least `N_obs`
cells) `simulate_replication` returns, having consumed exactly
`2 * (N_obs - 1) * M_obs` draws; every sub-step consumes exactly two draws,
the first as the volatility increment `W_v`, the second as the independent
price draw, so that `(N_obs - 1) * M_obs` sub-steps are run.  Because the exit
tests are `i != N_obs` and `j != M_obs`, a call with `N_obs < 1`, or with
`M_obs < 0` and `N_obs >= 2`, never leaves its loops normally: it runs into
undefined behaviour. -/
theorem simulate_replication_draws (z : Nat → α) (price volatility : List α)
    (parameters : JointReplicationParameters α) (dt p0 v0 : α) :
    (∀ N_obs M_obs : Int, 1 ≤ N_obs → N_obs ≤ INT_MAX → 0 ≤ M_obs → M_obs ≤ INT_MAX →
      N_obs ≤ price.length → N_obs ≤ volatility.length →
      ∃ s, simulate_replication z price volatility parameters dt N_obs M_obs p0 v0 = some s ∧
        (s.drawn : Int) = 2 * (N_obs - 1) * M_obs) ∧
    (∀ (delta : α) (i j : Int) (s s1 : SimState α),
      simulate_replication.substep parameters z delta i j s = some s1 →
      s1.drawn = s.drawn + 2 ∧
      ∃ p v, load s.price i = some p ∧ load s.volatility i = some v ∧
        store s.price i
            (p + price_increment parameters.mu v
              (correlate parameters.rho (z (s.drawn + 1)) (z s.drawn)) delta (sqrt delta)) =
          some s1.price ∧
        store s.volatility i
            (v + volatility_increment parameters.alpha_0 parameters.alpha_1
              parameters.alpha_2 v (z s.drawn) delta (sqrt delta)) =
          some s1.volatility) ∧
    (∀ N_obs M_obs : Int, N_obs < 1 →
      simulate_replication z price volatility parameters dt N_obs M_obs p0 v0 = none) ∧
    (∀ N_obs M_obs : Int, 2 ≤ N_obs → M_obs < 0 →
      simulate_replication z price volatility parameters dt N_obs M_obs p0 v0 = none) := by
  refine ⟨?_, ?_, ?_, ?_⟩
  · intro N_obs M_obs hN hNmax hM hMmax hP hV
    obtain ⟨N, rfl⟩ : ∃ N : Nat, N_obs = N := ⟨N_obs.toNat, by omega⟩
    obtain ⟨M, rfl⟩ : ∃ M : Nat, M_obs = M := ⟨M_obs.toNat, by omega⟩
    refine ⟨_, simulate_replication_eq z price volatility parameters dt N M p0 v0 (by omega)
      hNmax hMmax (by omega) (by omega), ?_⟩
    have h1 : 1 ≤ N := by omega
    simp only []
    push_cast [Nat.cast_sub h1]
    ring
  · intro delta i j s s1 h
    simp only [simulate_replication.substep] at h
    split at h
    · rename_i p v hp hv
      split at h
      · cases h
      · rename_i price1 hs1
        split at h
        · cases h
        · rename_i volatility1 hs2
          cases h
          exact ⟨rfl, p, v, hp, hv, hs1, hs2⟩
    · cases h
  · intro N_obs M_obs hN
    simp only [simulate_replication]
    split
    · rfl
    · split
      · rfl
      · exact forLoop_none_of_gt _ _ _ _ (by omega)
  · intro N_obs M_obs hN hM
    simp only [simulate_replication]
    split
    · rfl
    · split
      · rfl
      · apply forLoop_none_of_body _ _ _ _ (by omega)
        simp only [simulate_replication.step]
        repeat' split
        all_goals first | rfl | exact forLoop_none_of_gt _ _ _ _ (by omega)

end Draws

/-! ## Autonomy of the volatility path -/

section Autonomy
variable {α : Type} [Add α] [Sub α] [Mul α] [Div α] [Neg α] [DoubleFns α]

theorem euler_path_snd (mu mu1 alpha_0 alpha_1 alpha_2 delta sqrt_delta : α)
    (W_p W_p1 W_v : Nat → α) (pv pv1 : α × α) (h : pv.2 = pv1.2) (k : Nat) :
    (euler_path mu alpha_0 alpha_1 alpha_2 delta sqrt_delta W_p W_v pv k).2 =
      (euler_path mu1 alpha_0 alpha_1 alpha_2 delta sqrt_delta W_p1 W_v pv1 k).2 := by
  induction k with
  | zero => exact h
  | succ k ih => simp only [euler_path, euler_substep, ih]

theorem sim_point_snd (parameters parameters1 : JointReplicationParameters α) (z z1 : Nat → α)
    (delta : α) (M : Nat) (p0 p01 v0 : α)
    (h0 : parameters.alpha_0 = parameters1.alpha_0)
    (h1 : parameters.alpha_1 = parameters1.alpha_1)
    (h2 : parameters.alpha_2 = parameters1.alpha_2)
    (hz : ∀ k, z (2 * k) = z1 (2 * k)) (n : Nat) :
    (sim_point parameters z delta M p0 v0 n).2 = (sim_point parameters1 z1 delta M p01 v0 n).2 := by
  induction n with
  | zero => rfl
  | succ n ih =>
    simp only [sim_point]
    have hv : sim_W_v z M n = sim_W_v z1 M n := by
      funext k; simp only [sim_W_v, hz]
    rw [hv, h0, h1, h2]
    exact euler_path_snd _ _ _ _ _ _ _ _ _ _ _ _ ih M

theorem euler_path_fst (mu alpha_0 alpha_1 alpha_2 delta sqrt_delta : α)
    (W_p W_v : Nat → α) (pv pv1 : α × α) (h : pv.2 = pv1.2) (k : Nat) :
    (euler_path mu alpha_0 alpha_1 alpha_2 delta sqrt_delta W_p W_v pv k).1 =
      ((List.range k).map (fun m =>
        price_increment mu
          (euler_path mu alpha_0 alpha_1 alpha_2 delta sqrt_delta W_p W_v pv1 m).2 (W_p m)
          delta sqrt_delta)).foldl (fun a b => a + b) pv.1 := by
  induction k with
  | zero => rfl
  | succ k ih =>
    rw [List.range_succ, List.map_append, List.foldl_append, ← ih]
    simp only [euler_path, euler_substep, List.map_cons, List.map_nil, List.foldl_cons,
      List.foldl_nil]
    rw [euler_path_snd mu mu alpha_0 alpha_1 alpha_2 delta sqrt_delta W_p W_p W_v pv pv1 h k]

theorem sim_point_fst (parameters : JointReplicationParameters α) (z : Nat → α) (delta : α)
    (M : Nat) (p0 v0 : α) (n : Nat) :
    (sim_point parameters z delta M p0 v0 n).1 =
      (sim_increments parameters z delta M v0 n).foldl (fun a b => a + b) p0 := by
  induction n with
  | zero => rfl
  | succ n ih =>
    simp only [sim_point, sim_increments, List.foldl_append]
    rw [← ih]
    exact euler_path_fst _ _ _ _ _ _ _ _ _ _
      (sim_point_snd parameters parameters z z delta M p0 (lit 0) v0 rfl rfl rfl
        (fun _ => rfl) n) M

end Autonomy

theorem euler_path_shift (mu alpha_0 alpha_1 alpha_2 delta sqrt_delta : ℝ)
    (W_p W_v : Nat → ℝ) (p v c : ℝ) (k : Nat) :
    euler_path mu alpha_0 alpha_1 alpha_2 delta sqrt_delta W_p W_v (p + c, v) k =
      ((euler_path mu alpha_0 alpha_1 alpha_2 delta sqrt_delta W_p W_v (p, v) k).1 + c,
       (euler_path mu alpha_0 alpha_1 alpha_2 delta sqrt_delta W_p W_v (p, v) k).2) := by
  induction k with
  | zero => rfl
  | succ k ih =>
    simp only [euler_path, euler_substep, ih]
    congr 1
    ring

theorem sim_point_shift (parameters : JointReplicationParameters ℝ) (z : Nat → ℝ)
    (delta : ℝ) (M : Nat) (p0 v0 c : ℝ) (n : Nat) :
    sim_point parameters z delta M (p0 + c) v0 n =
      ((sim_point parameters z delta M p0 v0 n).1 + c,
       (sim_point parameters z delta M p0 v0 n).2) := by
  induction n with
  | zero => rfl
  | succ n ih =>
    simp only [sim_point, ih]
    exact euler_path_shift _ _ _ _ _ _ _ _ _ _ _ _

/-- Claim C17, as amended.  (1) In every arithmetic, two runs of
`simulate_replication` with the same `alpha_0`, `alpha_1`, `alpha_2`, `v0`,
`dt`, `N_obs`, `M_obs`, the same initial volatility array and the same
volatility draws (the draws of even rank) return the same volatility series,
whatever `mu`, `rho`, `p0`, the price array and the independent price draws
are.  (2) In every arithmetic, `price[i]` is `p0` to which the increments
`sim_increments i` are added one after the other, and these increments do not
depend on `p0`.  (3) In exact arithmetic, where addition is associative,
replacing `p0` by `p0 + c` therefore adds `c` to every `price[i]`,
`i < N_obs`, and leaves the volatility series unchanged. -/
theorem volatility_autonomous_price_equivariant :
    (∀ (α : Type) [Add α] [Sub α] [Mul α] [Div α] [Neg α] [DoubleFns α]
        (z z1 : Nat → α) (price price1 volatility : List α)
        (parameters parameters1 : JointReplicationParameters α) (dt : α) (N_obs M_obs : Int)
        (p0 p01 v0 : α),
        parameters.alpha_0 = parameters1.alpha_0 → parameters.alpha_1 = parameters1.alpha_1 →
        parameters.alpha_2 = parameters1.alpha_2 → (∀ k, z (2 * k) = z1 (2 * k)) →
        1 ≤ N_obs → N_obs ≤ INT_MAX → 0 ≤ M_obs → M_obs ≤ INT_MAX →
        N_obs ≤ price.length → N_obs ≤ price1.length → N_obs ≤ volatility.length →
        ∃ s s1,
          simulate_replication z price volatility parameters dt N_obs M_obs p0 v0 = some s ∧
          simulate_replication z1 price1 volatility parameters1 dt N_obs M_obs p01 v0 =
            some s1 ∧
          s.volatility = s1.volatility) ∧
    (∀ (α : Type) [Add α] [Sub α] [Mul α] [Div α] [Neg α] [DoubleFns α]
        (z : Nat → α) (price volatility : List α) (parameters : JointReplicationParameters α)
        (dt : α) (N_obs M_obs : Int) (v0 : α),
        1 ≤ N_obs → N_obs ≤ INT_MAX → 0 ≤ M_obs → M_obs ≤ INT_MAX →
        N_obs ≤ price.length → N_obs ≤ volatility.length →
        ∀ p0 : α, ∃ s,
          simulate_replication z price volatility parameters dt N_obs M_obs p0 v0 = some s ∧
          ∀ i : Nat, (i : Int) < N_obs →
            s.price[i]? =
              some ((sim_increments parameters z (dt / ofInt M_obs) M_obs.toNat v0 i).foldl
                (fun a b => a + b) p0)) ∧
    (∀ (z : Nat → ℝ) (price volatility : List ℝ) (parameters : JointReplicationParameters ℝ)
        (dt : ℝ) (N_obs M_obs : Int) (p0 v0 c : ℝ),
        1 ≤ N_obs → N_obs ≤ INT_MAX → 0 ≤ M_obs → M_obs ≤ INT_MAX →
        N_obs ≤ price.length → N_obs ≤ volatility.length →
        ∃ s s1,
          simulate_replication z price volatility parameters dt N_obs M_obs p0 v0 = some s ∧
          simulate_replication z price volatility parameters dt N_obs M_obs (p0 + c) v0 =
            some s1 ∧
          s1.volatility = s.volatility ∧
          ∀ i : Nat, (i : Int) < N_obs →
            ∃ p, s.price[i]? = some p ∧ s1.price[i]? = some (p + c)) := by
  refine ⟨?_, ?_, ?_⟩
  · intro α _ _ _ _ _ _ z z1 price price1 volatility parameters parameters1 dt N_obs M_obs
      p0 p01 v0 h0 h1 h2 hz hN hNmax hM hMmax hP hP1 hV
    obtain ⟨N, rfl⟩ : ∃ N : Nat, N_obs = N := ⟨N_obs.toNat, by omega⟩
    obtain ⟨M, rfl⟩ : ∃ M : Nat, M_obs = M := ⟨M_obs.toNat, by omega⟩
    refine ⟨_, _,
      simulate_replication_eq z price volatility parameters dt N M p0 v0 (by omega) hNmax hMmax
        (by omega) (by omega),
      simulate_replication_eq z1 price1 volatility parameters1 dt N M p01 v0 (by omega) hNmax
        hMmax (by omega) (by omega), ?_⟩
    simp only []
    congr 1
    funext i
    exact sim_point_snd parameters parameters1 z z1 _ M p0 p01 v0 h0 h1 h2 hz i
  · intro α _ _ _ _ _ _ z price volatility parameters dt N_obs M_obs v0 hN hNmax hM hMmax hP hV
      p0
    obtain ⟨N, rfl⟩ : ∃ N : Nat, N_obs = N := ⟨N_obs.toNat, by omega⟩
    obtain ⟨M, rfl⟩ : ∃ M : Nat, M_obs = M := ⟨M_obs.toNat, by omega⟩
    refine ⟨_, simulate_replication_eq z price volatility parameters dt N M p0 v0 (by omega)
      hNmax hMmax (by omega) (by omega), ?_⟩
    intro i hi
    have hi1 : i < N := by exact_mod_cast hi
    have hi2 : i < price.length := by omega
    simp only [getElem?_overwrite, hi1, hi2, if_true, Int.toNat_ofNat, sim_point_fst]
  · intro z price volatility parameters dt N_obs M_obs p0 v0 c hN hNmax hM hMmax hP hV
    obtain ⟨N, rfl⟩ : ∃ N : Nat, N_obs = N := ⟨N_obs.toNat, by omega⟩
    obtain ⟨M, rfl⟩ : ∃ M : Nat, M_obs = M := ⟨M_obs.toNat, by omega⟩
    refine ⟨_, _,
      simulate_replication_eq z price volatility parameters dt N M p0 v0 (by omega) hNmax hMmax
        (by omega) (by omega),
      simulate_replication_eq z price volatility parameters dt N M (p0 + c) v0 (by omega) hNmax
        hMmax (by omega) (by omega), ?_, ?_⟩
    · simp only [sim_point_shift]
    · intro i hi
      have hi1 : i < N := by exact_mod_cast hi
      have hi2 : i < price.length := by omega
      refine ⟨(sim_point parameters z (dt / ofInt (M : Int)) M p0 v0 i).1, ?_, ?_⟩
      · simp only [getElem?_overwrite, hi1, hi2, if_true]
      · simp only [getElem?_overwrite, hi1, hi2, if_true, sim_point_shift]

/-- Examples of the rounding `round53`: a value with a 53-bit significand is
kept, `1/3` and `7/10` go to their binary64 neighbours, and a tie goes to the
even significand. -/
theorem round53_examples :
    round53 (5 / 2) = 5 / 2 ∧
    round53 (1 / 3) = 6004799503160661 / 18014398509481984 ∧
    round53 (7 / 10) = 3152519739159347 / 4503599627370496 ∧
    round53 (9007199254740993 / 9007199254740992) = 1 ∧
    round53 (9007199254740995 / 9007199254740992) = 4503599627370498 / 4503599627370496 := by
  decide!

/-- Claim C17 fails as stated, in its second part: with the rounding of
binary64, `simulate_replication` with `N_obs = 2`, `M_obs = 1`, `dt = 1`,
`mu = 0.5`, `rho = 0`, `v0 = 0` and the price draw `0.7` returns
`price[1] = 2.7` from `p0 = 2`; from `p0 + c`, `c = 1/3` rounded, it returns
`price[1] = 3.033333333333333`, which is not
`2.7 + c = 3.0333333333333337`.  The volatility series is the same. -/
theorem shifted_start_changes_price :
    ∃ s s1,
      simulate_replication drift_stream [lit 0, lit 0] [lit 0, lit 0] drift_parameters (lit 1)
          2 1 (lit 2) (lit 0) = some s ∧
      simulate_replication drift_stream [lit 0, lit 0] [lit 0, lit 0] drift_parameters (lit 1)
          2 1 (lit 2 + lit (1 / 3)) (lit 0) = some s1 ∧
      s1.volatility = s.volatility ∧
      s.price[1]? = some ⟨XRat.fin (3039929748475085 / 1125899906842624)⟩ ∧
      s1.price[1]? = some ⟨XRat.fin (1707614858711313 / 562949953421312)⟩ ∧
      (⟨XRat.fin (3039929748475085 / 1125899906842624)⟩ + lit (1 / 3) : B64) =
        ⟨XRat.fin (6830459434845253 / 2251799813685248)⟩ ∧
      (⟨XRat.fin (1707614858711313 / 562949953421312)⟩ : B64) ≠
        ⟨XRat.fin (3039929748475085 / 1125899906842624)⟩ + lit (1 / 3) := by
  refine ⟨_, _,
    simulate_replication_eq drift_stream [lit 0, lit 0] [lit 0, lit 0] drift_parameters (lit 1)
      2 1 (lit 2) (lit 0) (by decide) (by decide) (by decide) (by decide) (by decide),
    simulate_replication_eq drift_stream [lit 0, lit 0] [lit 0, lit 0] drift_parameters (lit 1)
      2 1 (lit 2 + lit (1 / 3)) (lit 0) (by decide) (by decide) (by decide) (by decide)
      (by decide), ?_, ?_, ?_, ?_, ?_⟩
  · decide!
  · decide!
  · decide!
  · decide!
  · decide!

/-! ## Array indices of the evaluator -/

theorem slot_lt (N M j k : Int) (hj : j < N) (hk0 : 0 ≤ k) (hk : k < M) :
    j * M + k < N * M := by
  have hM : 0 ≤ M := by omega
  have h1 : (j + 1) * M ≤ N * M := mul_le_mul_of_nonneg_right (by omega) hM
  have h2 : (j + 1) * M = j * M + M := by ring
  omega

theorem slot_injective (M j j1 k k1 : Int) (hk0 : 0 ≤ k) (hk : k < M)
    (hk10 : 0 ≤ k1) (hk1 : k1 < M) (h : j * M + k = j1 * M + k1) : j = j1 := by
  have hM : 0 ≤ M := by omega
  by_contra hne
  rcases lt_or_gt_of_ne hne with hlt | hgt
  · have h1 : (j + 1) * M ≤ j1 * M := mul_le_mul_of_nonneg_right (by omega) hM
    have h2 : (j + 1) * M = j * M + M := by ring
    omega
  · have h1 : (j1 + 1) * M ≤ j * M := mul_le_mul_of_nonneg_right (by omega) hM
    have h2 : (j1 + 1) * M = j1 * M + M := by ring
    omega

section Bounds
variable {α : Type} [Add α] [Sub α] [Mul α] [Div α] [Neg α] [DoubleFns α]

theorem load_in_bounds (l : List α) (i : Int) (h0 : 0 ≤ i) (h1 : i < l.length) :
    ∃ v, load l i = some v := by
  have : i.toNat < l.length := by omega
  exact ⟨l[i.toNat], by simp [load, h0, List.getElem?_eq_getElem this]⟩

theorem store_in_bounds (l : List α) (i : Int) (v : α) (h0 : 0 ≤ i) (h1 : i < l.length) :
    ∃ l1, store l i v = some l1 ∧ l1.length = l.length := by
  have : i.toNat < l.length := by omega
  exact ⟨l.set i.toNat v, by simp [store, h0, this], by simp⟩

theorem slot_computed (N M j k : Int) (hN : N * M ≤ INT_MAX) (hj0 : 0 ≤ j) (hj : j < N)
    (hk0 : 0 ≤ k) (hk : k < M) :
    0 ≤ j * M + k ∧ j * M + k ≤ N * M - 1 ∧ imul j M = some (j * M) ∧
      iadd (j * M) k = some (j * M + k) := by
  have hslot := slot_lt N M j k hj hk0 hk
  have hnn : 0 ≤ j * M := mul_nonneg hj0 (by omega)
  have hmin : INT_MIN ≤ 0 := by decide
  refine ⟨by omega, by omega, ?_, ?_⟩
  · have a1 : INT_MIN ≤ j * M := le_trans hmin hnn
    have a2 : j * M ≤ INT_MAX := by omega
    simp [imul, a1, a2]
  · have a1 : INT_MIN ≤ j * M + k := le_trans hmin (by omega)
    have a2 : j * M + k ≤ INT_MAX := by omega
    simp [iadd, a1, a2]

/-- The body of the fill loop (line 91) at a counter in range: its three
accesses are in bounds. -/
theorem simulated_ll_replication.fill_in_bounds (x : List α) (s : EvalState α)
    (hS : Sized x s.data) (rho : α) (i : Int) (hi0 : 0 ≤ i)
    (hi : i < s.data.N_sim * s.data.M_sim) :
    ∃ z_p W_v W,
      load s.data.random_buffer_price i = some z_p ∧
      load s.data.random_buffer_volatility i = some W_v ∧
      store s.data.wiener_buffer_price i (correlate rho z_p W_v) = some W ∧
      simulated_ll_replication.fill rho i s =
        some { s with data := { s.data with wiener_buffer_price := W } } ∧
      Sized x { s.data with wiener_buffer_price := W } := by
  have h3 := hS.random_buffer_price_length
  have h4 := hS.random_buffer_volatility_length
  have h5 := hS.wiener_buffer_price_length
  obtain ⟨z_p, hz⟩ := load_in_bounds s.data.random_buffer_price i hi0 (by omega)
  obtain ⟨W_v, hv⟩ := load_in_bounds s.data.random_buffer_volatility i hi0 (by omega)
  obtain ⟨W, hW, hWl⟩ := store_in_bounds s.data.wiener_buffer_price i (correlate rho z_p W_v)
    hi0 (by omega)
  refine ⟨z_p, W_v, W, hz, hv, hW, by simp only [simulated_ll_replication.fill, hz, hv, hW], ?_⟩
  have := hS.workspace s.data.simulated_price s.data.simulated_volatility W
    hS.simulated_price_length hS.simulated_volatility_length (by omega)
  exact this

/-- The start of a sub-path (lines 99 and 100) at counters in range: the cells
`i - 1` of the observed series and `j` of the simulated buffers are in
bounds; the body then runs the loop of line 102. -/
theorem simulated_ll_replication.subpath_in_bounds (x : List α) (s : EvalState α)
    (hS : Sized x s.data) (mu alpha_0 alpha_1 alpha_2 delta sqrt_delta : α) (i j : Int)
    (hi1 : 1 ≤ i) (hi : i < s.data.N_obs) (hj0 : 0 ≤ j) (hj : j < s.data.N_sim) :
    ∃ p v sp1 sv1,
      isub i 1 = some (i - 1) ∧
      load s.data.price (i - 1) = some p ∧
      store s.data.simulated_price j p = some sp1 ∧
      load s.data.volatility (i - 1) = some v ∧
      store s.data.simulated_volatility j v = some sv1 ∧
      simulated_ll_replication.subpath mu alpha_0 alpha_1 alpha_2 delta sqrt_delta
          s.data.M_sim i j s =
        forLoop s.data.M_sim
          (simulated_ll_replication.substep mu alpha_0 alpha_1 alpha_2 delta sqrt_delta
            s.data.M_sim j) 0
          { s with data := { s.data with simulated_price := sp1, simulated_volatility := sv1 } } ∧
      Sized x { s.data with simulated_price := sp1, simulated_volatility := sv1 } := by
  have h1 := hS.price_length
  have h2 := hS.volatility_length
  have h3 := hS.simulated_price_length
  have h4 := hS.simulated_volatility_length
  have hmax := hS.N_obs_max
  have hsub : isub i 1 = some (i - 1) := by
    have a1 : INT_MIN ≤ i - 1 := by unfold INT_MIN; omega
    have a2 : i - 1 ≤ INT_MAX := by omega
    simp [isub, a1, a2]
  obtain ⟨p, hp⟩ := load_in_bounds s.data.price (i - 1) (by omega) (by omega)
  obtain ⟨v, hv⟩ := load_in_bounds s.data.volatility (i - 1) (by omega) (by omega)
  obtain ⟨sp1, hsp, hspl⟩ := store_in_bounds s.data.simulated_price j p hj0 (by omega)
  obtain ⟨sv1, hsv, hsvl⟩ := store_in_bounds s.data.simulated_volatility j v hj0 (by omega)
  refine ⟨p, v, sp1, sv1, hsub, hp, hsp, hv, hsv,
    by simp only [simulated_ll_replication.subpath, hsub, hp, hsp, hv, hsv], ?_⟩
  have := hS.workspace sp1 sv1 s.data.wiener_buffer_price (by omega) (by omega)
    hS.wiener_buffer_price_length
  exact this

/-- One Euler sub-step (lines 104 and 105) at counters in range: the slot
`j * M_sim + k` is computed without overflow, and the cell `j` of the
simulated buffers and the slot `j * M_sim + k` of the two increment buffers
are in bounds. -/
theorem simulated_ll_replication.substep_in_bounds (x : List α) (s : EvalState α)
    (hS : Sized x s.data) (mu alpha_0 alpha_1 alpha_2 delta sqrt_delta : α) (j k : Int)
    (hj0 : 0 ≤ j) (hj : j < s.data.N_sim) (hk0 : 0 ≤ k) (hk : k < s.data.M_sim) :
    ∃ p v W_p W_v sp1 sv1,
      imul j s.data.M_sim = some (j * s.data.M_sim) ∧
      iadd (j * s.data.M_sim) k = some (j * s.data.M_sim + k) ∧
      load s.data.simulated_price j = some p ∧
      load s.data.simulated_volatility j = some v ∧
      load s.data.wiener_buffer_price (j * s.data.M_sim + k) = some W_p ∧
      load s.data.random_buffer_volatility (j * s.data.M_sim + k) = some W_v ∧
      store s.data.simulated_price j (p + price_increment mu v W_p delta sqrt_delta) =
        some sp1 ∧
      store s.data.simulated_volatility j
          (v + volatility_increment alpha_0 alpha_1 alpha_2 v W_v delta sqrt_delta) =
        some sv1 ∧
      simulated_ll_replication.substep mu alpha_0 alpha_1 alpha_2 delta sqrt_delta
          s.data.M_sim j k s =
        some { s with data :=
          { s.data with simulated_price := sp1, simulated_volatility := sv1 } } ∧
      Sized x { s.data with simulated_price := sp1, simulated_volatility := sv1 } := by
  obtain ⟨t0, t1, hmul, hadd⟩ :=
    slot_computed s.data.N_sim s.data.M_sim j k hS.slots_max hj0 hj hk0 hk
  have h3 := hS.simulated_price_length
  have h4 := hS.simulated_volatility_length
  have h5 := hS.random_buffer_volatility_length
  have h6 := hS.wiener_buffer_price_length
  obtain ⟨p, hp⟩ := load_in_bounds s.data.simulated_price j hj0 (by omega)
  obtain ⟨v, hv⟩ := load_in_bounds s.data.simulated_volatility j hj0 (by omega)
  obtain ⟨W_p, hWp⟩ := load_in_bounds s.data.wiener_buffer_price (j * s.data.M_sim + k) t0
    (by omega)
  obtain ⟨W_v, hWv⟩ := load_in_bounds s.data.random_buffer_volatility (j * s.data.M_sim + k) t0
    (by omega)
  obtain ⟨sp1, hsp, hspl⟩ := store_in_bounds s.data.simulated_price j
    (p + price_increment mu v W_p delta sqrt_delta) hj0 (by omega)
  obtain ⟨sv1, hsv, hsvl⟩ := store_in_bounds s.data.simulated_volatility j
    (v + volatility_increment alpha_0 alpha_1 alpha_2 v W_v delta sqrt_delta) hj0 (by omega)
  refine ⟨p, v, W_p, W_v, sp1, sv1, hmul, hadd, hp, hv, hWp, hWv, hsp, hsv,
    by simp only [simulated_ll_replication.substep, hmul, hadd, hp, hv, hWp, hWv, hsp, hsv], ?_⟩
  have := hS.workspace sp1 sv1 s.data.wiener_buffer_price (by omega) (by omega)
    hS.wiener_buffer_price_length
  exact this

/-- One turn of the kernel loop (lines 115 to 117) at counters in range: the
cell `j` of the simulated buffers and the cell `i` of the observed series are
in bounds, and the memory is not written. -/
theorem simulated_ll_replication.accumulate_in_bounds (x : List α) (s : EvalState α)
    (hS : Sized x s.data) (h_price h_volatility sqrt_pi kernel_sum : α) (i j : Int)
    (hi1 : 1 ≤ i) (hi : i < s.data.N_obs) (hj0 : 0 ≤ j) (hj : j < s.data.N_sim) :
    ∃ sp p sv v,
      load s.data.simulated_price j = some sp ∧ load s.data.price i = some p ∧
      load s.data.simulated_volatility j = some sv ∧ load s.data.volatility i = some v ∧
      simulated_ll_replication.accumulate h_price h_volatility sqrt_pi i j (s, kernel_sum) =
        some (s, kernel_sum + kernel sv v h_volatility sqrt_pi * kernel sp p h_price sqrt_pi) := by
  have h1 := hS.price_length
  have h2 := hS.volatility_length
  have h3 := hS.simulated_price_length
  have h4 := hS.simulated_volatility_length
  obtain ⟨sp, hsp⟩ := load_in_bounds s.data.simulated_price j hj0 (by omega)
  obtain ⟨p, hp⟩ := load_in_bounds s.data.price i (by omega) (by omega)
  obtain ⟨sv, hsv⟩ := load_in_bounds s.data.simulated_volatility j hj0 (by omega)
  obtain ⟨v, hv⟩ := load_in_bounds s.data.volatility i (by omega) (by omega)
  exact ⟨sp, p, sv, v, hsp, hp, hsv, hv,
    by simp only [simulated_ll_replication.accumulate, hsp, hp, hsv, hv]⟩

/-- One Euler sub-step reads the two increment buffers at the slot
`j * M_sim + k` only: with other buffers `W`, `V` that hold the same values
at that slot, the sub-step computes the same simulated buffers. -/
theorem simulated_ll_replication.substep_reads_slot (x : List α) (s : EvalState α)
    (hS : Sized x s.data) (mu alpha_0 alpha_1 alpha_2 delta sqrt_delta : α) (j k : Int)
    (hj0 : 0 ≤ j) (hj : j < s.data.N_sim) (hk0 : 0 ≤ k) (hk : k < s.data.M_sim)
    (W V : List α)
    (hW : load W (j * s.data.M_sim + k) =
      load s.data.wiener_buffer_price (j * s.data.M_sim + k))
    (hV : load V (j * s.data.M_sim + k) =
      load s.data.random_buffer_volatility (j * s.data.M_sim + k)) :
    ∃ sp1 sv1,
      simulated_ll_replication.substep mu alpha_0 alpha_1 alpha_2 delta sqrt_delta
          s.data.M_sim j k s =
        some { s with data :=
          { s.data with simulated_price := sp1, simulated_volatility := sv1 } } ∧
      simulated_ll_replication.substep mu alpha_0 alpha_1 alpha_2 delta sqrt_delta
          s.data.M_sim j k
          { s with data :=
            { s.data with wiener_buffer_price := W, random_buffer_volatility := V } } =
        some { s with data :=
          { s.data with wiener_buffer_price := W, random_buffer_volatility := V,
                        simulated_price := sp1, simulated_volatility := sv1 } } := by
  obtain ⟨p, v, W_p, W_v, sp1, sv1, hmul, hadd, hp, hv, hWp, hWv, hsp, hsv, hrun, _⟩ :=
    simulated_ll_replication.substep_in_bounds x s hS mu alpha_0 alpha_1 alpha_2 delta
      sqrt_delta j k hj0 hj hk0 hk
  refine ⟨sp1, sv1, hrun, ?_⟩
  rw [hWp] at hW
  rw [hWv] at hV
  simp only [simulated_ll_replication.substep, hmul, hadd, hp, hv, hW, hV, hsp, hsv]

/-- Claim C15, as amended.  The preconditions listed by the claim are not
enough; under the size conditions `Sized`, which add to them that the
parameter vector has at least five entries and that `N_sim * M_sim` is an
`int` (and which allow `N_sim = 0`, `M_sim = 0` and longer buffers):
(1) the call returns, that is, it runs into no access outside an array and
into no `int` overflow, and it leaves a memory that meets the size
conditions; (2) the entries `0..4` of `x` exist; (3) in every memory state
that meets the size conditions (the loop bodies keep them, so these are the
states of the run) and at every counter value in the range of its loop, each
loop body only makes accesses in bounds: the fill loop at `i`; the start of a
sub-path at `i - 1`, with `0 <= i - 1 <= N_obs - 1`, and at `j`; an Euler
sub-step at `j` and at the slot `j * M_sim + k`, computed without overflow,
with `0 <= j * M_sim + k <= N_sim * M_sim - 1`; the kernel loop at `j` and
`i`; (4) an Euler sub-step of sub-path `j` reads the increment buffers at its
slot `j * M_sim + k` only, and the slots of distinct sub-paths are distinct,
so distinct sub-paths read disjoint slices. -/
theorem simulated_ll_replication_in_bounds (E : Other α) (x grad : List α)
    (data : WrapperSimulatedReplication α) (hS : Sized x data) :
    (∃ r s, simulated_ll_replication E x grad data = some (r, s) ∧ Sized x s.data) ∧
    (∀ t : Int, 0 ≤ t → t ≤ 4 → ∃ v, load x t = some v) ∧
    (∀ s : EvalState α, Sized x s.data →
      (∀ (rho : α) (i : Int), 0 ≤ i → i < s.data.N_sim * s.data.M_sim →
        ∃ z_p W_v W,
          load s.data.random_buffer_price i = some z_p ∧
          load s.data.random_buffer_volatility i = some W_v ∧
          store s.data.wiener_buffer_price i (correlate rho z_p W_v) = some W ∧
          simulated_ll_replication.fill rho i s =
            some { s with data := { s.data with wiener_buffer_price := W } } ∧
          Sized x { s.data with wiener_buffer_price := W }) ∧
      (∀ (mu alpha_0 alpha_1 alpha_2 delta sqrt_delta : α) (i j : Int),
        1 ≤ i → i < s.data.N_obs → 0 ≤ j → j < s.data.N_sim →
        0 ≤ i - 1 ∧ i ≤ s.data.N_obs - 1 ∧
        ∃ p v sp1 sv1,
          isub i 1 = some (i - 1) ∧
          load s.data.price (i - 1) = some p ∧
          store s.data.simulated_price j p = some sp1 ∧
          load s.data.volatility (i - 1) = some v ∧
          store s.data.simulated_volatility j v = some sv1 ∧
          simulated_ll_replication.subpath mu alpha_0 alpha_1 alpha_2 delta sqrt_delta
              s.data.M_sim i j s =
            forLoop s.data.M_sim
              (simulated_ll_replication.substep mu alpha_0 alpha_1 alpha_2 delta sqrt_delta
                s.data.M_sim j) 0
              { s with data :=
                { s.data with simulated_price := sp1, simulated_volatility := sv1 } } ∧
          Sized x { s.data with simulated_price := sp1, simulated_volatility := sv1 }) ∧
      (∀ (mu alpha_0 alpha_1 alpha_2 delta sqrt_delta : α) (j k : Int),
        0 ≤ j → j < s.data.N_sim → 0 ≤ k → k < s.data.M_sim →
        0 ≤ j * s.data.M_sim + k ∧ j * s.data.M_sim + k ≤ s.data.N_sim * s.data.M_sim - 1 ∧
        ∃ p v W_p W_v sp1 sv1,
          imul j s.data.M_sim = some (j * s.data.M_sim) ∧
          iadd (j * s.data.M_sim) k = some (j * s.data.M_sim + k) ∧
          load s.data.simulated_price j = some p ∧
          load s.data.simulated_volatility j = some v ∧
          load s.data.wiener_buffer_price (j * s.data.M_sim + k) = some W_p ∧
          load s.data.random_buffer_volatility (j * s.data.M_sim + k) = some W_v ∧
          store s.data.simulated_price j (p + price_increment mu v W_p delta sqrt_delta) =
            some sp1 ∧
          store s.data.simulated_volatility j
              (v + volatility_increment alpha_0 alpha_1 alpha_2 v W_v delta sqrt_delta) =
            some sv1 ∧
          simulated_ll_replication.substep mu alpha_0 alpha_1 alpha_2 delta sqrt_delta
              s.data.M_sim j k s =
            some { s with data :=
              { s.data with simulated_price := sp1, simulated_volatility := sv1 } } ∧
          Sized x { s.data with simulated_price := sp1, simulated_volatility := sv1 }) ∧
      (∀ (h_price h_volatility sqrt_pi kernel_sum : α) (i j : Int),
        1 ≤ i → i < s.data.N_obs → 0 ≤ j → j < s.data.N_sim →
        ∃ sp p sv v,
          load s.data.simulated_price j = some sp ∧ load s.data.price i = some p ∧
          load s.data.simulated_volatility j = some sv ∧ load s.data.volatility i = some v ∧
          simulated_ll_replication.accumulate h_price h_volatility sqrt_pi i j
              (s, kernel_sum) =
            some (s,
              kernel_sum + kernel sv v h_volatility sqrt_pi * kernel sp p h_price sqrt_pi)) ∧
      (∀ (mu alpha_0 alpha_1 alpha_2 delta sqrt_delta : α) (j k : Int) (W V : List α),
        0 ≤ j → j < s.data.N_sim → 0 ≤ k → k < s.data.M_sim →
        load W (j * s.data.M_sim + k) =
          load s.data.wiener_buffer_price (j * s.data.M_sim + k) →
        load V (j * s.data.M_sim + k) =
          load s.data.random_buffer_volatility (j * s.data.M_sim + k) →
        ∃ sp1 sv1,
          simulated_ll_replication.substep mu alpha_0 alpha_1 alpha_2 delta sqrt_delta
              s.data.M_sim j k s =
            some { s with data :=
              { s.data with simulated_price := sp1, simulated_volatility := sv1 } } ∧
          simulated_ll_replication.substep mu alpha_0 alpha_1 alpha_2 delta sqrt_delta
              s.data.M_sim j k
              { s with data :=
                { s.data with wiener_buffer_price := W, random_buffer_volatility := V } } =
            some { s with data :=
              { s.data with wiener_buffer_price := W, random_buffer_volatility := V,
                            simulated_price := sp1, simulated_volatility := sv1 } })) ∧
    (∀ M j j1 k k1 : Int, 0 ≤ k → k < M → 0 ≤ k1 → k1 < M → j ≠ j1 →
      j * M + k ≠ j1 * M + k1) := by
  refine ⟨?_, ?_, ?_, ?_⟩
  · obtain ⟨m, _, _, hm⟩ := ll_outcome_memory E x grad data (data.N_obs.toNat - 1) 0
    refine ⟨_, _, simulated_ll_replication_eq E x grad data hS, ?_⟩
    rw [hm]
    have hl := ll_memory_lengths x grad data m
    have h1 := hS.simulated_price_length
    have h2 := hS.simulated_volatility_length
    have h3 := hS.wiener_buffer_price_length
    exact hS.workspace (ll_memory x grad data m).data.simulated_price
      (ll_memory x grad data m).data.simulated_volatility
      (ll_memory x grad data m).data.wiener_buffer_price (by omega) (by omega)
      (by simp only [ll_memory, length_overwrite]; exact h3)
  · intro t h0 h4
    have := hS.x_length
    exact load_in_bounds x t h0 (by omega)
  · intro s hs
    refine ⟨?_, ?_, ?_, ?_, ?_⟩
    · intro rho i hi0 hi
      exact simulated_ll_replication.fill_in_bounds x s hs rho i hi0 hi
    · intro mu alpha_0 alpha_1 alpha_2 delta sqrt_delta i j hi1 hi hj0 hj
      exact ⟨by omega, by omega,
        simulated_ll_replication.subpath_in_bounds x s hs mu alpha_0 alpha_1 alpha_2 delta
          sqrt_delta i j hi1 hi hj0 hj⟩
    · intro mu alpha_0 alpha_1 alpha_2 delta sqrt_delta j k hj0 hj hk0 hk
      obtain ⟨t0, t1, _, _⟩ :=
        slot_computed s.data.N_sim s.data.M_sim j k hs.slots_max hj0 hj hk0 hk
      exact ⟨t0, t1,
        simulated_ll_replication.substep_in_bounds x s hs mu alpha_0 alpha_1 alpha_2 delta
          sqrt_delta j k hj0 hj hk0 hk⟩
    · intro h_price h_volatility sqrt_pi kernel_sum i j hi1 hi hj0 hj
      exact simulated_ll_replication.accumulate_in_bounds x s hs h_price h_volatility sqrt_pi
        kernel_sum i j hi1 hi hj0 hj
    · intro mu alpha_0 alpha_1 alpha_2 delta sqrt_delta j k W V hj0 hj hk0 hk hW hV
      exact simulated_ll_replication.substep_reads_slot x s hs mu alpha_0 alpha_1 alpha_2 delta
        sqrt_delta j k hj0 hj hk0 hk W V hW hV
  · intro M j j1 k k1 hk0 hk hk10 hk1 hne h
    exact hne (slot_injective M j j1 k k1 hk0 hk hk10 hk1 h)

end Bounds

/-- Claim C15 fails as stated: the preconditions it lists do not keep the call
inside its arrays.  (1) The call `collapsed` meets them, and with a parameter
vector of four entries the read of `x[4]` (line 58) is out of bounds.  (2) The
call `oversized` meets them with `N_sim = M_sim = 65536`: the product of
line 86 is `2 ^ 32`, which is not an `int`.  In both cases the call runs into
undefined behaviour. -/
theorem listed_preconditions_insufficient :
    ((1 ≤ collapsed.N_obs ∧ 1 ≤ collapsed.N_sim ∧ 1 ≤ collapsed.M_sim ∧
        (collapsed.price.length : Int) = collapsed.N_obs ∧
        (collapsed.volatility.length : Int) = collapsed.N_obs ∧
        (collapsed.simulated_price.length : Int) = collapsed.N_sim ∧
        (collapsed.simulated_volatility.length : Int) = collapsed.N_sim ∧
        (collapsed.random_buffer_price.length : Int) = collapsed.N_sim * collapsed.M_sim ∧
        (collapsed.random_buffer_volatility.length : Int) = collapsed.N_sim * collapsed.M_sim ∧
        (collapsed.wiener_buffer_price.length : Int) = collapsed.N_sim * collapsed.M_sim) ∧
      load short_parameters 4 = none ∧
      simulated_ll_replication guarded short_parameters [] collapsed = none) ∧
    ((1 ≤ oversized.N_obs ∧ 1 ≤ oversized.N_sim ∧ 1 ≤ oversized.M_sim ∧
        (oversized.price.length : Int) = oversized.N_obs ∧
        (oversized.volatility.length : Int) = oversized.N_obs ∧
        (oversized.simulated_price.length : Int) = oversized.N_sim ∧
        (oversized.simulated_volatility.length : Int) = oversized.N_sim ∧
        (oversized.random_buffer_price.length : Int) = oversized.N_sim * oversized.M_sim ∧
        (oversized.random_buffer_volatility.length : Int) = oversized.N_sim * oversized.M_sim ∧
        (oversized.wiener_buffer_price.length : Int) = oversized.N_sim * oversized.M_sim) ∧
      zero_parameters.length = 5 ∧
      INT_MAX < oversized.N_sim * oversized.M_sim ∧
      imul oversized.N_sim oversized.M_sim = none ∧
      simulated_ll_replication guarded zero_parameters [] oversized = none) := by
  have hN : oversized.N_sim = 65536 := rfl
  have hM : oversized.M_sim = 65536 := rfl
  have hmul : imul oversized.N_sim oversized.M_sim = none := by
    rw [hN, hM]
    decide
  refine ⟨⟨by decide, by decide, ?_⟩, ⟨?_, rfl, ?_, hmul, ?_⟩⟩
  · simp [simulated_ll_replication, short_parameters, load]
  · rw [hN, hM]
    simp only [oversized, List.length_replicate, List.length_cons, List.length_nil]
    decide
  · rw [hN, hM]
    decide
  · have l0 : load zero_parameters 0 = some (XRat.fin 0) := rfl
    have l1 : load zero_parameters 1 = some (XRat.fin 0) := rfl
    have l2 : load zero_parameters 2 = some (XRat.fin 0) := rfl
    have l3 : load zero_parameters 3 = some (XRat.fin 0) := rfl
    have l4 : load zero_parameters 4 = some (XRat.fin 0) := rfl
    simp only [simulated_ll_replication, l0, l1, l2, l3, l4, hmul]

/-! ## The evaluator simulates with the equations of the path simulator -/

section SameEquations
variable {α : Type} [Add α] [Sub α] [Mul α] [Div α] [Neg α] [DoubleFns α]

/-- The loop over the sub-paths at observation `n + 1`, run on the memory left
by `n` observation steps, leaves the memory of `n + 1` steps. -/
theorem simulated_ll_replication.subpath_memory (x grad : List α)
    (data : WrapperSimulatedReplication α) (hS : Sized x data) (n : Nat)
    (hn : ((n + 1 : Nat) : Int) < data.N_obs) :
    forLoop data.N_sim
        (simulated_ll_replication.subpath (cell x 0) (cell x 1) (cell x 2) (cell x 3)
          (ll_delta data) (sqrt (ll_delta data)) data.M_sim ((n + 1 : Nat) : Int)) 0
        (ll_memory x grad data n) =
      some (ll_memory x grad data (n + 1)) := by
  obtain ⟨N, hN⟩ : ∃ N : Nat, data.N_sim = (N : Int) :=
    ⟨data.N_sim.toNat, (Int.toNat_of_nonneg hS.N_sim_nonneg).symm⟩
  obtain ⟨M, hM⟩ : ∃ M : Nat, data.M_sim = (M : Int) :=
    ⟨data.M_sim.toNat, (Int.toNat_of_nonneg hS.M_sim_nonneg).symm⟩
  have hNsp : N ≤ data.simulated_price.length := by
    have := hS.simulated_price_length; omega
  have hNsv : N ≤ data.simulated_volatility.length := by
    have := hS.simulated_volatility_length; omega
  have hlen := ll_memory_lengths x grad data n
  have hmem : ll_memory x grad data n =
      { grad := grad,
        data :=
          { data with
            wiener_buffer_price := overwrite data.wiener_buffer_price (ll_W_p x data) (N * M),
            simulated_price := (ll_memory x grad data n).data.simulated_price,
            simulated_volatility := (ll_memory x grad data n).data.simulated_volatility } } := by
    simp [ll_memory, hN, hM]
  have run1 := simulated_ll_replication.subpath_run x grad data hS N M n hN hM hn
    (ll_memory x grad data n).data.simulated_price
    (ll_memory x grad data n).data.simulated_volatility
    (by rw [hlen.1]; exact hNsp) (by rw [hlen.2]; exact hNsv)
  rw [← hmem] at run1
  have hsucc := ll_memory_succ x grad data n
  have hNt : data.N_sim.toNat = N := by rw [hN]; rfl
  have hMt : data.M_sim.toNat = M := by rw [hM]; rfl
  rw [hNt, hMt] at hsucc
  rw [← hsucc] at run1
  rw [hN, hM]
  exact run1

/-- Claim C12: let sub-path `j` of the evaluator at observation `i` be fed the
draws of a simulator step: `random_buffer_volatility[j * M + k] = z (2 k)` (the
draw that sub-step `k` of the simulator takes first) and
`random_buffer_price[j * M + k] = z (2 k + 1)` (the draw it takes second), for
`k < M = M_sim`.  Then the terminal point that the sub-path loop of
`simulated_ll_replication` leaves in cell `j` of the simulated buffers is the
path point `1` that `simulate_replication` with `M_obs = M`, the same
parameters and `dt`, produces from `(p, v) = (price[i-1], volatility[i-1])`.
It holds in every arithmetic and for every `dt`. -/
theorem subpath_matches_simulator (x grad : List α) (data : WrapperSimulatedReplication α)
    (hS : Sized x data) (z : Nat → α) (price0 volatility0 : List α) (i j : Nat)
    (hi : 1 ≤ i) (hiN : (i : Int) < data.N_obs) (hj : (j : Int) < data.N_sim)
    (hP0 : 2 ≤ price0.length) (hV0 : 2 ≤ volatility0.length)
    (hzv : ∀ k : Nat, (k : Int) < data.M_sim →
      data.random_buffer_volatility[j * data.M_sim.toNat + k]? = some (z (2 * k)))
    (hzp : ∀ k : Nat, (k : Int) < data.M_sim →
      data.random_buffer_price[j * data.M_sim.toNat + k]? = some (z (2 * k + 1))) :
    ∃ s s1,
      simulate_replication z price0 volatility0
          { mu := cell x 0, alpha_0 := cell x 1, alpha_1 := cell x 2, alpha_2 := cell x 3,
            rho := cell x 4 }
          data.dt 2 data.M_sim (cell data.price (i - 1)) (cell data.volatility (i - 1)) =
        some s ∧
      forLoop data.N_sim
          (simulated_ll_replication.subpath (cell x 0) (cell x 1) (cell x 2) (cell x 3)
            (data.dt / ofInt data.M_sim) (sqrt (data.dt / ofInt data.M_sim)) data.M_sim
            (i : Int)) 0
          (ll_memory x grad data (i - 1)) =
        some s1 ∧
      ∃ p v, s.price[1]? = some p ∧ s.volatility[1]? = some v ∧
        s1.data.simulated_price[j]? = some p ∧ s1.data.simulated_volatility[j]? = some v := by
  obtain ⟨n, rfl⟩ : ∃ n, i = n + 1 := ⟨i - 1, by omega⟩
  obtain ⟨N, hN⟩ : ∃ N : Nat, data.N_sim = (N : Int) :=
    ⟨data.N_sim.toNat, (Int.toNat_of_nonneg hS.N_sim_nonneg).symm⟩
  obtain ⟨M, hM⟩ : ∃ M : Nat, data.M_sim = (M : Int) :=
    ⟨data.M_sim.toNat, (Int.toNat_of_nonneg hS.M_sim_nonneg).symm⟩
  have hNt : data.N_sim.toNat = N := by rw [hN]; rfl
  have hMt : data.M_sim.toNat = M := by rw [hM]; rfl
  have hjN : j < N := by rw [hN] at hj; exact_mod_cast hj
  have hNsp : N ≤ data.simulated_price.length := by
    have := hS.simulated_price_length; omega
  have hNsv : N ≤ data.simulated_volatility.length := by
    have := hS.simulated_volatility_length; omega
  have hMmax : ((M : Nat) : Int) ≤ INT_MAX := by rw [← hM]; exact hS.M_sim_max
  have hsim := simulate_replication_eq z price0 volatility0
    { mu := cell x 0, alpha_0 := cell x 1, alpha_1 := cell x 2, alpha_2 := cell x 3,
      rho := cell x 4 }
    data.dt 2 M (cell data.price n) (cell data.volatility n) (by decide) (by decide) hMmax hP0 hV0
  have hsub := simulated_ll_replication.subpath_memory x grad data hS n hiN
  have hterm : ll_terminal x data (n + 1) j =
      sim_point
        { mu := cell x 0, alpha_0 := cell x 1, alpha_1 := cell x 2, alpha_2 := cell x 3,
          rho := cell x 4 }
        z (data.dt / ofInt (M : Int)) M (cell data.price n) (cell data.volatility n) 1 := by
    simp only [ll_terminal, sim_point, ll_delta, hMt, hM, Nat.add_sub_cancel]
    apply euler_path_congr
    · intro k hk
      have hk1 : (k : Int) < data.M_sim := by rw [hM]; exact_mod_cast hk
      have e1 := hzp k hk1
      have e2 := hzv k hk1
      rw [hMt] at e1 e2
      simp only [ll_W_p, sim_W_p, Int.toNat_ofNat, cell_of_getElem? _ _ _ e1,
        cell_of_getElem? _ _ _ e2, Nat.zero_mul, Nat.zero_add]
    · intro k hk
      have hk1 : (k : Int) < data.M_sim := by rw [hM]; exact_mod_cast hk
      have e2 := hzv k hk1
      rw [hMt] at e2
      simp only [ll_W_v, sim_W_v, Int.toNat_ofNat, cell_of_getElem? _ _ _ e2, Nat.zero_mul,
        Nat.zero_add]
  have hs : ∃ s,
      simulate_replication z price0 volatility0
          { mu := cell x 0, alpha_0 := cell x 1, alpha_1 := cell x 2, alpha_2 := cell x 3,
            rho := cell x 4 }
          data.dt 2 data.M_sim (cell data.price n) (cell data.volatility n) =
        some s ∧
      s.price[1]? = some (ll_terminal x data (n + 1) j).1 ∧
      s.volatility[1]? = some (ll_terminal x data (n + 1) j).2 := by
    rw [hM]
    refine ⟨_, hsim, ?_, ?_⟩
    · have h1 : 1 < price0.length := by omega
      simp only [getElem?_overwrite, hterm, h1]
      simp
    · have h1 : 1 < volatility0.length := by omega
      simp only [getElem?_overwrite, hterm, h1]
      simp
  obtain ⟨s, hs1, hs2, hs3⟩ := hs
  simp only [ll_delta] at hsub
  refine ⟨s, ll_memory x grad data (n + 1), ?_, ?_, (ll_terminal x data (n + 1) j).1,
    (ll_terminal x data (n + 1) j).2, hs2, hs3, ?_, ?_⟩
  · rw [Nat.add_sub_cancel]; exact hs1
  · rw [Nat.add_sub_cancel]; exact hsub
  · have h1 : j < data.simulated_price.length := by omega
    simp [ll_memory, getElem?_overwrite, hNt, hjN, h1]
  · have h1 : j < data.simulated_volatility.length := by omega
    simp [ll_memory, getElem?_overwrite, hNt, hjN, h1]

end SameEquations

/-! ## Independence of the observation steps -/

section Steps
variable {α : Type} [Add α] [Sub α] [Mul α] [Div α] [Neg α] [DoubleFns α]

/-- One turn of the main loop at observation `n + 1`, entered with any `ll` and
any contents `sp`, `sv` of the simulated buffers: it adds `log (ll_density
(n + 1))` to `ll` and enters the next turn with `kernel_sum = 0.0`. -/
theorem simulated_ll_replication.loop_step (E : Other α) (x grad : List α)
    (data : WrapperSimulatedReplication α) (hS : Sized x data) (n : Nat)
    (hn : ((n + 1 : Nat) : Int) < data.N_obs) (ll : α) (sp sv : List α)
    (hsp : data.N_sim ≤ sp.length) (hsv : data.N_sim ≤ sv.length) :
    simulated_ll_replication.loop E (cell x 0) (cell x 1) (cell x 2) (cell x 3) (ll_delta data)
        (sqrt (ll_delta data)) (sqrt (lit 2 * M_PI)) (h_frac data.N_obs) data.N_obs data.N_sim
        data.M_sim ((n + 1 : Nat) : Int) ll (lit 0) (ll_workspace x grad data sp sv) =
      if E.INFINITY_CHECK &&
          (isNegInfinity (ll + log (ll_density E x data (n + 1))) ||
            !isnormal (ll + log (ll_density E x data (n + 1)))) then
        some (E.max_double,
          ll_workspace x grad data
            (overwrite sp (fun j => (ll_terminal x data (n + 1) j).1) data.N_sim.toNat)
            (overwrite sv (fun j => (ll_terminal x data (n + 1) j).2) data.N_sim.toNat))
      else
        simulated_ll_replication.loop E (cell x 0) (cell x 1) (cell x 2) (cell x 3)
          (ll_delta data) (sqrt (ll_delta data)) (sqrt (lit 2 * M_PI)) (h_frac data.N_obs)
          data.N_obs data.N_sim data.M_sim ((n + 1 + 1 : Nat) : Int)
          (ll + log (ll_density E x data (n + 1))) (lit 0)
          (ll_workspace x grad data
            (overwrite sp (fun j => (ll_terminal x data (n + 1) j).1) data.N_sim.toNat)
            (overwrite sv (fun j => (ll_terminal x data (n + 1) j).2) data.N_sim.toNat)) := by
  obtain ⟨N, hN⟩ : ∃ N : Nat, data.N_sim = (N : Int) :=
    ⟨data.N_sim.toNat, (Int.toNat_of_nonneg hS.N_sim_nonneg).symm⟩
  obtain ⟨M, hM⟩ : ∃ M : Nat, data.M_sim = (M : Int) :=
    ⟨data.M_sim.toNat, (Int.toNat_of_nonneg hS.M_sim_nonneg).symm⟩
  have hne : ((n + 1 : Nat) : Int) ≠ data.N_obs := ne_of_lt hn
  have hlt : ¬ INT_MAX ≤ ((n + 1 : Nat) : Int) := by
    have := hS.N_obs_max; omega
  have hNsp : N ≤ sp.length := by omega
  have hNsv : N ≤ sv.length := by omega
  have hNt : data.N_sim.toNat = N := by rw [hN]; rfl
  have hMt : data.M_sim.toNat = M := by rw [hM]; rfl
  rw [simulated_ll_replication.loop]
  simp only [hne, hlt, if_false]
  have hw : ∀ a b : List α, ll_workspace x grad data a b =
      { grad := grad,
        data :=
          { data with
            wiener_buffer_price := overwrite data.wiener_buffer_price (ll_W_p x data) (N * M),
            simulated_price := a,
            simulated_volatility := b } } := by
    intro a b
    simp only [ll_workspace, hNt, hMt]
  have run1 := simulated_ll_replication.subpath_run x grad data hS N M n hN hM hn sp sv hNsp hNsv
  rw [← hw, ← hw] at run1
  rw [hNt]
  rw [hN, hM, run1]
  simp only []
  have htp : (ll_workspace x grad data
        (overwrite sp (fun j => (ll_terminal x data (n + 1) j).1) N)
        (overwrite sv (fun j => (ll_terminal x data (n + 1) j).2) N)).data.simulated_price.take
          N =
      ll_cloud_price x data (n + 1) := by
    simp only [ll_workspace, ll_cloud_price, hNt]
    exact take_overwrite _ _ _ hNsp
  have htv : (ll_workspace x grad data
        (overwrite sp (fun j => (ll_terminal x data (n + 1) j).1) N)
        (overwrite sv (fun j => (ll_terminal x data (n + 1) j).2) N)).data.simulated_volatility.take
          N =
      ll_cloud_volatility x data (n + 1) := by
    simp only [ll_workspace, ll_cloud_volatility, hNt]
    exact take_overwrite _ _ _ hNsv
  rw [htp, htv]
  have run2 := simulated_ll_replication.accumulate_run E x data hS N n hN hn
    (ll_workspace x grad data
      (overwrite sp (fun j => (ll_terminal x data (n + 1) j).1) N)
      (overwrite sv (fun j => (ll_terminal x data (n + 1) j).2) N))
    rfl rfl
    (by
      intro j hj
      have : j < sp.length := by omega
      simp [ll_workspace, getElem?_overwrite, hj, this])
    (by
      intro j hj
      have : j < sv.length := by omega
      simp [ll_workspace, getElem?_overwrite, hj, this])
  simp only [ll_h_price, ll_h_volatility, hN] at run2
  rw [run2]
  simp only [ll_density, hN, Int.toNat_ofNat]
  have hc : (((n + 1 : Nat) : Int) + 1) = ((n + 1 + 1 : Nat) : Int) := by push_cast; ring
  rw [hc]

theorem ll_terminal_congr (x : List α) (data data1 : WrapperSimulatedReplication α)
    (i i1 j : Nat) (hM : data1.M_sim = data.M_sim) (hdt : data1.dt = data.dt)
    (hrp : data1.random_buffer_price = data.random_buffer_price)
    (hrv : data1.random_buffer_volatility = data.random_buffer_volatility)
    (hp : cell data1.price (i1 - 1) = cell data.price (i - 1))
    (hv : cell data1.volatility (i1 - 1) = cell data.volatility (i - 1)) :
    ll_terminal x data1 i1 j = ll_terminal x data i j := by
  simp only [ll_terminal, ll_delta, ll_W_p, ll_W_v, hM, hdt, hrp, hrv, hp, hv]

theorem ll_kernel_sum_congr (E : Other α) (x : List α)
    (data data1 : WrapperSimulatedReplication α) (i i1 : Nat)
    (hNo : data1.N_obs = data.N_obs) (hN : data1.N_sim = data.N_sim)
    (hM : data1.M_sim = data.M_sim) (hdt : data1.dt = data.dt)
    (hrp : data1.random_buffer_price = data.random_buffer_price)
    (hrv : data1.random_buffer_volatility = data.random_buffer_volatility)
    (hp : cell data1.price (i1 - 1) = cell data.price (i - 1))
    (hv : cell data1.volatility (i1 - 1) = cell data.volatility (i - 1))
    (hp1 : cell data1.price i1 = cell data.price i)
    (hv1 : cell data1.volatility i1 = cell data.volatility i) (n : Nat) :
    ll_kernel_sum E x data1 i1 n = ll_kernel_sum E x data i n := by
  have ht : ∀ j, ll_terminal x data1 i1 j = ll_terminal x data i j :=
    fun j => ll_terminal_congr x data data1 i i1 j hM hdt hrp hrv hp hv
  induction n with
  | zero => rfl
  | succ n ih =>
    simp only [ll_kernel_sum, ih, ht, hp1, hv1, ll_h_price, ll_h_volatility, ll_cloud_price,
      ll_cloud_volatility, hNo, hN]

/-- The density estimate of a step is a function of the two observations of
the step, the parameters, the sizing and the random context only. -/
theorem ll_density_congr (E : Other α) (x : List α)
    (data data1 : WrapperSimulatedReplication α) (i i1 : Nat)
    (hNo : data1.N_obs = data.N_obs) (hN : data1.N_sim = data.N_sim)
    (hM : data1.M_sim = data.M_sim) (hdt : data1.dt = data.dt)
    (hrp : data1.random_buffer_price = data.random_buffer_price)
    (hrv : data1.random_buffer_volatility = data.random_buffer_volatility)
    (hp : cell data1.price (i1 - 1) = cell data.price (i - 1))
    (hv : cell data1.volatility (i1 - 1) = cell data.volatility (i - 1))
    (hp1 : cell data1.price i1 = cell data.price i)
    (hv1 : cell data1.volatility i1 = cell data.volatility i) :
    ll_density E x data1 i1 = ll_density E x data i := by
  simp only [ll_density, hN,
    ll_kernel_sum_congr E x data data1 i i1 hNo hN hM hdt hrp hrv hp hv hp1 hv1]

end Steps

theorem ll_sum_real_list (E : Other ℝ) (x : List ℝ) (data : WrapperSimulatedReplication ℝ)
    (n : Nat) :
    ll_sum E x data n =
      ((List.range' 1 n).map (fun i => Real.log (kernel_density E x data i))).sum := by
  induction n with
  | zero => simp [ll_sum, real_lit]
  | succ n ih =>
    rw [List.range'_concat, List.map_append, List.sum_append, ← ih]
    simp [ll_sum, ll_density_real, real_log, add_comm]

section Order
variable {α : Type} [Add α] [Sub α] [Mul α] [Div α] [Neg α] [DoubleFns α]

/-- The running log-likelihood after `n` steps is the sum of the terms of the
steps `1, ..., n`, accumulated in this order. -/
theorem ll_sum_in_order (E : Other α) (x : List α) (data : WrapperSimulatedReplication α)
    (n : Nat) :
    ll_sum E x data n =
      sum_in_order (fun i => log (ll_density E x data i)) (List.range' 1 n) := by
  induction n with
  | zero => rfl
  | succ n ih =>
    rw [List.range'_concat]
    simp only [sum_in_order, List.foldl_append, List.foldl_cons, List.foldl_nil] at ih ⊢
    rw [← ih, show 1 + 1 * n = n + 1 by omega]
    rfl

/-- When no guard fires, the call returns minus the sum of the terms of the
steps `1, ..., N_obs - 1`, accumulated in this order. -/
theorem simulated_ll_replication_in_order (E : Other α) (x grad : List α)
    (data : WrapperSimulatedReplication α) (hS : Sized x data)
    (hquiet : ∀ m : Nat, 1 ≤ m → (m : Int) < data.N_obs → ll_fires E x data m = false) :
    ∃ s, simulated_ll_replication E x grad data =
      some (-(sum_in_order (fun i => log (ll_density E x data i))
        (List.range' 1 (data.N_obs.toNat - 1))), s) := by
  have hN := hS.N_obs_pos
  refine ⟨ll_memory x grad data (data.N_obs.toNat - 1), ?_⟩
  rw [simulated_ll_replication_eq E x grad data hS]
  rcases ll_outcome_spec E x grad data (data.N_obs.toNat - 1) 0 with
    ⟨m, h1, h2, h3, _, _⟩ | ⟨_, h2⟩
  · have := hquiet m (by omega) (by omega)
    rw [h3] at this; cases this
  · rw [h2, Nat.zero_add, ll_sum_in_order]

end Order

theorem sum_in_order_real (t : Nat → ℝ) (l : List Nat) :
    sum_in_order t l = (l.map t).sum := by
  have h : ∀ (l : List Nat) (a : ℝ), l.foldl (fun acc i => acc + t i) a = a + (l.map t).sum := by
    intro l
    induction l with
    | nil => intro a; simp
    | cons b l ih => intro a; simp only [List.foldl_cons, ih, List.map_cons, List.sum_cons]; ring
  simp only [sum_in_order, h, real_lit]
  push_cast
  ring

/-- Claim C13, as amended.  In every arithmetic, under the size conditions:
(1) a turn of the main loop at observation `n + 1`, entered with any running
`ll` and any contents of the simulated buffers, adds `log (ll_density (n + 1))`
to `ll` and enters the next turn with `kernel_sum` reset to `0.0`; (2) the
term `log (ll_density i)` is a function of
`(price[i-1], volatility[i-1], price[i], volatility[i])`, the parameters, the
sizing and the random context alone: it is the same for another wrapper and
another index `i1` that agree on these, whatever the other observations and
the workspace are; (3) when no guard fires, the returned value is minus the
sum of the terms accumulated from `0.0` in the order `1, ..., N_obs - 1`.
(4) In exact arithmetic, where addition is associative and commutative, that
value is minus the sum of the terms accumulated in any order. -/
theorem observation_steps_independent :
    (∀ (α : Type) [Add α] [Sub α] [Mul α] [Div α] [Neg α] [DoubleFns α]
        (E : Other α) (x grad : List α) (data : WrapperSimulatedReplication α),
        Sized x data →
        (∀ (n : Nat) (ll : α) (sp sv : List α), ((n + 1 : Nat) : Int) < data.N_obs →
          data.N_sim ≤ sp.length → data.N_sim ≤ sv.length →
          simulated_ll_replication.loop E (cell x 0) (cell x 1) (cell x 2) (cell x 3)
              (ll_delta data) (sqrt (ll_delta data)) (sqrt (lit 2 * M_PI)) (h_frac data.N_obs)
              data.N_obs data.N_sim data.M_sim ((n + 1 : Nat) : Int) ll (lit 0)
              (ll_workspace x grad data sp sv) =
            if E.INFINITY_CHECK &&
                (isNegInfinity (ll + log (ll_density E x data (n + 1))) ||
                  !isnormal (ll + log (ll_density E x data (n + 1)))) then
              some (E.max_double,
                ll_workspace x grad data
                  (overwrite sp (fun j => (ll_terminal x data (n + 1) j).1) data.N_sim.toNat)
                  (overwrite sv (fun j => (ll_terminal x data (n + 1) j).2) data.N_sim.toNat))
            else
              simulated_ll_replication.loop E (cell x 0) (cell x 1) (cell x 2) (cell x 3)
                (ll_delta data) (sqrt (ll_delta data)) (sqrt (lit 2 * M_PI))
                (h_frac data.N_obs) data.N_obs data.N_sim data.M_sim ((n + 1 + 1 : Nat) : Int)
                (ll + log (ll_density E x data (n + 1))) (lit 0)
                (ll_workspace x grad data
                  (overwrite sp (fun j => (ll_terminal x data (n + 1) j).1) data.N_sim.toNat)
                  (overwrite sv (fun j => (ll_terminal x data (n + 1) j).2)
                    data.N_sim.toNat))) ∧
        (∀ (data1 : WrapperSimulatedReplication α) (i i1 : Nat),
          data1.N_obs = data.N_obs → data1.N_sim = data.N_sim → data1.M_sim = data.M_sim →
          data1.dt = data.dt → data1.random_buffer_price = data.random_buffer_price →
          data1.random_buffer_volatility = data.random_buffer_volatility →
          cell data1.price (i1 - 1) = cell data.price (i - 1) →
          cell data1.volatility (i1 - 1) = cell data.volatility (i - 1) →
          cell data1.price i1 = cell data.price i →
          cell data1.volatility i1 = cell data.volatility i →
          log (ll_density E x data1 i1) = log (ll_density E x data i)) ∧
        ((∀ m : Nat, 1 ≤ m → (m : Int) < data.N_obs → ll_fires E x data m = false) →
          ∃ s, simulated_ll_replication E x grad data =
            some (-(sum_in_order (fun i => log (ll_density E x data i))
              (List.range' 1 (data.N_obs.toNat - 1))), s))) ∧
    (∀ (E : Other ℝ) (x grad : List ℝ) (data : WrapperSimulatedReplication ℝ),
        Sized x data →
        (∀ m : Nat, 1 ≤ m → (m : Int) < data.N_obs → ll_fires E x data m = false) →
        ∀ l : List Nat, l.Perm (List.range' 1 (data.N_obs.toNat - 1)) →
          ∃ s, simulated_ll_replication E x grad data =
            some (-(sum_in_order (fun i => log (ll_density E x data i)) l), s)) := by
  constructor
  · intro α _ _ _ _ _ _ E x grad data hS
    refine ⟨?_, ?_, simulated_ll_replication_in_order E x grad data hS⟩
    · intro n ll sp sv hn hsp hsv
      exact simulated_ll_replication.loop_step E x grad data hS n hn ll sp sv hsp hsv
    · intro data1 i i1 hNo hN hM hdt hrp hrv hp hv hp1 hv1
      rw [ll_density_congr E x data data1 i i1 hNo hN hM hdt hrp hrv hp hv hp1 hv1]
  · intro E x grad data hS hquiet l hl
    obtain ⟨s, hs⟩ := simulated_ll_replication_in_order E x grad data hS hquiet
    refine ⟨s, ?_⟩
    rw [hs, sum_in_order_real, sum_in_order_real, (hl.map _).sum_eq]

/-- Claim C13 fails as stated, in its last part: with the rounding of binary64
the returned value depends on the order of the sum.  On the call
`shuffle_call` (four observations, two sub-paths of one sub-step) in a build
with the guard, no guard fires, the call returns minus the sum of its three
terms accumulated in the order `1, 2, 3`, and the sum accumulated in the order
`3, 2, 1` is another value, one unit in the last place away. -/
theorem reordering_changes_value :
    Sized shuffle_parameters shuffle_call ∧
    (∀ m : Nat, 1 ≤ m → (m : Int) < shuffle_call.N_obs →
      ll_fires rounded_guarded shuffle_parameters shuffle_call m = false) ∧
    (∃ s, simulated_ll_replication rounded_guarded shuffle_parameters [] shuffle_call =
      some (-(sum_in_order
        (fun i => log (ll_density rounded_guarded shuffle_parameters shuffle_call i))
        [1, 2, 3]), s)) ∧
    -(sum_in_order (fun i => log (ll_density rounded_guarded shuffle_parameters shuffle_call i))
        [1, 2, 3]) = ⟨XRat.fin (3240314769703381 / 562949953421312)⟩ ∧
    -(sum_in_order (fun i => log (ll_density rounded_guarded shuffle_parameters shuffle_call i))
        [3, 2, 1]) = ⟨XRat.fin (6480629539406763 / 1125899906842624)⟩ ∧
    -(sum_in_order (fun i => log (ll_density rounded_guarded shuffle_parameters shuffle_call i))
        [1, 2, 3]) ≠
      -(sum_in_order (fun i => log (ll_density rounded_guarded shuffle_parameters shuffle_call i))
        [3, 2, 1]) := by
  have hS : Sized shuffle_parameters shuffle_call := by constructor <;> decide
  have hquiet : ∀ m : Nat, 1 ≤ m → (m : Int) < shuffle_call.N_obs →
      ll_fires rounded_guarded shuffle_parameters shuffle_call m = false := by
    intro m h1 h2
    have h3 : m < 4 := by
      have : shuffle_call.N_obs = 4 := rfl
      omega
    interval_cases m <;> decide!
  refine ⟨hS, hquiet, ?_, ?_, ?_, ?_⟩
  · exact simulated_ll_replication_in_order rounded_guarded shuffle_parameters []
      shuffle_call hS hquiet
  · decide!
  · decide!
  · decide!

/-! ## The guard at a running log-likelihood of zero -/

theorem h_frac_two_pos : 0 < (h_frac 2 : ℝ) := by
  rw [h_frac_real]
  have h1 : (0 : ℝ) < (6 : ℝ) ^ ((1 : ℝ) / 5) := Real.rpow_pos_of_pos (by norm_num) _
  have h2 : (0 : ℝ) < ((2 : Int) : ℝ) ^ (-(3 : ℝ) / 10) :=
    Real.rpow_pos_of_pos (by norm_num) _
  exact mul_pos h1 h2

theorem unit_scale_pos : 0 < unit_scale := by
  unfold unit_scale
  have h := h_frac_two_pos
  have hpi := Real.pi_pos
  positivity

theorem unit_call_sized : Sized unit_parameters unit_call := by
  constructor <;> simp [unit_parameters, unit_call, INT_MAX]

theorem unit_call_terminal (i : Nat) :
    ll_terminal unit_parameters unit_call (i + 1) 0 = (unit_scale, 1) ∧
    ll_terminal unit_parameters unit_call (i + 1) 1 = (0, 0) ∧
    ll_terminal unit_parameters unit_call (i + 1) 2 = (-unit_scale, -1) := by
  cases i <;>
  simp [ll_terminal, euler_path, euler_substep, price_increment, volatility_increment, ll_W_p,
    ll_W_v, ll_delta, cell, unit_call, unit_parameters, correlate, real_lit, real_exp, real_sqrt,
    real_ofInt]

theorem unit_call_cloud :
    ll_cloud_price unit_parameters unit_call 1 = [unit_scale, 0, -unit_scale] ∧
    ll_cloud_volatility unit_parameters unit_call 1 = [1, 0, -1] := by
  obtain ⟨t0, t1, t2⟩ := unit_call_terminal 0
  rw [Nat.zero_add] at t0 t1 t2
  have hN : unit_call.N_sim.toNat = 3 := rfl
  have hr : List.range 3 = [0, 1, 2] := rfl
  constructor
  · simp only [ll_cloud_price, hN, hr, List.map_cons, List.map_nil, t0, t1, t2]
  · simp only [ll_cloud_volatility, hN, hr, List.map_cons, List.map_nil, t0, t1, t2]

theorem unit_call_bandwidths :
    ll_h_price real_guarded unit_parameters unit_call 1 = h_frac 2 * unit_scale ∧
    ll_h_volatility real_guarded unit_parameters unit_call 1 = h_frac 2 := by
  obtain ⟨cp, cv⟩ := unit_call_cloud
  have hc := unit_scale_pos
  have hN : unit_call.N_sim = 3 := rfl
  have hO : unit_call.N_obs = 2 := rfl
  constructor
  · simp only [ll_h_price, cp, hN, hO, real_guarded, sample_st_dev, List.foldl_cons,
      List.foldl_nil, real_lit, real_ofInt, real_sqrt]
    have : Real.sqrt (unit_scale ^ 2) = unit_scale := Real.sqrt_sq hc.le
    congr 1
    refine Eq.trans ?_ this
    congr 1
    push_cast
    ring
  · simp only [ll_h_volatility, cv, hN, hO, real_guarded, sample_st_dev, List.foldl_cons,
      List.foldl_nil, real_lit, real_ofInt, real_sqrt]
    have : Real.sqrt (1 : ℝ) = 1 := Real.sqrt_one
    rw [← mul_one (h_frac 2 : ℝ)]
    congr 1
    · ring
    · refine Eq.trans ?_ this
      congr 1
      push_cast
      ring

theorem unit_call_density : kernel_density real_guarded unit_parameters unit_call 1 = 1 := by
  obtain ⟨t0, t1, t2⟩ := unit_call_terminal 0
  rw [Nat.zero_add] at t0 t1 t2
  obtain ⟨hp, hv⟩ := unit_call_bandwidths
  simp only [ll_h_price, ll_h_volatility] at hp hv
  have hc := unit_scale_pos
  have hh := h_frac_two_pos
  have hpi := Real.pi_pos
  have hs : 0 < Real.sqrt (2 * Real.pi) := Real.sqrt_pos.2 (by positivity)
  have hs2 : Real.sqrt (2 * Real.pi) * Real.sqrt (2 * Real.pi) = 2 * Real.pi :=
    Real.mul_self_sqrt (by positivity)
  have hN : unit_call.N_sim.toNat = 3 := rfl
  have hNi : unit_call.N_sim = 3 := rfl
  have hp1 : cell unit_call.price 1 = 0 := rfl
  have hv1 : cell unit_call.volatility 1 = 0 := rfl
  have e1 : -(unit_scale - 0) ^ 2 / (2 * (h_frac 2 * unit_scale) ^ 2) =
      -1 / (2 * (h_frac 2 : ℝ) ^ 2) := by
    field_simp
    ring
  have e2 : -((1 : ℝ) - 0) ^ 2 / (2 * (h_frac 2 : ℝ) ^ 2) = -1 / (2 * (h_frac 2 : ℝ) ^ 2) := by
    norm_num
  have e3 : -(-unit_scale - 0) ^ 2 / (2 * (h_frac 2 * unit_scale) ^ 2) =
      -1 / (2 * (h_frac 2 : ℝ) ^ 2) := by
    field_simp
    ring
  have e4 : -((-1 : ℝ) - 0) ^ 2 / (2 * (h_frac 2 : ℝ) ^ 2) = -1 / (2 * (h_frac 2 : ℝ) ^ 2) := by
    norm_num
  have e5 : -((0 : ℝ) - 0) ^ 2 / (2 * (h_frac 2 * unit_scale) ^ 2) = 0 := by norm_num
  have e6 : -((0 : ℝ) - 0) ^ 2 / (2 * (h_frac 2 : ℝ) ^ 2) = 0 := by norm_num
  simp only [kernel_density, hN, hp, hv, hp1, hv1, Finset.sum_range_succ,
    Finset.sum_range_zero, t0, t1, t2, gaussian_kernel, e1, e2, e3, e4, e5, e6, Real.exp_zero,
    zero_add]
  rw [hNi]
  have hu : unit_scale * (3 * (h_frac 2 : ℝ) ^ 2 * (2 * Real.pi)) =
      2 * Real.exp (-1 / (2 * (h_frac 2 : ℝ) ^ 2)) ^ 2 + 1 := by
    unfold unit_scale
    field_simp
  generalize Real.exp (-1 / (2 * (h_frac 2 : ℝ) ^ 2)) = e at hu ⊢
  generalize Real.sqrt (2 * Real.pi) = r at hs hs2 ⊢
  generalize (h_frac 2 : ℝ) = h at hh hu ⊢
  generalize unit_scale = c at hc hu ⊢
  push_cast
  field_simp
  rw [← hs2] at hu
  nlinarith [hu]

section Abnormal
variable {α : Type} [Add α] [Sub α] [Mul α] [Div α] [Neg α] [DoubleFns α]

/-- When the guard is compiled in and its test holds of the running
log-likelihood after some observation step, the call returns the sentinel. -/
theorem sentinel_of_fires (E : Other α) (x grad : List α) (data : WrapperSimulatedReplication α)
    (hS : Sized x data) (m : Nat) (hm : 1 ≤ m) (hmN : (m : Int) < data.N_obs)
    (hf : ll_fires E x data m = true) :
    ∃ s, simulated_ll_replication E x grad data = some (E.max_double, s) := by
  rw [simulated_ll_replication_eq E x grad data hS]
  have hN := hS.N_obs_pos
  rcases ll_outcome_spec E x grad data (data.N_obs.toNat - 1) 0 with
    ⟨m1, _, _, _, _, h5⟩ | ⟨h1, _⟩
  · exact ⟨_, by rw [h5]⟩
  · have := h1 m (by omega) (by omega)
    rw [hf] at this; cases this

end Abnormal

/-- Claim C14: with `INFINITY_CHECK` defined and under the size conditions,
(1) in every arithmetic, if the running log-likelihood `ll_sum m` after some
observation step `m` is negative infinity or is not a normal value, the call
returns the sentinel `max_double`; (2) in exact arithmetic the value zero is
not normal, so a running log-likelihood of exactly zero gives the sentinel;
(3) this happens on a finite, non-degenerate input: on the call `unit_call`
both bandwidths are positive, the first density estimate is exactly `1`, the
running log-likelihood is `0`, the guarded build returns the sentinel, which
is not `0`, and the build without the guard returns `-ll = 0`. -/
theorem sentinel_on_zero_log_likelihood :
    (∀ (α : Type) [Add α] [Sub α] [Mul α] [Div α] [Neg α] [DoubleFns α]
        (E : Other α) (x grad : List α) (data : WrapperSimulatedReplication α),
        E.INFINITY_CHECK = true → Sized x data →
        ∀ m : Nat, 1 ≤ m → (m : Int) < data.N_obs →
          (isNegInfinity (ll_sum E x data m) = true ∨ isnormal (ll_sum E x data m) = false) →
          ∃ s, simulated_ll_replication E x grad data = some (E.max_double, s)) ∧
    (∀ (E : Other ℝ) (x grad : List ℝ) (data : WrapperSimulatedReplication ℝ),
        E.INFINITY_CHECK = true → Sized x data →
        ∀ m : Nat, 1 ≤ m → (m : Int) < data.N_obs → ll_sum E x data m = 0 →
          isnormal (ll_sum E x data m) = false ∧
            ∃ s, simulated_ll_replication E x grad data = some (E.max_double, s)) ∧
    (Sized unit_parameters unit_call ∧
      0 < ll_h_price real_guarded unit_parameters unit_call 1 ∧
      0 < ll_h_volatility real_guarded unit_parameters unit_call 1 ∧
      ll_density real_guarded unit_parameters unit_call 1 = 1 ∧
      ll_sum real_guarded unit_parameters unit_call 1 = 0 ∧
      (∃ s, simulated_ll_replication real_guarded unit_parameters [] unit_call =
        some (real_guarded.max_double, s)) ∧
      real_guarded.max_double ≠ 0 ∧
      ∃ s, simulated_ll_replication real_unguarded unit_parameters [] unit_call =
        some (0, s)) := by
  have hgen : ∀ (α : Type) [Add α] [Sub α] [Mul α] [Div α] [Neg α] [DoubleFns α]
      (E : Other α) (x grad : List α) (data : WrapperSimulatedReplication α),
      E.INFINITY_CHECK = true → Sized x data →
      ∀ m : Nat, 1 ≤ m → (m : Int) < data.N_obs →
        (isNegInfinity (ll_sum E x data m) = true ∨ isnormal (ll_sum E x data m) = false) →
        ∃ s, simulated_ll_replication E x grad data = some (E.max_double, s) := by
    intro α _ _ _ _ _ _ E x grad data hcheck hS m hm hmN hab
    refine sentinel_of_fires E x grad data hS m hm hmN ?_
    rcases hab with h | h <;> simp [ll_fires, hcheck, h]
  have hzero : ∀ (E : Other ℝ) (x grad : List ℝ) (data : WrapperSimulatedReplication ℝ),
      E.INFINITY_CHECK = true → Sized x data →
      ∀ m : Nat, 1 ≤ m → (m : Int) < data.N_obs → ll_sum E x data m = 0 →
        isnormal (ll_sum E x data m) = false ∧
          ∃ s, simulated_ll_replication E x grad data = some (E.max_double, s) := by
    intro E x grad data hcheck hS m hm hmN h0
    have hn : isnormal (ll_sum E x data m) = false := by simp [real_isnormal, h0]
    exact ⟨hn, hgen ℝ E x grad data hcheck hS m hm hmN (Or.inr hn)⟩
  have hd : ll_density real_guarded unit_parameters unit_call 1 = 1 := by
    rw [ll_density_real, unit_call_density]
  have hsum : ll_sum real_guarded unit_parameters unit_call 1 = 0 := by
    simp [ll_sum, hd, real_lit, real_log]
  have hsum0 : ll_sum real_unguarded unit_parameters unit_call 1 = 0 := by
    have : ll_density real_unguarded unit_parameters unit_call 1 =
        ll_density real_guarded unit_parameters unit_call 1 := rfl
    simp [ll_sum, this, hd, real_lit, real_log]
  obtain ⟨hp, hv⟩ := unit_call_bandwidths
  refine ⟨hgen, hzero, unit_call_sized, ?_, ?_, hd, hsum, ?_, ?_, ?_⟩
  · rw [hp]; exact mul_pos h_frac_two_pos unit_scale_pos
  · rw [hv]; exact h_frac_two_pos
  · exact (hzero real_guarded unit_parameters [] unit_call rfl unit_call_sized 1 le_rfl
      (by simp [unit_call]) hsum).2
  · simp only [real_guarded]
    norm_num
  · refine ⟨ll_memory unit_parameters [] unit_call 1, ?_⟩
    rw [simulated_ll_replication_eq _ _ _ _ unit_call_sized]
    have hN : unit_call.N_obs.toNat - 1 = 1 := rfl
    rw [hN]
    have hq : ll_fires real_unguarded unit_parameters unit_call (0 + 1) = false := by
      simp [ll_fires, real_unguarded]
    simp only [ll_outcome, hq, Nat.zero_add, hsum0, neg_zero]
    rfl

/-! ## Further claims at concrete inputs -/

/-- The call `spread` meets the size conditions. -/
theorem spread_sized : Sized boundary_parameters spread := by
  constructor <;> decide

/-- Claim C15 at a concrete input: the call `spread`, two sub-paths of two
sub-steps, in a build with the guard, returns and leaves a memory that meets
the size conditions. -/
theorem simulated_ll_replication_in_bounds_witness :
    Sized boundary_parameters spread ∧
      ∃ r s, simulated_ll_replication guarded boundary_parameters [] spread = some (r, s) ∧
        Sized boundary_parameters s.data :=
  ⟨spread_sized,
    (simulated_ll_replication_in_bounds guarded boundary_parameters [] spread spread_sized).1⟩

/-- Claim C12 at a concrete input: sub-path `0` of the call `spread` at
observation `1`, against a simulator step fed the draws `spread_stream`. -/
theorem subpath_matches_simulator_witness :
    Sized boundary_parameters spread ∧
      (∀ k : Nat, (k : Int) < spread.M_sim →
        spread.random_buffer_volatility[0 * spread.M_sim.toNat + k]? =
          some (spread_stream (2 * k))) ∧
      (∀ k : Nat, (k : Int) < spread.M_sim →
        spread.random_buffer_price[0 * spread.M_sim.toNat + k]? =
          some (spread_stream (2 * k + 1))) ∧
      ∃ s s1,
        simulate_replication spread_stream [XRat.fin 0, XRat.fin 0] [XRat.fin 0, XRat.fin 0]
            { mu := cell boundary_parameters 0, alpha_0 := cell boundary_parameters 1,
              alpha_1 := cell boundary_parameters 2, alpha_2 := cell boundary_parameters 3,
              rho := cell boundary_parameters 4 }
            spread.dt 2 spread.M_sim (cell spread.price (1 - 1))
            (cell spread.volatility (1 - 1)) =
          some s ∧
        forLoop spread.N_sim
            (simulated_ll_replication.subpath (cell boundary_parameters 0)
              (cell boundary_parameters 1) (cell boundary_parameters 2)
              (cell boundary_parameters 3) (spread.dt / ofInt spread.M_sim)
              (sqrt (spread.dt / ofInt spread.M_sim)) spread.M_sim ((1 : Nat) : Int)) 0
            (ll_memory boundary_parameters [] spread (1 - 1)) =
          some s1 ∧
        ∃ p v, s.price[1]? = some p ∧ s.volatility[1]? = some v ∧
          s1.data.simulated_price[0]? = some p ∧ s1.data.simulated_volatility[0]? = some v :=
  have hzv : ∀ k : Nat, (k : Int) < spread.M_sim →
      spread.random_buffer_volatility[0 * spread.M_sim.toNat + k]? =
        some (spread_stream (2 * k)) := by
    intro k hk
    have hk2 : k < 2 := by
      have : spread.M_sim = 2 := rfl
      omega
    interval_cases k <;> rfl
  have hzp : ∀ k : Nat, (k : Int) < spread.M_sim →
      spread.random_buffer_price[0 * spread.M_sim.toNat + k]? =
        some (spread_stream (2 * k + 1)) := by
    intro k hk
    have hk2 : k < 2 := by
      have : spread.M_sim = 2 := rfl
      omega
    interval_cases k <;> rfl
  ⟨spread_sized, hzv, hzp,
    subpath_matches_simulator boundary_parameters [] spread spread_sized spread_stream
      [XRat.fin 0, XRat.fin 0] [XRat.fin 0, XRat.fin 0] 1 0 (by decide) (by decide) (by decide)
      (by decide) (by decide) hzv hzp⟩

/-- Claim C13 at a concrete input: in exact arithmetic the call `real_call` in
a build without the guard returns minus the sum of its two terms accumulated
in the order `2, 1`. -/
theorem observation_steps_independent_witness :
    Sized real_parameters real_call ∧
      ∃ s, simulated_ll_replication real_unguarded real_parameters [] real_call =
        some (-(sum_in_order
          (fun i => log (ll_density real_unguarded real_parameters real_call i)) [2, 1]), s) :=
  ⟨real_call_sized,
    observation_steps_independent.2 real_unguarded real_parameters [] real_call real_call_sized
      (fun m _ _ => by simp [ll_fires, real_unguarded]) [2, 1]
      (by
        rw [show List.range' 1 (real_call.N_obs.toNat - 1) = [1, 2] from rfl]
        exact List.Perm.swap 1 2 [])⟩
end NPSMLE
